import Mathlib

/-!
# NUFS: a shallow embedding of the FUSE file-system core

The embedding follows `inode.c`, `directory.c` and `storage.c`.

* The image is a run of 4096-byte blocks.  A block is read in two ways by the
  code: as a table of `dirent_t` slots (`State.dirents`) and as raw bytes
  (`State.bytes`, one flat address space, byte `k` of block `b` living at
  address `4096 * b + k`, so that a copy running past the end of a block lands
  in the next block).  The inode table (blocks 1..5) is `State.inodes`, the two
  bitmaps of block 0 are `State.inode_bitmap` and `State.blocks_bitmap`.
  The views are kept as separate components of the state: a write through
  one view shows in no other view.  The embedding therefore follows the code
  only for calls that write each view inside its own part of the image; the
  predicates `well_typed`, `path_fits`, `name_fits`, `dirs_along` and
  `block_apart` state these bounds, `create_within`, `write_within`,
  `link_within`, `unlink_within` and `rename_within` collect them for each
  call, and the general claims about calls that write carry them as
  preconditions.
* C `int` values are `Int`; an index handed to `get_inode`, `blocks_get_block`
  or a bitmap is any `Int`, as in the source, where none of them is checked.
* Strings are `List Char`, one character for one byte other than the
  terminator; `strcmp(a, b) == 0` is equality.  The widths of the `name` field
  (10 bytes, followed by 2 bytes of padding) and of the 50-byte path buffer are
  not modelled: `directory_put` and `get_dir_path` follow the code for names of
  at most 11 bytes and for paths that fit the buffer (`name_fits`,
  `path_fits`).
* A failed `assert` or a dereference of `NULL` ends the process: an operation
  then yields `Outcome.abort s`, `s` being the image at that moment.
-/

namespace NUFS

/-- The inode record of `inode.h`.  The fields are values of C types (`int`,
and `mode_t` for `mode`): a record with a field outside the range of its type
is the record of no image. -/
structure inode_t where
  refs : Int
  mode : Int
  size : Int
  block : Int
  deriving DecidableEq, Repr

/-- The directory entry of `directory.h`; `free = 1` marks a slot in use. -/
structure dirent_t where
  name : List Char
  inum : Int
  free : Int
  deriving DecidableEq, Repr

/-- The mounted image, as typed views of its bytes: the two bitmaps of block
0, the inode table, the entry table of each block and the bytes of the data.
The views are separate components; they are the image as long as no call
writes one view through another (see `well_typed`). -/
structure State where
  inode_bitmap : Int → Bool
  blocks_bitmap : Int → Bool
  inodes : Int → inode_t
  dirents : Int → Nat → dirent_t
  bytes : Int → Nat

/-- The result of an operation: it returns `rv` leaving the image `s`, or the
process is ended (assertion failure, `NULL` dereference) with the image `s`. -/
inductive Outcome where
  | ret (rv : Int) (s : State)
  | abort (s : State)

/-- `INODE_COUNT` of `inode.c`. -/
def INODE_COUNT : Nat := 250

/-- Modelled from the spec: the number of blocks of the image (`blocks.h` is
absent); `inode.c` speaks of 256 total blocks. -/
def BLOCK_COUNT : Nat := 256

/-- `DIR_SIZE` of `directory.c`. -/
def DIR_SIZE : Nat := 4096

/-- `DIRENT_SIZE = sizeof(dirent_t)`: 10 bytes of name, 2 of padding, two
4-byte ints, 6 reserved bytes, rounded up to the alignment of `int`. -/
def DIRENT_SIZE : Nat := 28

/-- `DIRENT_COUNT` of `directory.c`. -/
def DIRENT_COUNT : Nat := DIR_SIZE / DIRENT_SIZE

/-- The loop shape shared by the scans of the source,
`for (i = lo; i < lo + n; i++) if (p i) return i;`: the first index of
`[lo, lo + n)` at which `p` holds. -/
def first_index (p : Nat → Bool) : Nat → Nat → Option Nat
  | _, 0 => none
  | lo, n + 1 => if p lo then some lo else first_index p (lo + 1) n

/-- Modelled from the spec: `bitmap_get` of the bit allocator (`bitmap.c` is
absent): the bit at index `i`. -/
def bitmap_get (bm : Int → Bool) (i : Int) : Bool := bm i

/-- Modelled from the spec: `bitmap_put` of the bit allocator (`bitmap.c` is
absent): sets the bit at index `i` to `v`, every other bit kept. -/
def bitmap_put (bm : Int → Bool) (i : Int) (v : Bool) : Int → Bool :=
  fun j => if j = i then v else bm j

/-- `get_inode`: the record at index `inum` of the inode table.  The code
computes the address `block 1 + 16 * inum` for any `inum`; the record of the
embedding is that of the code for the ids of the table (`inode_id`) and for
`-1`, whose 16 bytes end block 0. -/
def get_inode (s : State) (inum : Int) : inode_t := s.inodes inum

/-- Store `r` at index `inum` of the inode table (a write through the pointer
that `get_inode` returns). -/
def set_inode (s : State) (inum : Int) (r : inode_t) : State :=
  { s with inodes := fun j => if j = inum then r else s.inodes j }

/-- Store `e` in slot `i` of the entry table of block `b`. -/
def set_dirent (s : State) (b : Int) (i : Nat) (e : dirent_t) : State :=
  { s with dirents := fun b2 j => if b2 = b ∧ j = i then e else s.dirents b2 j }

/-- `alloc_inode`: the first id of `[0, INODE_COUNT)` whose bit is clear is
marked and returned; `-1` when there is none. -/
def alloc_inode (s : State) : Int × State :=
  match first_index (fun ii => !bitmap_get s.inode_bitmap ii) 0 INODE_COUNT with
  | some ii => ((ii : Int), { s with inode_bitmap := bitmap_put s.inode_bitmap ii true })
  | none => (-1, s)

/-- `free_inode`. -/
def free_inode (s : State) (inum : Int) : State :=
  { s with inode_bitmap := bitmap_put s.inode_bitmap inum false }

/-- Modelled from the spec: `alloc_block` of the block store (`blocks.c` is
absent), "allocate a free block index": the first index of `[1, BLOCK_COUNT)`
whose bit is clear is marked and returned, `-1` when there is none (block 0
holds the bitmaps). -/
def alloc_block (s : State) : Int × State :=
  match first_index (fun ii => !bitmap_get s.blocks_bitmap ii) 1 (BLOCK_COUNT - 1) with
  | some ii => ((ii : Int), { s with blocks_bitmap := bitmap_put s.blocks_bitmap ii true })
  | none => (-1, s)

/-- Modelled from the spec: `s_explode` (`slist.c` is absent), "split the given
text on the given delimiter into a list of strings": the empty text gives the
empty list (`NULL`), and a delimiter that ends the text opens no further
component. -/
def s_explode (delim : Char) : List Char → List (List Char)
  | [] => []
  | c :: cs =>
    if c = delim then [] :: s_explode delim cs
    else match s_explode delim cs with
      | [] => [[c]]
      | p :: ps => (c :: p) :: ps

/-- `directory_lookup`: the inum of the first slot in use whose name is `name`.
The test `dir_entry->name == NULL` compares the address of an array member and
is never true. -/
def directory_lookup (s : State) (inum : Int) (name : List Char) : Int :=
  let dir_block := (get_inode s inum).block
  match first_index (fun i => decide ((s.dirents dir_block i).free = 1
      ∧ (s.dirents dir_block i).name = name)) 0 DIRENT_COUNT with
  | some i => (s.dirents dir_block i).inum
  | none => -1

/-- The `while` loop of `tree_lookup`. -/
def tree_walk (s : State) : Int → List (List Char) → Int
  | current_inum, [] => current_inum
  | current_inum, c :: cs =>
    let res := directory_lookup s current_inum c
    if res = -1 then -1 else tree_walk s res cs

/-- `tree_lookup`; `none` is the dereference of `NULL` on the empty path. -/
def tree_lookup (s : State) (path : List Char) : Option Int :=
  if path = ['/'] then some 2
  else match s_explode '/' path with
    | [] => none
    | _ :: path_split => some (tree_walk s 2 path_split)

/-- The `while` loop of `get_dir_path`: every component but the last is
appended to the path built so far, followed by a slash. -/
def build_dir_path : List Char → List (List Char) → List Char
  | build, [] => build
  | build, [_] => build
  | build, c :: d :: cs => build_dir_path (build ++ (c ++ ['/'])) (d :: cs)

/-- `get_dir_path`; `none` when `s_explode` gives `NULL` or the assertion
`path_split != NULL` fails.  The result is built in a buffer of 50 bytes, each
component being extended by a slash in place: the list of the embedding is the
string of the code for a path that fits (`path_fits`). -/
def get_dir_path (file_path : List Char) : Option (List Char) :=
  match s_explode '/' file_path with
  | [] => none
  | [_] => none
  | _ :: c :: cs => some (build_dir_path ['/'] (c :: cs))

/-- The `while` loop of `get_file_name`: the last string of the list. -/
def last_string : List Char → List (List Char) → List Char
  | d, [] => d
  | _, c :: cs => last_string c cs

/-- `get_file_name`; `none` when a `NULL` list node is dereferenced. -/
def get_file_name (file_path : List Char) : Option (List Char) :=
  match s_explode '/' file_path with
  | [] => none
  | [_] => none
  | _ :: c :: cs => some (last_string c cs)

/-- `directory_put`: the entry goes into the first slot not in use.  The
name is stored as given, which is what `strcpy` into the 10-byte field
followed by the store of `inum` at byte 12 leaves for a name of at most 11
bytes (`name_fits`); a longer name is cut by that store or runs into the next
slot, which the embedding does not show. -/
def directory_put (s : State) (dir_inum : Int) (name : List Char) (entry_inum : Int) :
    Int × State :=
  let dir_block := (get_inode s dir_inum).block
  match first_index (fun i => decide ((s.dirents dir_block i).free = 0)) 0 DIRENT_COUNT with
  | some i => (0, set_dirent s dir_block i { name := name, inum := entry_inum, free := 1 })
  | none => (-1, s)

/-- `directory_delete`: after the lookup guard, the first slot whose name is
`entry_name` gets `free = 0`, and the size of the inode that the name resolves
to after that is taken off the size of the directory. -/
def directory_delete (s : State) (dir_inum : Int) (entry_name : List Char) : Int × State :=
  if directory_lookup s dir_inum entry_name = -1 then (-1, s)
  else
    let dir_block := (get_inode s dir_inum).block
    match first_index (fun i => decide ((s.dirents dir_block i).name = entry_name))
        0 DIRENT_COUNT with
    | some i =>
      let s1 := set_dirent s dir_block i { (s.dirents dir_block i) with free := 0 }
      let file_num := directory_lookup s1 dir_inum entry_name
      let dir_inode := get_inode s1 dir_inum
      (0, set_inode s1 dir_inum
            { dir_inode with size := dir_inode.size - (get_inode s1 file_num).size })
    | none => (-1, s)

/-- Conversion of a value to `int` (32 bits, two's complement), as when the
`size_t` sum `file_inode->size + size` is stored in the `int` field. -/
def to_int32 (x : Int) : Int := (x + 2147483648) % 4294967296 - 2147483648

/-- `memcpy(block + offset, buf, size)` into the image: `size` bytes of `buf`
are stored from address `addr` on.  Only the bytes view changes: the copy is
that of the code as long as it stays inside a data block that no entry table
read afterwards shares (`data_block`, `block_apart`). -/
def memcpy_to (s : State) (addr : Int) (buf : List Nat) (size : Nat) : State :=
  { s with bytes := fun a =>
      if addr ≤ a ∧ a < addr + size then buf.getD (a - addr).toNat 0 else s.bytes a }

/-- `memcpy(buf, block + offset, size)` out of the image: the `size` bytes
found from address `addr` on. -/
def memcpy_from (s : State) (addr : Int) (size : Nat) : List Nat :=
  (List.range size).map (fun k : Nat => s.bytes (addr + (k : Int)))

/-- `storage_read`: the value returned and the content of `buf` afterwards;
`none` when the process is ended. -/
def storage_read (s : State) (path : List Char) (buf : List Nat) (size : Nat) (offset : Int) :
    Option (Int × List Nat) :=
  match tree_lookup s path with
  | none => none
  | some file_inum =>
    if file_inum = -1 then some (-1, buf)
    else
      let file_inode := get_inode s file_inum
      some (to_int32 size,
        memcpy_from s (4096 * file_inode.block + offset) size ++ buf.drop size)

/-- `storage_write`: the checks and their order are those of the code, which
asserts `offset < 4096` and, after the copy, `size <= 4096` of the accumulated
size; the copy itself is `memcpy_to`, with its bounds. -/
def storage_write (s : State) (path : List Char) (buf : List Nat) (size : Nat) (offset : Int) :
    Outcome :=
  if ¬ offset < 4096 then .abort s
  else match tree_lookup s path with
    | none => .abort s
    | some file_inum =>
      if file_inum = -1 then .ret (-1) s
      else
        let file_inode := get_inode s file_inum
        let s1 := memcpy_to s (4096 * file_inode.block + offset) buf size
        let s2 := set_inode s1 file_inum
          { (get_inode s1 file_inum) with size := to_int32 ((get_inode s1 file_inum).size + size) }
        if ¬ (get_inode s2 file_inum).size ≤ 4096 then .abort s2
        else match get_dir_path path with
          | none => .abort s2
          | some dir_path =>
            match tree_lookup s2 dir_path with
            | none => .abort s2
            | some parent_inode =>
              .ret (to_int32 size) (set_inode s2 parent_inode
                { (get_inode s2 parent_inode) with
                  size := to_int32 ((get_inode s2 parent_inode).size + size) })

/-- `storage_mknod`. -/
def storage_mknod (s : State) (path : List Char) (mode : Int) : Outcome :=
  match tree_lookup s path with
  | none => .abort s
  | some r =>
    if r ≠ -1 then .ret (-1) s
    else
      let (file_inum, s1) := alloc_inode s
      if file_inum = -1 then .abort s1
      else
        let s2 := set_inode s1 file_inum
          { (get_inode s1 file_inum) with refs := 1, mode := mode, size := 0 }
        let (file_bnum, s3) := alloc_block s2
        if file_bnum = -1 then .abort s3
        else
          let s4 := set_inode s3 file_inum { (get_inode s3 file_inum) with block := file_bnum }
          match get_dir_path path, get_file_name path with
          | some dir_path, some file_name =>
            match tree_lookup s4 dir_path with
            | none => .abort s4
            | some dir_inum =>
              if dir_inum = -1 then .abort s4
              else .ret 0 (directory_put s4 dir_inum file_name file_inum).2
          | _, _ => .abort s4

/-- `storage_unlink`. -/
def storage_unlink (s : State) (path : List Char) : Outcome :=
  match tree_lookup s path with
  | none => .abort s
  | some file_inum =>
    if file_inum = -1 then .ret (-1) s
    else
      let s1 := set_inode s file_inum
        { (get_inode s file_inum) with refs := (get_inode s file_inum).refs - 1 }
      match get_dir_path path, get_file_name path with
      | some dir_path, some file_name =>
        match tree_lookup s1 dir_path with
        | none => .abort s1
        | some dir_inum =>
          if dir_inum = -1 then .abort s1
          else
            let s2 := (directory_delete s1 dir_inum file_name).2
            if (get_inode s2 file_inum).refs = 0 then
              .ret 0 { s2 with
                blocks_bitmap := bitmap_put s2.blocks_bitmap (get_inode s2 file_inum).block false
                inode_bitmap := bitmap_put s2.inode_bitmap file_inum false }
            else .ret 0 s2
      | _, _ => .abort s1

/-- `storage_link`. -/
def storage_link (s : State) (src dst : List Char) : Outcome :=
  match tree_lookup s dst with
  | none => .abort s
  | some t =>
    if t ≠ -1 then .ret (-1) s
    else match tree_lookup s src with
      | none => .abort s
      | some file_inum =>
        if file_inum = -1 then .ret (-1) s
        else
          let s1 := set_inode s file_inum
            { (get_inode s file_inum) with refs := (get_inode s file_inum).refs + 1 }
          match get_dir_path dst, get_file_name dst with
          | some parent_path, some file_name =>
            match tree_lookup s1 parent_path with
            | none => .abort s1
            | some dir_inum =>
              if dir_inum = -1 then .ret (-1) s1
              else .ret 0 (directory_put s1 dir_inum file_name file_inum).2
          | _, _ => .abort s1

/-- The part of `storage_rename` after the target has been dealt with: the
entry of `src` is deleted and an entry for `dst` is put. -/
def rename_move (s : State) (src dst : List Char) (file_inum : Int) : Outcome :=
  match get_dir_path src with
  | none => .abort s
  | some from_dir_path =>
    match tree_lookup s from_dir_path with
    | none => .abort s
    | some from_dir_inum =>
      if from_dir_inum = -1 then .abort s
      else match get_file_name src with
        | none => .abort s
        | some from_file_name =>
          let s1 := (directory_delete s from_dir_inum from_file_name).2
          match get_dir_path dst with
          | none => .abort s1
          | some to_dir_path =>
            match tree_lookup s1 to_dir_path with
            | none => .abort s1
            | some to_dir_inum =>
              if to_dir_inum = -1 then .ret (-1) s1
              else match get_file_name dst with
                | none => .abort s1
                | some to_file_name =>
                  .ret 0 (directory_put s1 to_dir_inum to_file_name file_inum).2

/-- `storage_rename`. -/
def storage_rename (s : State) (src dst : List Char) : Outcome :=
  match tree_lookup s src with
  | none => .abort s
  | some file_inum =>
    if file_inum = -1 then .ret (-1) s
    else match tree_lookup s dst with
      | none => .abort s
      | some to_file_inum =>
        if to_file_inum ≠ -1 then
          if file_inum = to_file_inum then .ret 0 s
          else match storage_unlink s dst with
            | .abort s1 => .abort s1
            | .ret ret s1 => if ret = 0 then rename_move s1 src dst file_inum else .abort s1
        else rename_move s src dst file_inum

/-- `directory_init`. -/
def directory_init (s : State) (path : List Char) (mode : Int) : Outcome :=
  match tree_lookup s path with
  | none => .abort s
  | some r =>
    if r ≠ -1 then .ret (-1) s
    else
      let (dir_inum, s1) := alloc_inode s
      if dir_inum = -1 then .abort s1
      else
        let s2 := set_inode s1 dir_inum
          { (get_inode s1 dir_inum) with refs := 1, mode := mode, size := 0 }
        let (dir_bnum, s3) := alloc_block s2
        if dir_bnum = -1 then .abort s3
        else
          let s4 := set_inode s3 dir_inum { (get_inode s3 dir_inum) with block := dir_bnum }
          match get_dir_path path with
          | none => .abort s4
          | some upper_dir_path =>
            match tree_lookup s4 upper_dir_path with
            | none => .abort s4
            | some upper_dir_inum =>
              if upper_dir_inum = -1 then .ret (-1) s4
              else match get_file_name path with
                | none => .abort s4
                | some dir_name =>
                  let (res, s5) := directory_put s4 upper_dir_inum dir_name dir_inum
                  if res ≠ 0 then .abort s5
                  else
                    let (res2, s6) := directory_put s5 dir_inum ['.'] dir_inum
                    if res2 ≠ 0 then .abort s6
                    else
                      let (res3, s7) := directory_put s6 dir_inum ['.', '.'] upper_dir_inum
                      if res3 ≠ 0 then .abort s7 else .ret 0 s7

/-- `root_init`. -/
def root_init (s : State) : Outcome :=
  let dir_inum : Int := 2
  let s1 := { s with inode_bitmap := bitmap_put s.inode_bitmap 2 true }
  let s2 := set_inode s1 dir_inum
    { (get_inode s1 dir_inum) with refs := 1, mode := 16384, size := 0 }
  let (dir_bnum, s3) := alloc_block s2
  if dir_bnum = -1 then .abort s3
  else
    let s4 := set_inode s3 dir_inum { (get_inode s3 dir_inum) with block := dir_bnum }
    let (res2, s5) := directory_put s4 dir_inum ['.'] dir_inum
    if res2 ≠ 0 then .abort s5 else .ret 0 s5

/-- `inode_table_init`: blocks 1..5 are marked used. -/
def inode_table_init (s : State) : State :=
  { s with blocks_bitmap :=
      bitmap_put (bitmap_put (bitmap_put (bitmap_put (bitmap_put s.blocks_bitmap 1 true)
        2 true) 3 true) 4 true) 5 true }

/-- Modelled from the spec: `blocks_init` of the block store (`blocks.c` is
absent) on an image that does not exist yet: every byte is zero, and block 0,
"reserved for the two bitmaps", is marked used. -/
def blank_image : State :=
  { inode_bitmap := fun _ => false
    blocks_bitmap := fun i => decide (i = 0)
    inodes := fun _ => { refs := 0, mode := 0, size := 0, block := 0 }
    dirents := fun _ _ => { name := [], inum := 0, free := 0 }
    bytes := fun _ => 0 }

/-- `storage_init` on the image `s` that `blocks_init` has mapped. -/
def storage_init (s : State) : Outcome :=
  let s1 := if bitmap_get s.blocks_bitmap 1 = false then inode_table_init s else s
  if bitmap_get s1.inode_bitmap 2 = false then
    match root_init s1 with
    | .abort s2 => .abort s2
    | .ret _ s2 => .ret 0 s2
  else .ret 0 s1

/-- The image after an operation, however it ended. -/
def Outcome.state : Outcome → State
  | .ret _ s => s
  | .abort s => s

/-- The value returned, `none` when the process was ended. -/
def Outcome.rv : Outcome → Option Int
  | .ret r _ => some r
  | .abort _ => none


/-- The lookups that the loop of `tree_lookup` performs from `current_inum` on
the components given: each pair is a directory inode and the name looked up in
its entry table. -/
def walk_steps (s : State) : Int → List (List Char) → List (Int × List Char)
  | _, [] => []
  | current_inum, c :: cs =>
    (current_inum, c) ::
      (if directory_lookup s current_inum c = -1 then []
       else walk_steps s (directory_lookup s current_inum c) cs)

/-- The directory inodes whose entry table `tree_lookup` reads while it
resolves `path`. -/
def visited (s : State) (path : List Char) : List Int :=
  (walk_steps s 2 (s_explode '/' path).tail).map Prod.fst

/-- The lookups that `tree_lookup` performs while it resolves `path`. -/
def path_steps (s : State) (path : List Char) : List (Int × List Char) :=
  walk_steps s 2 (s_explode '/' path).tail

/-- In the entry table of block `blk`, a slot in use that carries the name `n`
is the first slot carrying that name: no slot before it, deleted or not, keeps
the name (so `directory_delete` clears that very slot), and hence at most one
slot in use carries `n`. -/
def first_named (s : State) (blk : Int) (n : List Char) : Prop :=
  ∀ j, j < DIRENT_COUNT → (s.dirents blk j).free = 1 → (s.dirents blk j).name = n →
    ∀ j2, j2 < j → (s.dirents blk j2).name ≠ n

/-- The `for` loop of `directory_list`: `n` entries are visited from slot `i`
on, and the name of each entry with `free == 1` is put in front of the list. -/
def list_loop (tbl : Nat → dirent_t) : Nat → Nat → List (List Char) → List (List Char)
  | _, 0, list => list
  | i, n + 1, list =>
    list_loop tbl (i + 1) n (if (tbl i).free = 1 then (tbl i).name :: list else list)

/-- `directory_list`: the list starts as the name of the first entry, whatever
its flag; the loop then runs `DIRENT_COUNT` times from the second entry on, so
that it also visits the entry after the last slot of the table.  `none` is the
dereference of `NULL` by `tree_lookup`. -/
def directory_list (s : State) (path : List Char) : Option (List (List Char)) :=
  match tree_lookup s path with
  | none => none
  | some dir_inum =>
    let dir_block := (get_inode s dir_inum).block
    some (list_loop (s.dirents dir_block) 1 DIRENT_COUNT [(s.dirents dir_block 0).name])

/-- The names of the slots in use of the entry table of block `blk`, in
increasing slot index. -/
def occupied_names (s : State) (blk : Int) : List (List Char) :=
  ((List.range DIRENT_COUNT).filter (fun i => decide ((s.dirents blk i).free = 1))).map
    (fun i => (s.dirents blk i).name)

/-- Path resolution in the words of the specification: the
left-to-right iteration of `directory_lookup` over the components, starting
from inode 2, that stays at `-1` once a lookup has given `-1`. -/
def iterate_lookup (s : State) (components : List (List Char)) : Int :=
  components.foldl (fun cur c => if cur = -1 then -1 else directory_lookup s cur c) 2

/-- The absolute path `/c1/c2/.../cn` of the components `c1 .. cn`. -/
def absolute_path (components : List (List Char)) : List Char :=
  (components.map (fun c => '/' :: c)).flatten

/-! ### Concrete images used by the closed statements -/

/-- The image after `storage_init` on a blank image. -/
def init_image : State := (storage_init blank_image).state

/-- The image after a regular file `/a` has been created. -/
def image_a : State := (storage_mknod init_image "/a".toList 33188).state

/-- The image of `image_a` with every inode id marked used. -/
def image_full : State := { image_a with inode_bitmap := fun _ => true }

/-- The image of `image_a` after one byte has been written to `/a`. -/
def image_a1 : State := (storage_write image_a "/a".toList [1] 1 0).state

/-- An image whose root directory (inode 2, block 6) is full: slot 0 is `.`,
and slot `i` for `i = 1 .. 145` names the file `f<i>`, which has inode `i + 2`
and block `i + 6`. -/
def image_dir_full : State :=
  { inode_bitmap := fun j => decide (2 ≤ j ∧ j ≤ 147)
    blocks_bitmap := fun j => decide (0 ≤ j ∧ j ≤ 151)
    inodes := fun j =>
      if j = 2 then { refs := 1, mode := 16384, size := 0, block := 6 }
      else { refs := 1, mode := 33188, size := 0, block := j + 4 }
    dirents := fun b i =>
      if b = 6 then
        if i = 0 then { name := ['.'], inum := 2, free := 1 }
        else { name := 'f' :: Nat.toDigits 10 i, inum := (i : Int) + 2, free := 1 }
      else { name := [], inum := 0, free := 0 }
    bytes := fun _ => 0 }

/-- The image after `directory_init("/d")`, `storage_mknod("/d/c")`,
`storage_unlink("/d")`, `storage_unlink("/.")` and `storage_mknod("/x")` on
`init_image`. -/
def image_c1 : State :=
  (storage_mknod (storage_unlink (storage_unlink (storage_mknod
    (directory_init init_image "/d".toList 16877).state "/d/c".toList 33188).state
      "/d".toList).state "/.".toList).state "/x".toList 33188).state

/-- The image after `directory_init("/d")` on `init_image`. -/
def image_d : State := (directory_init init_image "/d".toList 16877).state

/-- The image after `storage_mknod("/d/x")` on `image_d`. -/
def image_dx : State := (storage_mknod image_d "/d/x".toList 33188).state

/-- The image after `storage_mknod("/b")` on `image_a`. -/
def image_ab : State := (storage_mknod image_a "/b".toList 33188).state

/-- The image after `directory_init("/d")`, `storage_mknod("/d/x")`,
`storage_unlink("/d")` on `init_image`: inode 0 and block 7 of the removed
directory are free again. -/
def image_removed : State := (storage_unlink image_dx "/d".toList).state

/-- The image after `directory_init("/e")` on `image_removed`. -/
def image_reuse : State := (directory_init image_removed "/e".toList 16877).state

/-- The image after `directory_init("/d/e")` on `image_d`. -/
def image_de : State := (directory_init image_d "/d/e".toList 16877).state

/-- The image after `storage_unlink("/d/e")` on `image_de`. -/
def image_de1 : State := (storage_unlink image_de "/d/e".toList).state

/-- The image after `storage_unlink("/d")` on `image_de1`. -/
def image_de2 : State := (storage_unlink image_de1 "/d".toList).state

/-- The image after `storage_mknod("/f")` on `image_de2`. -/
def image_de3 : State := (storage_mknod image_de2 "/f".toList 33188).state

/-- The image after `directory_init("/g")` on `image_de3`. -/
def image_de4 : State := (directory_init image_de3 "/g".toList 16877).state

/-- The image after `storage_unlink("/f")` on `image_de4`. -/
def image_stale : State := (storage_unlink image_de4 "/f".toList).state

/-- An image whose root table (block 6) has, besides `.` in slot 0, a deleted
slot 1 that keeps the name `a` and a slot 2 in use with the name `a` and the
inum 5. -/
def image_tomb : State :=
  set_dirent (set_dirent init_image 6 1 { name := ['a'], inum := 4, free := 0 })
    6 2 { name := ['a'], inum := 5, free := 1 }

/-- An image whose root table (block 6) has in slot 1 an entry in use with the
name `a` that stores the inum `-1`. -/
def image_minus_one : State :=
  set_dirent init_image 6 1 { name := ['a'], inum := -1, free := 1 }

/-! ### Definitions for the invariants and the failure paths -/

/-- The fields of `struct stat` that `storage_stat` sets. -/
structure stat_t where
  st_ino : Int
  st_nlink : Int
  st_mode : Int
  st_size : Int
deriving DecidableEq, Repr

/-- `storage_stat`: the image is only read; the result is the value returned
and the `struct stat` of the caller afterwards.  `none` is the dereference of
`NULL` by `tree_lookup`. -/
def storage_stat (s : State) (path : List Char) (st : stat_t) : Option (Int × stat_t) :=
  match tree_lookup s path with
  | none => none
  | some file_inum =>
    if file_inum = -1 then some (-1, st)
    else
      let file_inode := get_inode s file_inum
      some (0, { st with st_ino := file_inum, st_nlink := file_inode.refs,
                         st_mode := file_inode.mode, st_size := file_inode.size })

/-- The states reached from `storage_init` on a blank image by calls of
`storage_mknod`, `directory_init`, `storage_write`, `storage_link`,
`storage_unlink` and `storage_rename` that return normally, whatever the value
returned. -/
inductive reachable : State → Prop
  | init : reachable (storage_init blank_image).state
  | mknod (s : State) (p : List Char) (mode r : Int) : reachable s →
      (storage_mknod s p mode).rv = some r → reachable (storage_mknod s p mode).state
  | mkdir (s : State) (p : List Char) (mode r : Int) : reachable s →
      (directory_init s p mode).rv = some r → reachable (directory_init s p mode).state
  | write (s : State) (p : List Char) (buf : List Nat) (size : Nat) (offset r : Int) :
      reachable s → (storage_write s p buf size offset).rv = some r →
      reachable (storage_write s p buf size offset).state
  | link (s : State) (src dst : List Char) (r : Int) : reachable s →
      (storage_link s src dst).rv = some r → reachable (storage_link s src dst).state
  | unlink (s : State) (p : List Char) (r : Int) : reachable s →
      (storage_unlink s p).rv = some r → reachable (storage_unlink s p).state
  | rename (s : State) (src dst : List Char) (r : Int) : reachable s →
      (storage_rename s src dst).rv = some r → reachable (storage_rename s src dst).state

/-- The states reached from `storage_init` on a blank image by calls of
`storage_mknod`, `directory_init`, `storage_link`, `storage_unlink` and
`storage_rename` that return 0. -/
inductive reachable_zero : State → Prop
  | init : reachable_zero (storage_init blank_image).state
  | mknod (s : State) (p : List Char) (mode : Int) : reachable_zero s →
      (storage_mknod s p mode).rv = some 0 → reachable_zero (storage_mknod s p mode).state
  | mkdir (s : State) (p : List Char) (mode : Int) : reachable_zero s →
      (directory_init s p mode).rv = some 0 → reachable_zero (directory_init s p mode).state
  | link (s : State) (src dst : List Char) : reachable_zero s →
      (storage_link s src dst).rv = some 0 → reachable_zero (storage_link s src dst).state
  | unlink (s : State) (p : List Char) : reachable_zero s →
      (storage_unlink s p).rv = some 0 → reachable_zero (storage_unlink s p).state
  | rename (s : State) (src dst : List Char) : reachable_zero s →
      (storage_rename s src dst).rv = some 0 → reachable_zero (storage_rename s src dst).state

/-- Every allocated inode has a reference count of at least 1. -/
def refs_positive (s : State) : Prop :=
  ∀ i, s.inode_bitmap i = true → 1 ≤ (s.inodes i).refs

/-- The image of `image_a` after 4096 bytes have been written to `/a`. -/
def image_a_block : State :=
  (storage_write image_a "/a".toList (List.replicate 4096 0) 4096 0).state

/-- The image of `image_a_block` after a second file `/b` has been created. -/
def image_ab_block : State := (storage_mknod image_a_block "/b".toList 33188).state

/-- The image of `image_ab_block` after 4096 bytes have been written to
`/b`. -/
def image_two_blocks : State :=
  (storage_write image_ab_block "/b".toList (List.replicate 4096 0) 4096 0).state

/-- The number of slots in use of the entry table of block `blk` whose inode
number is `i`. -/
def entries_naming (s : State) (blk : Int) (i : Int) : Nat :=
  ((List.range DIRENT_COUNT).filter
    (fun j => decide ((s.dirents blk j).free = 1 ∧ (s.dirents blk j).inum = i))).length

/-- The property `P` holds of the image that a call left when it returned;
nothing is said of a call that ended the process. -/
def Outcome.returned (o : Outcome) (P : State → Prop) : Prop :=
  match o with
  | .ret _ t => P t
  | .abort _ => True

/-! ### The bounds within which the typed views are the image

The components of `State` are views of one run of bytes.  A write through one
view shows in no other view of the embedding, so a statement about a call is a
statement about the code only while the call writes every view inside its own
part of the image.  The predicates below say so; the claims that quantify over
every state, name or offset carry them as preconditions. -/

/-- An inode number of the inode table: its record lies in block 1, apart
from the bitmaps and from every data block. -/
@[reducible] def inode_id (i : Int) : Prop := 0 ≤ i ∧ i < (INODE_COUNT : Int)

/-- A block number of the data area: blocks 0..5 hold the bitmaps and the
inode table. -/
@[reducible] def data_block (b : Int) : Prop := 6 ≤ b ∧ b < (BLOCK_COUNT : Int)

/-- A value of the C type `int`. -/
@[reducible] def is_int (x : Int) : Prop := -2147483648 ≤ x ∧ x < 2147483648

/-- A C string: every character stands for one byte other than the
terminator. -/
@[reducible] def c_string (p : List Char) : Prop := ∀ c ∈ p, 0 < c.toNat ∧ c.toNat < 256

/-- A name that `strcpy` stores in a slot as given: with its terminator it
ends before the `inum` field, which starts at byte 12 of the slot (10 bytes of
`name` and 2 of padding). -/
@[reducible] def name_fits (n : List Char) : Prop := c_string n ∧ n.length ≤ 11

/-- A path that the code handles inside its buffers: with its terminator it
fits the 50 bytes that `get_dir_path` allocates, and each component has at
most 11 bytes, the room of a slot (`get_dir_path` appends a slash to each
component in place, and the last component is the name that is stored). -/
@[reducible] def path_fits (p : List Char) : Prop :=
  c_string p ∧ p.length < 50 ∧ ∀ c ∈ s_explode '/' p, c.length ≤ 11

/-- A block number that the block bitmap holds. -/
@[reducible] def block_id (b : Int) : Prop := 0 ≤ b ∧ b < (BLOCK_COUNT : Int)

/-- `S_ISDIR` of `sys/stat.h`: the file type bits of `mode` are `S_IFDIR`. -/
@[reducible] def S_ISDIR (mode : Int) : Prop := mode / 4096 % 16 = 4

/-- A well-typed image: blocks 0..5 are marked used, the root is a directory,
and every directory of the inode table has a data block in which every slot
holds a name of at most 11 bytes (the name ends inside the slot) and every
slot in use names `-1` or an inode of the table.  Nothing is asked of the
block of an inode that is not a directory. -/
def well_typed (s : State) : Prop :=
  (∀ b ∈ List.range 6, s.blocks_bitmap (b : Int) = true)
    ∧ S_ISDIR (get_inode s 2).mode
    ∧ ∀ x ∈ List.range INODE_COUNT, S_ISDIR (get_inode s (x : Int)).mode →
        data_block (get_inode s (x : Int)).block
          ∧ ∀ j ∈ List.range DIRENT_COUNT,
              (s.dirents (get_inode s (x : Int)).block j).name.length ≤ 11
                ∧ ((s.dirents (get_inode s (x : Int)).block j).free = 1 →
                    (s.dirents (get_inode s (x : Int)).block j).inum = -1
                      ∨ inode_id (s.dirents (get_inode s (x : Int)).block j).inum)

/-- Every inode whose entry table is read while `p` is resolved is a
directory.  In a well-typed image the resolution of `p` then reads only
records of the inode table and entry tables of data blocks, and gives `-1` or
an inode of the table. -/
@[reducible] def dirs_along (s : State) (p : List Char) : Prop :=
  ∀ x ∈ visited s p, S_ISDIR (get_inode s x).mode

/-- Every inode whose entry table is read while `p` is resolved is marked used
in the inode bitmap. -/
@[reducible] def used_along (s : State) (p : List Char) : Prop :=
  ∀ x ∈ visited s p, s.inode_bitmap x = true

/-- The entry tables read while `p` is resolved lie apart from the block of
the inode `i`: no directory on the way has the block of `i`. -/
@[reducible] def block_apart (s : State) (p : List Char) (i : Int) : Prop :=
  ∀ x ∈ visited s p, (get_inode s x).block ≠ (get_inode s i).block

/-- `S_ISREG` of `sys/stat.h`: the file type bits of `mode` are `S_IFREG`. -/
@[reducible] def S_ISREG (mode : Int) : Prop := mode / 4096 % 16 = 8

/-- The image `image_dir_full` with the flag of slot 1 of the root directory
set to 2: the slot is neither in use (`free == 1`) nor deleted
(`free == 0`). -/
def image_flag : State :=
  set_dirent image_dir_full 6 1 { (image_dir_full.dirents 6 1) with free := 2 }

/-- The image `image_a` with the recorded size of the root directory
(inode 2) at the largest `int`. -/
def image_a_max : State :=
  set_inode image_a 2 { (get_inode image_a 2) with size := 2147483647 }

/-- The inode that a call on the path `p` takes as the parent directory of
`p`: what `tree_lookup(get_dir_path(p))` gives (`-1` when one of the two
ends the process). -/
def parent_inum (s : State) (p : List Char) : Int :=
  match get_dir_path p with
  | none => -1
  | some dp =>
    match tree_lookup s dp with
    | none => -1
    | some d => d

/-- The image in which `storage_rename(src, dst)` resolves the parent of
`src`: the image after the unlink of `dst` when `dst` resolves to another
inode, the image of the call otherwise. -/
def rename_unlinked (s : State) (src dst : List Char) : State :=
  match tree_lookup s src, tree_lookup s dst with
  | some i, some j => if i ≠ -1 ∧ j ≠ -1 ∧ i ≠ j then (storage_unlink s dst).state else s
  | _, _ => s

/-- The image in which `storage_rename(src, dst)` resolves the parent of
`dst`: the image of `rename_unlinked` after the entry of `src` has been
deleted. -/
def rename_deleted (s : State) (src dst : List Char) : State :=
  (directory_delete (rename_unlinked s src dst) (parent_inum (rename_unlinked s src dst) src)
    ((get_file_name src).getD [])).2

/-- The states of `reachable_zero` that are reached by calls inside the bounds
of the image: every path handed to `get_dir_path` fits its buffer, every name
component has at most 11 bytes, every mode is a `mode_t`, and no
reference count leaves the range of `int`. -/
inductive reachable_zero_within : State → Prop
  | init : reachable_zero_within (storage_init blank_image).state
  | mknod (s : State) (p : List Char) (mode : Int) : reachable_zero_within s →
      path_fits p → 0 ≤ mode ∧ mode < 2147483648 →
      (storage_mknod s p mode).rv = some 0 → reachable_zero_within (storage_mknod s p mode).state
  | mkdir (s : State) (p : List Char) (mode : Int) : reachable_zero_within s →
      path_fits p → 0 ≤ mode ∧ mode < 2147483648 →
      (directory_init s p mode).rv = some 0 →
      reachable_zero_within (directory_init s p mode).state
  | link (s : State) (src dst : List Char) : reachable_zero_within s →
      c_string src → path_fits dst →
      (∀ i, tree_lookup s src = some i → (get_inode s i).refs < 2147483647) →
      (storage_link s src dst).rv = some 0 → reachable_zero_within (storage_link s src dst).state
  | unlink (s : State) (p : List Char) : reachable_zero_within s →
      path_fits p →
      (∀ i, tree_lookup s p = some i → -2147483648 < (get_inode s i).refs) →
      (storage_unlink s p).rv = some 0 → reachable_zero_within (storage_unlink s p).state
  | rename (s : State) (src dst : List Char) : reachable_zero_within s →
      path_fits src → path_fits dst →
      (∀ j, tree_lookup s dst = some j → -2147483648 < (get_inode s j).refs) →
      (storage_rename s src dst).rv = some 0 →
      reachable_zero_within (storage_rename s src dst).state

/-- The bounds of `storage_mknod(p, mode)` and `directory_init(p, mode)`: a
well-typed image, a path that fits, a mode that is an `int` and a `mode_t`,
and on the way to `p` only directories that are marked used (so that the inode
handed out is none of them). -/
def create_within (s : State) (p : List Char) (mode : Int) : Prop :=
  well_typed s ∧ path_fits p ∧ (0 ≤ mode ∧ mode < 2147483648)
    ∧ dirs_along s p ∧ used_along s p

/-- The bounds of `storage_write(p, buf, size, offset)`: a well-typed image, a
path that fits, on the way to `p` only directories, and a copy that lies
inside the block of the file, which is a data block and the block of no
directory on the way. -/
def write_within (s : State) (p : List Char) (size : Nat) (offset : Int) : Prop :=
  well_typed s ∧ path_fits p ∧ dirs_along s p ∧ 0 ≤ offset ∧ offset + size ≤ 4096
    ∧ ∀ f, tree_lookup s p = some f → f ≠ -1 →
        data_block (get_inode s f).block ∧ block_apart s p f

/-- The bounds of `storage_link(src, dst)`: a well-typed image, a path `dst`
that fits, on the way to both paths only directories, and a reference count
below the largest `int`. -/
def link_within (s : State) (src dst : List Char) : Prop :=
  well_typed s ∧ c_string src ∧ path_fits dst ∧ dirs_along s src ∧ dirs_along s dst
    ∧ ∀ i, tree_lookup s src = some i → (get_inode s i).refs < 2147483647

/-- The bounds of `storage_unlink(p)`: a well-typed image, a path that fits,
on the way to `p` only directories, a reference count above the least `int`
and a block number that the block bitmap holds. -/
def unlink_within (s : State) (p : List Char) : Prop :=
  well_typed s ∧ path_fits p ∧ dirs_along s p
    ∧ ∀ i, tree_lookup s p = some i → i ≠ -1 →
        -2147483648 < (get_inode s i).refs ∧ block_id (get_inode s i).block

/-- The bounds of `storage_rename(src, dst)`: those of the unlink of `dst`,
a path `src` that fits, and only directories on the way to each path in the
image in which the call resolves it. -/
def rename_within (s : State) (src dst : List Char) : Prop :=
  unlink_within s dst ∧ path_fits src ∧ dirs_along s src
    ∧ dirs_along (rename_unlinked s src dst) src
    ∧ dirs_along (rename_deleted s src dst) dst

/-- The states reached from `storage_init` on a blank image by calls of
`storage_mknod`, `directory_init`, `storage_write`, `storage_link`,
`storage_unlink` and `storage_rename` that return normally and stay inside the
bounds of the image, together with the inodes that have been the parent
directory of a path written, unlinked or renamed.

The entry tables and the data bytes are views of the same blocks, and the size
that a parent directory records is not followed here: `views` lets the entry
tables, the data bytes and the sizes of the inodes listed change in any way
between two calls, which covers what a call does to them through another
view; the bounds are asked of the image on which each call is made. -/
inductive reachable_with_parents : State → List Int → Prop
  | init : reachable_with_parents (storage_init blank_image).state []
  | views (s t : State) (P : List Int) : reachable_with_parents s P →
      t.inode_bitmap = s.inode_bitmap → t.blocks_bitmap = s.blocks_bitmap →
      (∀ x, (t.inodes x).refs = (s.inodes x).refs ∧ (t.inodes x).mode = (s.inodes x).mode
        ∧ (t.inodes x).block = (s.inodes x).block) →
      (∀ x, x ∉ P → (t.inodes x).size = (s.inodes x).size) →
      reachable_with_parents t P
  | mknod (s : State) (P : List Int) (p : List Char) (mode r : Int) :
      reachable_with_parents s P → create_within s p mode →
      (storage_mknod s p mode).rv = some r →
      reachable_with_parents (storage_mknod s p mode).state P
  | mkdir (s : State) (P : List Int) (p : List Char) (mode r : Int) :
      reachable_with_parents s P → create_within s p mode →
      (directory_init s p mode).rv = some r →
      reachable_with_parents (directory_init s p mode).state P
  | write (s : State) (P : List Int) (p : List Char) (buf : List Nat) (size : Nat)
      (offset r : Int) :
      reachable_with_parents s P → write_within s p size offset →
      (storage_write s p buf size offset).rv = some r →
      reachable_with_parents (storage_write s p buf size offset).state (parent_inum s p :: P)
  | link (s : State) (P : List Int) (src dst : List Char) (r : Int) :
      reachable_with_parents s P → link_within s src dst →
      (storage_link s src dst).rv = some r →
      reachable_with_parents (storage_link s src dst).state P
  | unlink (s : State) (P : List Int) (p : List Char) (r : Int) :
      reachable_with_parents s P → unlink_within s p →
      (storage_unlink s p).rv = some r →
      reachable_with_parents (storage_unlink s p).state (parent_inum s p :: P)
  | rename (s : State) (P : List Int) (src dst : List Char) (r : Int) :
      reachable_with_parents s P → rename_within s src dst →
      (storage_rename s src dst).rv = some r →
      reachable_with_parents (storage_rename s src dst).state
        (parent_inum s dst :: parent_inum (storage_unlink s dst).state src
          :: parent_inum s src :: P)

/-- The image after `storage_mknod("/a")` and `storage_write("/a", buf, 1, 0)`
on `image_reuse`: the root directory has the size 1, and the directory `/e`
(inode 0) carries the name `..` in two slots in use, both naming the root. -/
def image_reuse_a1 : State :=
  (storage_write (storage_mknod image_reuse "/a".toList 33188).state "/a".toList [1] 1 0).state

/-- The image after `storage_unlink("/e/..")` on `image_reuse_a1`. -/
def image_below_unlink : State := (storage_unlink image_reuse_a1 "/e/..".toList).state

/-- The image after `storage_rename("/e/..", "/r")` on `image_reuse_a1`. -/
def image_below_rename : State :=
  (storage_rename image_reuse_a1 "/e/..".toList "/r".toList).state

/-- The size invariant: every allocated inode outside the list `P` has a size
between 0 and 4096. -/
def sized (s : State) (P : List Int) : Prop :=
  ∀ i, s.inode_bitmap i = true → i ∉ P →
    0 ≤ (get_inode s i).size ∧ (get_inode s i).size ≤ 4096

/-- What a call may do to the sizes, from `s` to `t`: an inode allocated in
`t` and outside the list `E` was allocated in `s` and has the size it had, or
has a size between 0 and 4096. -/
def size_step (E : List Int) (s t : State) : Prop :=
  ∀ x, t.inode_bitmap x = true → x ∉ E →
    (s.inode_bitmap x = true ∧ (t.inodes x).size = (s.inodes x).size)
      ∨ (0 ≤ (t.inodes x).size ∧ (t.inodes x).size ≤ 4096)

end NUFS

/-! ## Theorems -/

namespace NUFS

set_option maxRecDepth 100000

/-! ### The scan -/

theorem first_index_none {p : Nat → Bool} {lo n : Nat}
    (h : ∀ j, lo ≤ j → j < lo + n → p j = false) : first_index p lo n = none := by
  induction n generalizing lo with
  | zero => rfl
  | succ n ih =>
    have h0 : p lo = false := h lo (le_refl _) (by omega)
    simp only [first_index, h0]
    exact ih (fun j h1 h2 => h j (by omega) (by omega))

theorem first_index_some {p : Nat → Bool} {lo n i : Nat}
    (h1 : lo ≤ i) (h2 : i < lo + n) (hp : p i = true)
    (hlt : ∀ j, lo ≤ j → j < i → p j = false) : first_index p lo n = some i := by
  induction n generalizing lo with
  | zero => omega
  | succ n ih =>
    by_cases hlo : lo = i
    · subst hlo
      simp [first_index, hp]
    · have h0 : p lo = false := hlt lo (le_refl _) (by omega)
      simp only [first_index, h0]
      exact ih (by omega) (by omega) (fun j h3 h4 => hlt j (by omega) h4)

theorem first_index_some_spec {p : Nat → Bool} {lo n i : Nat}
    (h : first_index p lo n = some i) :
    lo ≤ i ∧ i < lo + n ∧ p i = true ∧ ∀ j, lo ≤ j → j < i → p j = false := by
  induction n generalizing lo with
  | zero => simp [first_index] at h
  | succ n ih =>
    by_cases h0 : p lo = true
    · simp [first_index, h0] at h
      subst h
      exact ⟨le_refl _, by omega, h0, fun j h3 h4 => by omega⟩
    · have h0f : p lo = false := by simpa using h0
      simp only [first_index, h0f] at h
      obtain ⟨a, b, c, d⟩ := ih h
      refine ⟨by omega, by omega, c, fun j h3 h4 => ?_⟩
      by_cases hj : j = lo
      · subst hj; exact h0f
      · exact d j (by omega) h4

theorem first_index_none_spec {p : Nat → Bool} {lo n : Nat}
    (h : first_index p lo n = none) : ∀ j, lo ≤ j → j < lo + n → p j = false := by
  induction n generalizing lo with
  | zero => intro j h1 h2; omega
  | succ n ih =>
    by_cases h0 : p lo = true
    · simp [first_index, h0] at h
    · have h0f : p lo = false := by simpa using h0
      simp only [first_index, h0f] at h
      intro j h1 h2
      by_cases hj : j = lo
      · subst hj; exact h0f
      · exact ih h j (by omega) (by omega)

theorem first_index_congr {p q : Nat → Bool} {lo n : Nat}
    (h : ∀ j, lo ≤ j → j < lo + n → p j = q j) : first_index p lo n = first_index q lo n := by
  induction n generalizing lo with
  | zero => rfl
  | succ n ih =>
    have h0 : p lo = q lo := h lo (le_refl _) (by omega)
    simp only [first_index, h0]
    rw [ih (fun j h1 h2 => h j (by omega) (by omega))]

/-! ### Allocation -/

theorem alloc_inode_full (s : State)
    (h : ∀ i : Nat, i < INODE_COUNT → s.inode_bitmap i = true) : alloc_inode s = (-1, s) := by
  unfold alloc_inode
  rw [first_index_none (fun j _ h2 => by simp [bitmap_get, h j (by omega)])]

/-! ### C2 -/

/-- C2: when the path `p` already resolves (`tree_lookup` gives an inum other
than `-1`), `storage_mknod` and `directory_init` both return `-1` and leave the
whole image (inode table, directory blocks, both bitmaps) as it was. -/
theorem C2_create_existing (s : State) (p : List Char) (mode : Int) (i : Int)
    (hres : tree_lookup s p = some i) (hi : i ≠ -1) :
    storage_mknod s p mode = .ret (-1) s ∧ directory_init s p mode = .ret (-1) s := by
  constructor
  · simp [storage_mknod, hres, hi]
  · simp [directory_init, hres, hi]

theorem C2_create_existing_witness :
    storage_mknod image_a "/a".toList 33188 = .ret (-1) image_a
      ∧ directory_init image_a "/a".toList 33188 = .ret (-1) image_a :=
  C2_create_existing image_a "/a".toList 33188 0 (by decide) (by decide)

/-! ### C9 -/

/-- C9: when `a` and `b` resolve to the same inode (in particular when `b` is
`a`), `storage_rename a b` returns `0` and leaves the whole image unchanged. -/
theorem C9_rename_same (s : State) (a b : List Char) (i : Int)
    (ha : tree_lookup s a = some i) (hb : tree_lookup s b = some i) (hi : i ≠ -1) :
    storage_rename s a b = .ret 0 s ∧ storage_rename s a a = .ret 0 s := by
  constructor
  · simp [storage_rename, ha, hb, hi]
  · simp [storage_rename, ha, hi]

theorem C9_rename_same_witness :
    storage_rename image_a "/a".toList "/a".toList = .ret 0 image_a
      ∧ storage_rename image_a "/a".toList "/a".toList = .ret 0 image_a :=
  C9_rename_same image_a "/a".toList "/a".toList 0 (by decide) (by decide) (by decide)

/-! ### C10 -/

theorem mknod_exhausted (s : State) (p : List Char) (mode : Int)
    (hfull : ∀ i : Nat, i < INODE_COUNT → s.inode_bitmap i = true)
    (hp : tree_lookup s p = some (-1)) : storage_mknod s p mode = .abort s := by
  simp [storage_mknod, hp, alloc_inode_full s hfull]

theorem directory_init_exhausted (s : State) (p : List Char) (mode : Int)
    (hfull : ∀ i : Nat, i < INODE_COUNT → s.inode_bitmap i = true)
    (hp : tree_lookup s p = some (-1)) : directory_init s p mode = .abort s := by
  simp [directory_init, hp, alloc_inode_full s hfull]

/-- C10, as amended: when all `INODE_COUNT` inode ids are marked used and `p`
does not resolve, `storage_mknod` and `directory_init` do not return to their
caller: the assertion on the result of `alloc_inode` fails and the process is
ended, the image (directory entries, inode records, both bitmaps) being
unchanged at that point. -/
theorem C10_exhausted_aborts (s : State) (p : List Char) (mode : Int)
    (hfull : ∀ i : Nat, i < INODE_COUNT → s.inode_bitmap i = true)
    (hp : tree_lookup s p = some (-1)) :
    storage_mknod s p mode = .abort s ∧ directory_init s p mode = .abort s :=
  ⟨mknod_exhausted s p mode hfull hp, directory_init_exhausted s p mode hfull hp⟩

theorem C10_exhausted_aborts_witness :
    storage_mknod image_full "/b".toList 33188 = .abort image_full
      ∧ directory_init image_full "/b".toList 33188 = .abort image_full :=
  C10_exhausted_aborts image_full "/b".toList 33188 (fun _ _ => rfl) (by decide)

/-- C10 as stated fails: with every inode id used, `/b` not resolving and its
parent `/` resolving, neither `storage_mknod` nor `directory_init` returns any
value to the caller. -/
theorem C10_counterexample :
    (∀ i : Nat, i < INODE_COUNT → image_full.inode_bitmap i = true)
      ∧ tree_lookup image_full "/b".toList = some (-1)
      ∧ tree_lookup image_full "/".toList = some 2
      ∧ (storage_mknod image_full "/b".toList 33188).rv = none
      ∧ (directory_init image_full "/b".toList 16877).rv = none := by
  refine ⟨fun _ _ => rfl, by decide, by decide, ?_, ?_⟩
  · rw [mknod_exhausted image_full "/b".toList 33188 (fun _ _ => rfl) (by decide)]
    rfl
  · rw [directory_init_exhausted image_full "/b".toList 16877 (fun _ _ => rfl) (by decide)]
    rfl

/-! ### C4 -/

/-- C4 fails on the code: on the image holding the empty file `/a` (inode 0,
block 7), `storage_write("/a", buf, 200, 4000)` has `offset + len = 4200 > 4096`
and yet returns 200, having changed byte 4000 of the file's block, byte 103 of
the next block (block 8) and the recorded size (now 200). -/
theorem C4_write_past_block :
    tree_lookup image_a "/a".toList = some 0
      ∧ get_inode image_a 0 = { refs := 1, mode := 33188, size := 0, block := 7 }
      ∧ (storage_write image_a "/a".toList (List.replicate 200 7) 200 4000).rv = some 200
      ∧ image_a.bytes (4096 * 7 + 4000) = 0
      ∧ (storage_write image_a "/a".toList (List.replicate 200 7) 200 4000).state.bytes
          (4096 * 7 + 4000) = 7
      ∧ image_a.bytes (4096 * 8 + 103) = 0
      ∧ (storage_write image_a "/a".toList (List.replicate 200 7) 200 4000).state.bytes
          (4096 * 8 + 103) = 7
      ∧ (get_inode (storage_write image_a "/a".toList (List.replicate 200 7) 200 4000).state
          0).size = 200 := by
  decide

/-! ### Paths -/

theorem s_explode_nil_iff (d : Char) (t : List Char) : s_explode d t = [] ↔ t = [] := by
  cases t with
  | nil => simp [s_explode]
  | cons c cs =>
    simp only [s_explode]
    split
    · simp
    · split <;> simp

theorem s_explode_no_delim (d : Char) (t : List Char) :
    ∀ x ∈ s_explode d t, d ∉ x := by
  induction t with
  | nil => simp [s_explode]
  | cons c cs ih =>
    intro x hx
    simp only [s_explode] at hx
    split at hx
    · rcases List.mem_cons.1 hx with h | h
      · subst h; simp
      · exact ih x h
    · rename_i hc
      split at hx
      · simp only [List.mem_singleton] at hx
        subst hx
        simp [Ne.symm hc]
      · rename_i q qs heq
        rcases List.mem_cons.1 hx with h | h
        · subst h
          have := ih q (by rw [heq]; simp)
          simp [Ne.symm hc, this]
        · exact ih x (by rw [heq]; simp [h])

theorem s_explode_component (d : Char) (c rest : List Char) (hc : d ∉ c) :
    s_explode d (c ++ d :: rest) = c :: s_explode d rest := by
  induction c with
  | nil => simp [s_explode]
  | cons a as ih =>
    have ha : a ≠ d := by
      intro h; apply hc; simp [h]
    have has : d ∉ as := by
      intro h; apply hc; simp [h]
    simp only [List.cons_append, s_explode, ha, if_false, List.append_eq, ih has]

/-- The text that `get_dir_path` appends to the leading slash for the
components `pre`. -/
theorem build_dir_path_eq (acc : List Char) (c : List Char) (cs : List (List Char)) :
    build_dir_path acc (c :: cs)
      = acc ++ (((c :: cs).dropLast).map (fun x => x ++ ['/'])).flatten := by
  induction cs generalizing acc c with
  | nil => simp [build_dir_path]
  | cons d ds ih =>
    simp only [build_dir_path]
    rw [ih]
    simp [List.dropLast]

theorem s_explode_flatten (pre : List (List Char)) (h : ∀ x ∈ pre, '/' ∉ x) :
    s_explode '/' ((pre.map (fun x => x ++ ['/'])).flatten) = pre := by
  induction pre with
  | nil => simp [s_explode]
  | cons c cs ih =>
    simp only [List.map_cons, List.flatten_cons, List.append_assoc, List.singleton_append]
    rw [s_explode_component '/' c _ (h c (by simp)), ih (fun x hx => h x (by simp [hx]))]

theorem last_string_eq (c : List Char) (cs : List (List Char)) :
    last_string c cs = (c :: cs).getLast (by simp) := by
  induction cs generalizing c with
  | nil => simp [last_string]
  | cons d ds ih => simp only [last_string]; rw [ih]; simp

theorem tree_walk_append (s : State) (cur : Int) (pre : List (List Char)) (leaf : List Char)
    (hcur : cur ≠ -1) :
    tree_walk s cur (pre ++ [leaf])
      = if tree_walk s cur pre = -1 then -1
        else directory_lookup s (tree_walk s cur pre) leaf := by
  induction pre generalizing cur with
  | nil =>
    simp only [List.nil_append, tree_walk, hcur, if_false]
    split <;> simp_all
  | cons c cs ih =>
    simp only [List.cons_append, tree_walk]
    by_cases h : directory_lookup s cur c = -1
    · simp [h]
    · simp only [h, if_false]
      exact ih _ h

/-- What the three path functions make of an absolute path other than `/`:
there are directory components `pre` and a leaf name with `get_dir_path p`
resolving along `pre`, `get_file_name p` the leaf, and `p` resolving along
`pre` followed by the leaf. -/
theorem path_shape (p : List Char) (habs : p.head? = some '/') (hne : p ≠ ['/']) :
    ∃ (pre : List (List Char)) (leaf dp : List Char),
      get_dir_path p = some dp ∧ get_file_name p = some leaf
        ∧ (∀ s, tree_lookup s dp = some (tree_walk s 2 pre))
        ∧ (∀ s, tree_lookup s p = some (tree_walk s 2 (pre ++ [leaf])))
        ∧ (s_explode '/' p).tail = pre ++ [leaf]
        ∧ (s_explode '/' dp).tail = pre := by
  cases p with
  | nil => simp at habs
  | cons a q =>
    simp only [List.head?_cons, Option.some.injEq] at habs
    subst habs
    have hq : q ≠ [] := by
      intro h; apply hne; simp [h]
    have hex : s_explode '/' ('/' :: q) = [] :: s_explode '/' q := by simp [s_explode]
    have hqe : s_explode '/' q ≠ [] := fun h => hq ((s_explode_nil_iff _ _).1 h)
    obtain ⟨c, cs, hcs⟩ : ∃ c cs, s_explode '/' q = c :: cs := by
      cases h : s_explode '/' q with
      | nil => exact absurd h hqe
      | cons c cs => exact ⟨c, cs, rfl⟩
    have hsplit : (c :: cs).dropLast ++ [(c :: cs).getLast (by simp)] = c :: cs :=
      List.dropLast_append_getLast _
    have hpre : ∀ x ∈ (c :: cs).dropLast, '/' ∉ x := by
      intro x hx
      apply s_explode_no_delim '/' q x
      rw [hcs]
      exact List.mem_of_mem_dropLast hx
    refine ⟨(c :: cs).dropLast, (c :: cs).getLast (by simp), build_dir_path ['/'] (c :: cs),
      ?_, ?_, ?_, ?_, ?_, ?_⟩
    · simp only [get_dir_path, hex, hcs]
    · simp only [get_file_name, hex, hcs, last_string_eq]
    · intro s
      rw [build_dir_path_eq]
      have hpre : ∀ x ∈ (c :: cs).dropLast, '/' ∉ x := by
        intro x hx
        apply s_explode_no_delim '/' q x
        rw [hcs]
        exact List.mem_of_mem_dropLast hx
      unfold tree_lookup
      split
      · rename_i h
        have hnil : (c :: cs).dropLast = [] := by
          cases hd : (c :: cs).dropLast with
          | nil => rfl
          | cons y ys => rw [hd] at h; simp at h
        rw [hnil]; rfl
      · simp only [List.singleton_append, s_explode, if_true, List.append_eq, List.nil_append,
          s_explode_flatten _ hpre]
    · intro s
      unfold tree_lookup
      rw [if_neg hne, hex, hcs, hsplit]
    · rw [hex, hcs, hsplit]
      rfl
    · rw [build_dir_path_eq]
      simp only [List.singleton_append, s_explode, if_true, List.append_eq, List.nil_append,
        s_explode_flatten _ hpre, List.tail_cons]

/-! ### Resolution reads block fields and entry tables only -/

theorem directory_lookup_congr (s t : State) (d : Int) (n : List Char)
    (hb : (t.inodes d).block = (s.inodes d).block) (hd : t.dirents = s.dirents) :
    directory_lookup t d n = directory_lookup s d n := by
  simp only [directory_lookup, get_inode, hb, hd]

theorem tree_walk_congr (s t : State) (cur : Int) (comps : List (List Char))
    (hb : ∀ d, (t.inodes d).block = (s.inodes d).block) (hd : t.dirents = s.dirents) :
    tree_walk t cur comps = tree_walk s cur comps := by
  induction comps generalizing cur with
  | nil => rfl
  | cons c cs ih =>
    simp only [tree_walk, directory_lookup_congr s t cur c (hb cur) hd, ih]

theorem to_int32_id (x : Int) (h1 : -2147483648 ≤ x) (h2 : x < 2147483648) : to_int32 x = x := by
  unfold to_int32
  omega

theorem memcpy_from_to (s : State) (addr : Int) (buf : List Nat) (t : State)
    (ht : t.bytes = (memcpy_to s addr buf buf.length).bytes) :
    memcpy_from t addr buf.length = buf := by
  apply List.ext_getElem
  · simp [memcpy_from]
  · intro k h1 h2
    have hk : k < buf.length := h2
    simp only [memcpy_from, List.getElem_map, List.getElem_range, ht, memcpy_to]
    have hc : addr ≤ addr + (k : Int) ∧ addr + (k : Int) < addr + (buf.length : Int) := by
      constructor <;> omega
    rw [if_pos hc]
    have : (addr + (k : Int) - addr).toNat = k := by simp
    rw [this, List.getD_eq_getElem _ _ hk]

/-! ### C3 -/

/-- A write that passes both assertions returns the length written; it changes
no block field and no entry table, and the bytes of the image are those of the
copy. -/
theorem storage_write_ret (s : State) (p : List Char) (i : Int) (buf : List Nat) (size : Nat)
    (offset : Int) (habs : p.head? = some '/') (hne : p ≠ ['/'])
    (hres : tree_lookup s p = some i) (hi : i ≠ -1) (hoff : offset < 4096)
    (hcap : to_int32 ((get_inode s i).size + size) ≤ 4096) :
    ∃ t, storage_write s p buf size offset = .ret (to_int32 size) t
      ∧ t.dirents = s.dirents
      ∧ (∀ d, (t.inodes d).block = (s.inodes d).block)
      ∧ t.bytes = (memcpy_to s (4096 * (get_inode s i).block + offset) buf size).bytes
      ∧ t.inode_bitmap = s.inode_bitmap ∧ t.blocks_bitmap = s.blocks_bitmap := by
  obtain ⟨pre, leaf, dp, hdp, -, hdir, -⟩ := path_shape p habs hne
  have h1 : (get_inode (memcpy_to s (4096 * (get_inode s i).block + offset) buf size) i)
      = get_inode s i := rfl
  simp only [storage_write, hres, hi, hdp, hdir, hoff, not_true_eq_false, if_false, h1]
  have h2 : (get_inode (set_inode (memcpy_to s (4096 * (get_inode s i).block + offset) buf size) i
      { (get_inode s i) with size := to_int32 ((get_inode s i).size + size) }) i).size
      = to_int32 ((get_inode s i).size + size) := by
    simp [get_inode, set_inode]
  rw [h2]
  simp only [hcap, not_true_eq_false, if_false]
  refine ⟨_, rfl, rfl, ?_, rfl, rfl, rfl⟩
  intro d
  simp only [set_inode, get_inode, memcpy_to]
  split <;> split <;> simp_all

/-- Write then read over the typed views: for every absolute path `p` other than `/` that resolves
to an inode `i` whose recorded size (an `int`) plus `len(bytes)` is at most
4096, and every `bytes` with `len(bytes) <= 4096`: `storage_write(p, bytes,
len(bytes), 0)` returns `len(bytes)`, and a following `storage_read(p, buf,
len(bytes), 0)` returns `len(bytes)` and fills the first `len(bytes)` bytes of
`buf` with exactly `bytes`. -/
theorem write_then_read_typed (s : State) (p : List Char) (i : Int) (bytes buf : List Nat)
    (habs : p.head? = some '/') (hne : p ≠ ['/'])
    (hres : tree_lookup s p = some i) (hi : i ≠ -1)
    (hlen : bytes.length ≤ 4096)
    (hlo : -2147483648 ≤ (get_inode s i).size)
    (hcap : (get_inode s i).size + bytes.length ≤ 4096) :
    ∃ t, storage_write s p bytes bytes.length 0 = .ret bytes.length t
      ∧ storage_read t p buf bytes.length 0
          = some ((bytes.length : Int), bytes ++ buf.drop bytes.length) := by
  obtain ⟨pre, leaf, dp, -, -, -, hp, -⟩ := path_shape p habs hne
  have hret : to_int32 (bytes.length : Int) = bytes.length := to_int32_id _ (by omega) (by omega)
  have hsz : to_int32 ((get_inode s i).size + bytes.length) = (get_inode s i).size + bytes.length :=
    to_int32_id _ (by omega) (by omega)
  obtain ⟨t, hw, hd, hb, hbytes, -, -⟩ := storage_write_ret s p i bytes bytes.length 0 habs hne
    hres hi (by norm_num) (by rw [hsz]; exact hcap)
  refine ⟨t, by rw [hw, hret], ?_⟩
  have hres2 : tree_lookup t p = some i := by
    rw [hp, tree_walk_congr s t 2 _ hb hd, ← hp, hres]
  simp only [storage_read, hres2, hi, if_false, hret]
  have hblk : (get_inode t i).block = (get_inode s i).block := hb i
  rw [hblk, memcpy_from_to s _ bytes t hbytes]

/-- C3 as stated fails: once one byte has been written to the regular file
`/a`, its recorded size is 1, and a write of 4096 bytes at offset 0 trips the
assertion `file_inode->size <= 4096` (the size is accumulated): no value is
returned. -/
theorem C3_counterexample :
    tree_lookup image_a1 "/a".toList = some 0
      ∧ get_inode image_a1 0 = { refs := 1, mode := 33188, size := 1, block := 7 }
      ∧ (List.replicate 4096 0).length = 4096
      ∧ (storage_write image_a1 "/a".toList (List.replicate 4096 0) 4096 0).rv = none := by
  refine ⟨by decide, by decide, List.length_replicate _ _, by decide⟩

/-! ### Frame of `directory_delete` and `directory_put` -/

theorem directory_delete_frame (s : State) (d : Int) (n : List Char) :
    (directory_delete s d n).2.inode_bitmap = s.inode_bitmap
      ∧ (directory_delete s d n).2.blocks_bitmap = s.blocks_bitmap
      ∧ (directory_delete s d n).2.bytes = s.bytes
      ∧ ∀ x, ((directory_delete s d n).2.inodes x).refs = (s.inodes x).refs
          ∧ ((directory_delete s d n).2.inodes x).block = (s.inodes x).block
          ∧ ((directory_delete s d n).2.inodes x).mode = (s.inodes x).mode := by
  unfold directory_delete
  by_cases h0 : directory_lookup s d n = -1
  · simp [h0]
  · simp only [h0, if_false]
    cases hfi : first_index (fun i => decide ((s.dirents (get_inode s d).block i).name = n))
        0 DIRENT_COUNT with
    | none => simp
    | some j =>
      refine ⟨rfl, rfl, rfl, fun x => ?_⟩
      simp only [set_inode, set_dirent, get_inode]
      split <;> simp_all

theorem directory_put_frame (s : State) (d : Int) (n : List Char) (k : Int) :
    (directory_put s d n k).2.inode_bitmap = s.inode_bitmap
      ∧ (directory_put s d n k).2.blocks_bitmap = s.blocks_bitmap
      ∧ (directory_put s d n k).2.bytes = s.bytes
      ∧ (directory_put s d n k).2.inodes = s.inodes := by
  cases hfi : first_index (fun i => decide ((s.dirents (get_inode s d).block i).free = 0))
      0 DIRENT_COUNT with
  | none => simp only [directory_put, hfi, and_self]
  | some j =>
    simp only [directory_put, hfi]
    exact ⟨rfl, rfl, rfl, rfl⟩

theorem tree_walk_parent_ne (s : State) (pre : List (List Char)) (leaf : List Char)
    (h : tree_walk s 2 (pre ++ [leaf]) ≠ -1) : tree_walk s 2 pre ≠ -1 := by
  intro hc
  rw [tree_walk_append s 2 pre leaf (by decide), if_pos hc] at h
  exact h rfl

/-! ### C6 -/

/-- The effect of `storage_unlink` over the typed views: for an absolute path `p` other than `/` with `tree_lookup(p) = i`:
if `i` is `-1`, `storage_unlink(p)` returns `-1` and changes nothing;
otherwise it returns `0`, the refs of `i` are `r - 1` afterwards (`r` being the
refs before), and when `r - 1 = 0` the inode-bitmap bit of `i` and the
block-bitmap bit of the block of `i` are cleared (nothing else in the bitmaps
changing), while when `r - 1` is not `0` both bitmaps are unchanged. -/
theorem unlink_refs_and_bitmaps_typed (s : State) (p : List Char) (i : Int)
    (habs : p.head? = some '/') (hne : p ≠ ['/']) (hres : tree_lookup s p = some i) :
    (i = -1 → storage_unlink s p = .ret (-1) s)
      ∧ (i ≠ -1 → ∃ t, storage_unlink s p = .ret 0 t
          ∧ (get_inode t i).refs = (get_inode s i).refs - 1
          ∧ ((get_inode s i).refs - 1 = 0 →
              t.inode_bitmap = bitmap_put s.inode_bitmap i false
                ∧ t.blocks_bitmap = bitmap_put s.blocks_bitmap (get_inode s i).block false)
          ∧ ((get_inode s i).refs - 1 ≠ 0 →
              t.inode_bitmap = s.inode_bitmap ∧ t.blocks_bitmap = s.blocks_bitmap)) := by
  constructor
  · intro hi
    subst hi
    simp [storage_unlink, hres]
  · intro hi
    obtain ⟨pre, leaf, dp, hdp, hfn, hdir, hp, -⟩ := path_shape p habs hne
    have hwalk : tree_walk s 2 (pre ++ [leaf]) = i := by
      have := hp s
      rw [hres] at this
      exact (Option.some.inj this).symm
    set s1 := set_inode s i { (get_inode s i) with refs := (get_inode s i).refs - 1 } with hs1
    have hpar : tree_walk s1 2 pre ≠ -1 := by
      rw [tree_walk_congr s s1 2 pre (fun d => by
        simp only [hs1, set_inode, get_inode]; split <;> simp_all) rfl]
      exact tree_walk_parent_ne s pre leaf (by rw [hwalk]; exact hi)
    obtain ⟨f1, f2, -, f4⟩ := directory_delete_frame s1 (tree_walk s1 2 pre) leaf
    have hrefs : (get_inode (directory_delete s1 (tree_walk s1 2 pre) leaf).2 i).refs
        = (get_inode s i).refs - 1 := by
      rw [get_inode, (f4 i).1]
      simp [hs1, set_inode]
    have hblk : (get_inode (directory_delete s1 (tree_walk s1 2 pre) leaf).2 i).block
        = (get_inode s i).block := by
      rw [get_inode, (f4 i).2.1]
      simp [hs1, set_inode, get_inode]
    simp only [storage_unlink, hres, hi, if_false, hdp, hfn, hdir, ← hs1, hpar]
    by_cases hz : (get_inode s i).refs - 1 = 0
    · rw [if_pos (by rw [hrefs]; exact hz)]
      refine ⟨_, rfl, ?_, ?_, fun h => absurd hz h⟩
      · simp only [get_inode] at hrefs ⊢
        exact hrefs
      · intro _
        refine ⟨?_, ?_⟩
        · show bitmap_put _ i false = _
          rw [f1]
          rfl
        · show bitmap_put _ _ false = _
          rw [f2, hblk]
          rfl
    · rw [if_neg (by rw [hrefs]; exact hz)]
      exact ⟨_, rfl, hrefs, fun h => absurd h hz, fun _ => ⟨f1, f2⟩⟩

/-! ### C7 -/

/-- C7 fails on the code: in a root directory whose `DIRENT_COUNT` slots are
all in use, `storage_link("/f1", "/g")` returns `0` although `directory_put`
found no slot: `/g` still does not resolve afterwards, while the refs of the
inode of `/f1` went from 1 to 2. -/
theorem C7_link_into_full_directory :
    (∀ i : Nat, i < DIRENT_COUNT → (image_dir_full.dirents 6 i).free = 1)
      ∧ tree_lookup image_dir_full "/f1".toList = some 3
      ∧ (get_inode image_dir_full 3).refs = 1
      ∧ tree_lookup image_dir_full "/g".toList = some (-1)
      ∧ (storage_link image_dir_full "/f1".toList "/g".toList).rv = some 0
      ∧ tree_lookup (storage_link image_dir_full "/f1".toList "/g".toList).state "/g".toList
          = some (-1)
      ∧ (get_inode (storage_link image_dir_full "/f1".toList "/g".toList).state 3).refs = 2 := by
  refine ⟨?_, by decide, by decide, by decide, by decide, by decide, by decide⟩
  intro i _
  by_cases h : i = 0 <;> simp [image_dir_full, h]

/-! ### The walk and the lookups it makes -/

theorem tree_walk_congr_steps (s t : State) (cur : Int) (comps : List (List Char))
    (h : ∀ xc ∈ walk_steps s cur comps,
      directory_lookup t xc.1 xc.2 = directory_lookup s xc.1 xc.2) :
    tree_walk t cur comps = tree_walk s cur comps := by
  induction comps generalizing cur with
  | nil => rfl
  | cons c cs ih =>
    have h0 : directory_lookup t cur c = directory_lookup s cur c :=
      h (cur, c) (by simp [walk_steps])
    simp only [tree_walk, h0]
    by_cases hl : directory_lookup s cur c = -1
    · simp [hl]
    · simp only [hl, if_false]
      apply ih
      intro xc hxc
      apply h
      simp [walk_steps, hl, hxc]

theorem walk_steps_congr_steps (s t : State) (cur : Int) (comps : List (List Char))
    (h : ∀ xc ∈ walk_steps s cur comps,
      directory_lookup t xc.1 xc.2 = directory_lookup s xc.1 xc.2) :
    walk_steps t cur comps = walk_steps s cur comps := by
  induction comps generalizing cur with
  | nil => rfl
  | cons c cs ih =>
    have h0 : directory_lookup t cur c = directory_lookup s cur c :=
      h (cur, c) (by simp [walk_steps])
    simp only [walk_steps, h0]
    by_cases hl : directory_lookup s cur c = -1
    · simp [hl]
    · simp only [hl, if_false]
      rw [ih]
      intro xc hxc
      apply h
      simp [walk_steps, hl, hxc]

theorem walk_steps_lookup_ne (s : State) (cur : Int) (comps : List (List Char))
    (h : tree_walk s cur comps ≠ -1) :
    ∀ xc ∈ walk_steps s cur comps, directory_lookup s xc.1 xc.2 ≠ -1 := by
  induction comps generalizing cur with
  | nil => simp [walk_steps]
  | cons c cs ih =>
    intro xc hxc
    simp only [tree_walk] at h
    by_cases hl : directory_lookup s cur c = -1
    · simp [hl] at h
    · simp only [hl, if_false] at h
      simp only [walk_steps, hl, if_false, List.mem_cons] at hxc
      rcases hxc with rfl | hxc
      · exact hl
      · exact ih _ h xc hxc

theorem walk_steps_append (s : State) (cur : Int) (pre : List (List Char)) (leaf : List Char)
    (hcur : cur ≠ -1) :
    walk_steps s cur (pre ++ [leaf])
      = walk_steps s cur pre
          ++ (if tree_walk s cur pre = -1 then [] else [(tree_walk s cur pre, leaf)]) := by
  induction pre generalizing cur with
  | nil => simp [walk_steps, tree_walk, hcur]
  | cons c cs ih =>
    simp only [List.cons_append, walk_steps, tree_walk]
    by_cases hl : directory_lookup s cur c = -1
    · simp [hl]
    · simp only [hl, if_false, List.cons_append, List.append_eq]
      rw [ih _ hl]

/-! ### Lookups after an entry table has changed -/

theorem directory_lookup_congr_slots (s t : State) (x : Int) (c : List Char)
    (hb : (t.inodes x).block = (s.inodes x).block)
    (h : ∀ i, i < DIRENT_COUNT →
      (((t.dirents (s.inodes x).block i).free = 1 ∧ (t.dirents (s.inodes x).block i).name = c)
        ↔ ((s.dirents (s.inodes x).block i).free = 1
            ∧ (s.dirents (s.inodes x).block i).name = c))
      ∧ (((s.dirents (s.inodes x).block i).free = 1 ∧ (s.dirents (s.inodes x).block i).name = c)
          → (t.dirents (s.inodes x).block i).inum = (s.dirents (s.inodes x).block i).inum)) :
    directory_lookup t x c = directory_lookup s x c := by
  simp only [directory_lookup, get_inode, hb]
  have hfi : first_index (fun i => decide ((t.dirents (s.inodes x).block i).free = 1
        ∧ (t.dirents (s.inodes x).block i).name = c)) 0 DIRENT_COUNT
      = first_index (fun i => decide ((s.dirents (s.inodes x).block i).free = 1
        ∧ (s.dirents (s.inodes x).block i).name = c)) 0 DIRENT_COUNT := by
    apply first_index_congr
    intro j _ hj
    have := (h j (by omega)).1
    simp only [this]
  rw [hfi]
  cases hc : first_index (fun i => decide ((s.dirents (s.inodes x).block i).free = 1
        ∧ (s.dirents (s.inodes x).block i).name = c)) 0 DIRENT_COUNT with
  | none => rfl
  | some j =>
    obtain ⟨-, hj, hp, -⟩ := first_index_some_spec hc
    exact (h j (by omega)).2 (by simpa using hp)

theorem directory_lookup_none_iff (s : State) (x : Int) (c : List Char)
    (hinum : ∀ i, i < DIRENT_COUNT → (s.dirents (s.inodes x).block i).free = 1 →
      (s.dirents (s.inodes x).block i).inum ≠ -1) :
    directory_lookup s x c = -1 ↔
      ∀ i, i < DIRENT_COUNT → ¬ ((s.dirents (s.inodes x).block i).free = 1
        ∧ (s.dirents (s.inodes x).block i).name = c) := by
  simp only [directory_lookup, get_inode]
  cases hc : first_index (fun i => decide ((s.dirents (s.inodes x).block i).free = 1
        ∧ (s.dirents (s.inodes x).block i).name = c)) 0 DIRENT_COUNT with
  | none =>
    simp only [true_iff]
    intro i hi
    have := first_index_none_spec hc i (by omega) (by omega)
    simpa using this
  | some j =>
    obtain ⟨-, hj, hp, -⟩ := first_index_some_spec hc
    have hp2 : (s.dirents (s.inodes x).block j).free = 1
        ∧ (s.dirents (s.inodes x).block j).name = c := by simpa using hp
    constructor
    · intro h
      exact absurd h (hinum j (by omega) hp2.1)
    · intro h
      exact absurd hp2 (h j (by omega))

/-! ### `directory_put` -/

theorem directory_put_some (s : State) (d : Int) (n : List Char) (k : Int) (j : Nat)
    (h : first_index (fun i => decide ((s.dirents (get_inode s d).block i).free = 0))
      0 DIRENT_COUNT = some j) :
    directory_put s d n k
      = (0, set_dirent s (get_inode s d).block j { name := n, inum := k, free := 1 }) := by
  simp only [directory_put, h]

theorem directory_put_none (s : State) (d : Int) (n : List Char) (k : Int)
    (h : first_index (fun i => decide ((s.dirents (get_inode s d).block i).free = 0))
      0 DIRENT_COUNT = none) :
    directory_put s d n k = (-1, s) := by
  simp only [directory_put, h]

theorem free_slot_found (s : State) (b : Int)
    (h : ∃ i, i < DIRENT_COUNT ∧ (s.dirents b i).free = 0) :
    ∃ j, first_index (fun i => decide ((s.dirents b i).free = 0)) 0 DIRENT_COUNT = some j := by
  cases hc : first_index (fun i => decide ((s.dirents b i).free = 0)) 0 DIRENT_COUNT with
  | some j => exact ⟨j, rfl⟩
  | none =>
    obtain ⟨i, hi, hf⟩ := h
    have := first_index_none_spec hc i (by omega) (by omega)
    simp [hf] at this

theorem lookup_after_put_other (s : State) (d : Int) (n : List Char) (k : Int)
    (x : Int) (c : List Char)
    (h : (s.inodes x).block ≠ (s.inodes d).block ∨ c ≠ n) :
    directory_lookup (directory_put s d n k).2 x c = directory_lookup s x c := by
  cases hc : first_index (fun i => decide ((s.dirents (get_inode s d).block i).free = 0))
      0 DIRENT_COUNT with
  | none => rw [directory_put_none s d n k hc]
  | some j =>
    rw [directory_put_some s d n k j hc]
    obtain ⟨-, -, hp, -⟩ := first_index_some_spec hc
    have hfree : (s.dirents (s.inodes d).block j).free = 0 := by simpa [get_inode] using hp
    show directory_lookup (set_dirent s (get_inode s d).block j
      { name := n, inum := k, free := 1 }) x c = directory_lookup s x c
    apply directory_lookup_congr_slots s (set_dirent s (get_inode s d).block j
      { name := n, inum := k, free := 1 }) x c rfl
    intro i _
    simp only [set_dirent, get_inode]
    by_cases hij : (s.inodes x).block = (s.inodes d).block ∧ i = j
    · obtain ⟨hb, rfl⟩ := hij
      have hcn : c ≠ n := by
        rcases h with h | h
        · exact absurd hb h
        · exact h
      simp only [hb, and_self, if_true]
      constructor
      · constructor
        · intro h1; exact absurd h1.2.symm hcn
        · intro h1; rw [hfree] at h1; simp at h1
      · intro h1; rw [hfree] at h1; simp at h1
    · simp [hij]

theorem lookup_after_put_new (s : State) (d : Int) (n : List Char) (k : Int) (x : Int)
    (hx : (s.inodes x).block = (s.inodes d).block)
    (hslot : ∃ i, i < DIRENT_COUNT ∧ (s.dirents (s.inodes d).block i).free = 0)
    (hnone : ∀ i, i < DIRENT_COUNT → ¬ ((s.dirents (s.inodes d).block i).free = 1
      ∧ (s.dirents (s.inodes d).block i).name = n)) :
    directory_lookup (directory_put s d n k).2 x n = k := by
  obtain ⟨j, hc⟩ := free_slot_found s (get_inode s d).block hslot
  rw [directory_put_some s d n k j hc]
  obtain ⟨-, hj, -, -⟩ := first_index_some_spec hc
  simp only [directory_lookup, get_inode, set_dirent, hx]
  rw [first_index_some (i := j) (by omega) (by omega) (by simp)]
  · simp
  · intro i _ hij
    have hne : i ≠ j := by omega
    simp only [hne, and_false, if_false]
    have := hnone i (by omega)
    simpa using this

/-! ### Allocation succeeds when something is free -/

theorem alloc_inode_some (s : State)
    (h : ∃ i : Nat, i < INODE_COUNT ∧ s.inode_bitmap i = false) :
    ∃ k : Nat, k < INODE_COUNT ∧ s.inode_bitmap k = false
      ∧ alloc_inode s
          = ((k : Int), { s with inode_bitmap := bitmap_put s.inode_bitmap k true }) := by
  cases hc : first_index (fun ii => !bitmap_get s.inode_bitmap ii) 0 INODE_COUNT with
  | none =>
    obtain ⟨i, hi, hf⟩ := h
    have := first_index_none_spec hc i (by omega) (by omega)
    simp [bitmap_get, hf] at this
  | some k =>
    obtain ⟨-, hk, hp, -⟩ := first_index_some_spec hc
    refine ⟨k, by omega, by simpa [bitmap_get] using hp, ?_⟩
    simp only [alloc_inode, hc]

theorem alloc_block_some (s : State)
    (h : ∃ b : Nat, 1 ≤ b ∧ b < BLOCK_COUNT ∧ s.blocks_bitmap b = false) :
    ∃ k : Nat, 1 ≤ k ∧ k < BLOCK_COUNT ∧ s.blocks_bitmap k = false
      ∧ alloc_block s
          = ((k : Int), { s with blocks_bitmap := bitmap_put s.blocks_bitmap k true }) := by
  cases hc : first_index (fun ii => !bitmap_get s.blocks_bitmap ii) 1 (BLOCK_COUNT - 1) with
  | none =>
    obtain ⟨i, hi1, hi, hf⟩ := h
    have := first_index_none_spec hc i (by omega) (by simp only [BLOCK_COUNT] at *; omega)
    simp [bitmap_get, hf] at this
  | some k =>
    obtain ⟨hk1, hk, hp, -⟩ := first_index_some_spec hc
    refine ⟨k, hk1, by simp only [BLOCK_COUNT] at *; omega, by simpa [bitmap_get] using hp, ?_⟩
    simp only [alloc_block, hc]

/-! ### `storage_mknod` after the two allocations -/

theorem alloc_block_congr (s t : State) (h : t.blocks_bitmap = s.blocks_bitmap) (k : Int)
    (u : State) (hs : alloc_block s = (k, u)) :
    alloc_block t = (k, { t with blocks_bitmap := u.blocks_bitmap }) := by
  unfold alloc_block at hs ⊢
  rw [h]
  cases hc : first_index (fun ii => !bitmap_get s.blocks_bitmap ii) 1 (BLOCK_COUNT - 1) with
  | none =>
    rw [hc] at hs
    simp only [Prod.mk.injEq] at hs
    obtain ⟨rfl, rfl⟩ := hs
    simp only [← h]
  | some j =>
    rw [hc] at hs
    simp only [Prod.mk.injEq] at hs
    obtain ⟨rfl, rfl⟩ := hs
    rfl

/-- The image in which `storage_mknod` looks the parent directory up: inode
`k` and block `b` are marked used and the record of `k` is initialised. -/
theorem mknod_unfold (s : State) (p : List Char) (mode : Int) (k b : Nat) (dp leaf : List Char)
    (hnew : tree_lookup s p = some (-1))
    (hai : alloc_inode s
      = ((k : Int), { s with inode_bitmap := bitmap_put s.inode_bitmap k true }))
    (hab : alloc_block s
      = ((b : Int), { s with blocks_bitmap := bitmap_put s.blocks_bitmap b true }))
    (hdp : get_dir_path p = some dp) (hfn : get_file_name p = some leaf) :
    ∃ s4 : State,
      s4.inodes = (fun j => if j = (k : Int) then
          { refs := 1, mode := mode, size := 0, block := (b : Int) } else s.inodes j)
        ∧ s4.dirents = s.dirents
        ∧ s4.inode_bitmap = bitmap_put s.inode_bitmap k true
        ∧ s4.blocks_bitmap = bitmap_put s.blocks_bitmap b true
        ∧ s4.bytes = s.bytes
        ∧ storage_mknod s p mode
            = (match tree_lookup s4 dp with
               | none => .abort s4
               | some dI => if dI = -1 then .abort s4
                  else .ret 0 (directory_put s4 dI leaf k).2) := by
  refine ⟨{ inode_bitmap := bitmap_put s.inode_bitmap k true
            blocks_bitmap := bitmap_put s.blocks_bitmap b true
            inodes := fun j => if j = (k : Int) then
              { refs := 1, mode := mode, size := 0, block := (b : Int) } else s.inodes j
            dirents := s.dirents
            bytes := s.bytes }, rfl, rfl, rfl, rfl, rfl, ?_⟩
  have hk : (k : Int) ≠ -1 := by omega
  have hb : (b : Int) ≠ -1 := by omega
  have hab2 := alloc_block_congr s
    (set_inode { s with inode_bitmap := bitmap_put s.inode_bitmap k true } k
      { (get_inode { s with inode_bitmap := bitmap_put s.inode_bitmap k true } k) with
        refs := 1, mode := mode, size := 0 }) rfl _ _ hab
  simp only [storage_mknod, hnew, hai, hab2, hk, hb, hdp, hfn, ne_eq, not_true_eq_false,
    if_false]
  have hst : set_inode
      { set_inode { s with inode_bitmap := bitmap_put s.inode_bitmap k true } k
          { (get_inode { s with inode_bitmap := bitmap_put s.inode_bitmap k true } k) with
            refs := 1, mode := mode, size := 0 } with
        blocks_bitmap := bitmap_put s.blocks_bitmap b true } k
      { (get_inode { set_inode { s with inode_bitmap := bitmap_put s.inode_bitmap k true } k
          { (get_inode { s with inode_bitmap := bitmap_put s.inode_bitmap k true } k) with
            refs := 1, mode := mode, size := 0 } with
        blocks_bitmap := bitmap_put s.blocks_bitmap b true } k) with block := (b : Int) }
      = { inode_bitmap := bitmap_put s.inode_bitmap k true
          blocks_bitmap := bitmap_put s.blocks_bitmap b true
          inodes := fun j => if j = (k : Int) then
            { refs := 1, mode := mode, size := 0, block := (b : Int) } else s.inodes j
          dirents := s.dirents
          bytes := s.bytes } := by
    simp only [set_inode, get_inode, if_true]
    congr 1
    funext j
    by_cases hj : j = (k : Int) <;> simp [hj]
  rw [hst]

theorem directory_lookup_same_block (s : State) (x d : Int) (c : List Char)
    (h : (s.inodes x).block = (s.inodes d).block) :
    directory_lookup s x c = directory_lookup s d c := by
  simp only [directory_lookup, get_inode, h]

/-! ### C1 -/

/-- The call `storage_mknod` followed by `tree_lookup`, over the typed views: take a state and an absolute path `p` with
`tree_lookup(p) = -1`, whose parent directory resolves and has a slot with
`free == 0`, with a free inode id and a free block, and which is consistent
along `p`: every directory inode read while resolving `p` is marked used in the
inode bitmap, and no slot in use of the parent stores the inum `-1`.  Then
`storage_mknod(p, mode)` returns `0`, and afterwards `tree_lookup(p)` is the
inode id that `alloc_inode` handed out, whose record is `{refs: 1, mode: mode,
size: 0, block: the newly allocated block}`. -/
theorem mknod_then_lookup_typed (s : State) (p : List Char) (mode : Int) (dp : List Char) (d : Int)
    (habs : p.head? = some '/')
    (hnew : tree_lookup s p = some (-1))
    (hdp : get_dir_path p = some dp) (hd : tree_lookup s dp = some d) (hdne : d ≠ -1)
    (hslot : ∃ i, i < DIRENT_COUNT ∧ (s.dirents (get_inode s d).block i).free = 0)
    (hfi : ∃ i : Nat, i < INODE_COUNT ∧ s.inode_bitmap i = false)
    (hfb : ∃ b : Nat, 1 ≤ b ∧ b < BLOCK_COUNT ∧ s.blocks_bitmap b = false)
    (hused : ∀ x ∈ visited s p, s.inode_bitmap x = true)
    (hinum : ∀ i, i < DIRENT_COUNT → (s.dirents (get_inode s d).block i).free = 1 →
      (s.dirents (get_inode s d).block i).inum ≠ -1) :
    ∃ t, storage_mknod s p mode = .ret 0 t
      ∧ tree_lookup t p = some (alloc_inode s).1
      ∧ get_inode t (alloc_inode s).1
          = { refs := 1, mode := mode, size := 0, block := (alloc_block s).1 } := by
  have hne : p ≠ ['/'] := by
    rintro rfl
    simp [tree_lookup] at hnew
  obtain ⟨pre, leaf, dp2, hdp2, hfn, hdir, hp, htail, -⟩ := path_shape p habs hne
  obtain rfl : dp = dp2 := Option.some.inj (hdp.symm.trans hdp2)
  have hwd : tree_walk s 2 pre = d := (Option.some.inj ((hdir s).symm.trans hd))
  have hwp : tree_walk s 2 (pre ++ [leaf]) = -1 := (Option.some.inj ((hp s).symm.trans hnew))
  have hlk : directory_lookup s d leaf = -1 := by
    rw [tree_walk_append s 2 pre leaf (by decide), hwd, if_neg hdne] at hwp
    exact hwp
  obtain ⟨k, hk, hkf, hai⟩ := alloc_inode_some s hfi
  obtain ⟨b, -, -, -, hab⟩ := alloc_block_some s hfb
  obtain ⟨s4, hi4, hd4, -, -, -, hmk⟩ := mknod_unfold s p mode k b dp leaf hnew hai hab hdp hfn
  -- the directories on the way to `p` are not the inode handed out
  have hvis : ∀ x, x ∈ (walk_steps s 2 (pre ++ [leaf])).map Prod.fst → x ≠ (k : Int) := by
    intro x hx hxk
    have := hused x (by simpa [visited, htail] using hx)
    rw [hxk, hkf] at this
    exact Bool.noConfusion this
  have hsteps : walk_steps s 2 (pre ++ [leaf]) = walk_steps s 2 pre ++ [(d, leaf)] := by
    rw [walk_steps_append s 2 pre leaf (by decide), hwd, if_neg hdne]
  have hblk4 : ∀ x, x ≠ (k : Int) → (s4.inodes x).block = (s.inodes x).block := by
    intro x hx
    rw [hi4]
    simp [hx]
  have hdk : d ≠ (k : Int) := hvis d (by rw [hsteps]; simp)
  have hpre4 : ∀ xc ∈ walk_steps s 2 pre, xc.1 ≠ (k : Int) := by
    intro xc hxc
    apply hvis
    rw [hsteps]
    simp only [List.map_append, List.mem_append, List.mem_map]
    exact Or.inl ⟨xc, hxc, rfl⟩
  have hw4 : tree_walk s4 2 pre = d := by
    rw [tree_walk_congr_steps s s4 2 pre (fun xc hxc =>
      directory_lookup_congr s s4 xc.1 xc.2 (hblk4 _ (hpre4 xc hxc)) hd4), hwd]
  have hnone : ∀ i, i < DIRENT_COUNT → ¬ ((s4.dirents (s4.inodes d).block i).free = 1
      ∧ (s4.dirents (s4.inodes d).block i).name = leaf) := by
    rw [hd4, hblk4 d hdk]
    exact (directory_lookup_none_iff s d leaf hinum).1 hlk
  have hslot4 : ∃ i, i < DIRENT_COUNT ∧ (s4.dirents (s4.inodes d).block i).free = 0 := by
    rw [hd4, hblk4 d hdk]
    exact hslot
  have hlookne := walk_steps_lookup_ne s 2 pre (by rw [hwd]; exact hdne)
  refine ⟨(directory_put s4 d leaf k).2, ?_, ?_, ?_⟩
  · rw [hmk, hdir s4, hw4]
    simp only [hdne, if_false]
  · rw [hp, tree_walk_append _ 2 pre leaf (by decide)]
    have hwt : tree_walk (directory_put s4 d leaf k).2 2 pre = d := by
      rw [tree_walk_congr_steps s _ 2 pre, hwd]
      intro xc hxc
      have h4 : directory_lookup s4 xc.1 xc.2 = directory_lookup s xc.1 xc.2 :=
        directory_lookup_congr s s4 xc.1 xc.2 (hblk4 _ (hpre4 xc hxc)) hd4
      rw [← h4]
      apply lookup_after_put_other
      by_cases hb : (s4.inodes xc.1).block = (s4.inodes d).block
      · right
        intro hc
        have h5 : directory_lookup s xc.1 xc.2 = -1 := by
          rw [hc, directory_lookup_same_block s xc.1 d leaf
            (by rw [← hblk4 _ (hpre4 xc hxc), ← hblk4 d hdk]; exact hb)]
          exact hlk
        exact hlookne xc hxc h5
      · exact Or.inl hb
    rw [hwt, if_neg hdne, hai]
    exact congrArg some (lookup_after_put_new s4 d leaf k d rfl hslot4 hnone)
  · rw [hai, hab]
    simp only [get_inode, (directory_put_frame s4 d leaf k).2.2.2, hi4, if_true]

/-- C1 as stated fails on a reachable image.  After `storage_init`,
`directory_init("/d")`, `storage_mknod("/d/c")`, `storage_unlink("/d")`,
`storage_unlink("/.")` and `storage_mknod("/x")`, the root inode 2 is free and
block 7 (the entry table of the removed `/d`, still holding `c`) is free.
`/c` does not resolve, its parent `/` resolves and has a free slot, inode 2 and
block 7 are free; `storage_mknod("/c")` returns `0`, is handed inode 2, the
root itself, whose block becomes 7, and `tree_lookup("/c")` then gives 1, the
inode of the stale entry `c`, not 2. -/
theorem C1_counterexample :
    tree_lookup image_c1 "/c".toList = some (-1)
      ∧ get_dir_path "/c".toList = some "/".toList
      ∧ tree_lookup image_c1 "/".toList = some 2
      ∧ (image_c1.dirents (get_inode image_c1 2).block 1).free = 0
      ∧ (alloc_inode image_c1).1 = 2
      ∧ (alloc_block image_c1).1 = 7
      ∧ (storage_mknod image_c1 "/c".toList 33188).rv = some 0
      ∧ tree_lookup (storage_mknod image_c1 "/c".toList 33188).state "/c".toList = some 1 := by
  decide

/-! ### `directory_delete` -/

/-- The two ways `directory_delete` ends: the guard fails and nothing changes,
or the first slot carrying the name gets `free = 0` and the size of the
directory is adjusted. -/
theorem directory_delete_cases (s : State) (d : Int) (n : List Char) :
    (directory_lookup s d n = -1 ∧ directory_delete s d n = (-1, s))
      ∨ (directory_lookup s d n ≠ -1 ∧ ∃ t0 sz,
          first_index (fun i => decide ((s.dirents (get_inode s d).block i).name = n))
            0 DIRENT_COUNT = some t0
          ∧ directory_delete s d n
            = (0, set_inode (set_dirent s (get_inode s d).block t0
                  { (s.dirents (get_inode s d).block t0) with free := 0 }) d
                { (get_inode s d) with size := sz })) := by
  by_cases h0 : directory_lookup s d n = -1
  · left
    exact ⟨h0, by simp only [directory_delete, h0, if_true]⟩
  · right
    refine ⟨h0, ?_⟩
    cases hc : first_index (fun i => decide ((s.dirents (get_inode s d).block i).name = n))
        0 DIRENT_COUNT with
    | none =>
      exfalso
      apply h0
      simp only [directory_lookup]
      rw [first_index_none]
      intro j h1 h2
      have := first_index_none_spec hc j h1 h2
      simp only [decide_eq_false_iff_not] at this
      simp [this]
    | some t0 =>
      refine ⟨t0, (get_inode s d).size
        - (get_inode (set_dirent s (get_inode s d).block t0
            { (s.dirents (get_inode s d).block t0) with free := 0 })
          (directory_lookup (set_dirent s (get_inode s d).block t0
            { (s.dirents (get_inode s d).block t0) with free := 0 }) d n)).size, rfl, ?_⟩
      simp only [directory_delete, h0, if_false, hc]
      rfl

theorem directory_delete_inodes_other (s : State) (d : Int) (n : List Char) (x : Int)
    (hx : x ≠ d) : (directory_delete s d n).2.inodes x = s.inodes x := by
  rcases directory_delete_cases s d n with ⟨-, h⟩ | ⟨-, t0, sz, -, h⟩
  · rw [h]
  · rw [h]
    simp [set_inode, set_dirent, hx]

theorem directory_delete_block (s : State) (d : Int) (n : List Char) (x : Int) :
    ((directory_delete s d n).2.inodes x).block = (s.inodes x).block :=
  ((directory_delete_frame s d n).2.2.2 x).2.1

/-- An entry of the table after `directory_delete` is the entry before, with
`free` possibly set to `0`. -/
theorem directory_delete_slot (s : State) (d : Int) (n : List Char) (blk : Int) (j : Nat) :
    ((directory_delete s d n).2.dirents blk j).name = (s.dirents blk j).name
      ∧ ((directory_delete s d n).2.dirents blk j).inum = (s.dirents blk j).inum
      ∧ (((directory_delete s d n).2.dirents blk j).free = (s.dirents blk j).free
          ∨ ((directory_delete s d n).2.dirents blk j).free = 0) := by
  rcases directory_delete_cases s d n with ⟨-, h⟩ | ⟨-, t0, sz, -, h⟩
  · rw [h]
    exact ⟨rfl, rfl, Or.inl rfl⟩
  · rw [h]
    simp only [set_inode, set_dirent]
    by_cases hj : blk = (get_inode s d).block ∧ j = t0
    · obtain ⟨rfl, rfl⟩ := hj
      simp
    · simp [hj]

theorem lookup_after_delete_other (s : State) (d : Int) (n : List Char) (x : Int)
    (c : List Char) (h : (s.inodes x).block ≠ (s.inodes d).block ∨ c ≠ n) :
    directory_lookup (directory_delete s d n).2 x c = directory_lookup s x c := by
  rcases directory_delete_cases s d n with ⟨-, hd⟩ | ⟨-, t0, sz, hc, hd⟩
  · rw [hd]
  · apply directory_lookup_congr_slots s _ x c (directory_delete_block s d n x)
    intro i _
    rw [hd]
    obtain ⟨-, -, hp, -⟩ := first_index_some_spec hc
    have hname : (s.dirents (s.inodes d).block t0).name = n := by simpa [get_inode] using hp
    simp only [set_inode, set_dirent, get_inode]
    by_cases hij : (s.inodes x).block = (s.inodes d).block ∧ i = t0
    · obtain ⟨hb, rfl⟩ := hij
      have hcn : c ≠ n := by
        rcases h with h | h
        · exact absurd hb h
        · exact h
      simp only [hb, and_self, if_true, hname]
      constructor
      · constructor
        · intro h1; exact absurd h1.2.symm hcn
        · intro h1; exact absurd h1.2.symm hcn
      · intro h1; exact absurd h1.2.symm hcn
    · simp [hij]

/-- After `directory_delete` of a name whose slot in use is the first slot
carrying it, no slot in use of the table carries the name. -/
theorem no_entry_after_delete (s : State) (d : Int) (n : List Char)
    (hd : directory_lookup s d n ≠ -1)
    (hfirst : first_named s (s.inodes d).block n) :
    ∀ j, j < DIRENT_COUNT →
      ¬ (((directory_delete s d n).2.dirents (s.inodes d).block j).free = 1
        ∧ ((directory_delete s d n).2.dirents (s.inodes d).block j).name = n) := by
  rcases directory_delete_cases s d n with ⟨h0, -⟩ | ⟨-, t0, sz, hc, hdel⟩
  · exact absurd h0 hd
  · intro j hj
    rw [hdel]
    obtain ⟨-, ht0, hp, hlt⟩ := first_index_some_spec hc
    have hname : (s.dirents (s.inodes d).block t0).name = n := by simpa [get_inode] using hp
    simp only [set_inode, set_dirent, get_inode]
    by_cases hjt : j = t0
    · subst hjt
      simp
    · simp only [hjt, and_false, if_false]
      intro ⟨hf, hn⟩
      rcases Nat.lt_or_gt_of_ne hjt with hlt2 | hgt
      · have := hlt j (by omega) hlt2
        simp only [decide_eq_false_iff_not, get_inode] at this
        exact this hn
      · exact hfirst j hj hf hn t0 hgt hname

theorem free_slot_after_delete (s : State) (d : Int) (n : List Char)
    (hd : directory_lookup s d n ≠ -1) :
    ∃ i, i < DIRENT_COUNT ∧ ((directory_delete s d n).2.dirents (s.inodes d).block i).free = 0 := by
  rcases directory_delete_cases s d n with ⟨h0, -⟩ | ⟨-, t0, sz, hc, hdel⟩
  · exact absurd h0 hd
  · obtain ⟨-, ht0, -, -⟩ := first_index_some_spec hc
    refine ⟨t0, by omega, ?_⟩
    rw [hdel]
    simp [set_inode, set_dirent, get_inode]

theorem first_named_after_delete (s : State) (d : Int) (n : List Char) (blk : Int)
    (m : List Char) (h : first_named s blk m) :
    first_named (directory_delete s d n).2 blk m := by
  intro j hj hf hn j2 hj2
  obtain ⟨hn1, -, hf1⟩ := directory_delete_slot s d n blk j
  rw [(directory_delete_slot s d n blk j2).1]
  rw [hn1] at hn
  rcases hf1 with hf1 | hf1
  · rw [hf1] at hf
    exact h j hj hf hn j2 hj2
  · rw [hf1] at hf
    exact absurd hf (by decide)

theorem first_named_after_put (s : State) (d : Int) (n : List Char) (k : Int) (blk : Int)
    (m : List Char) (h : first_named s blk m)
    (hne : (s.inodes d).block ≠ blk ∨ n ≠ m) :
    first_named (directory_put s d n k).2 blk m := by
  cases hc : first_index (fun i => decide ((s.dirents (get_inode s d).block i).free = 0))
      0 DIRENT_COUNT with
  | none => rw [directory_put_none s d n k hc]; exact h
  | some j0 =>
    rw [directory_put_some s d n k j0 hc]
    obtain ⟨-, -, hp, -⟩ := first_index_some_spec hc
    have hfree : (s.dirents (s.inodes d).block j0).free = 0 := by simpa [get_inode] using hp
    intro j hj hf hn j2 hj2
    simp only [set_dirent, get_inode] at hf hn ⊢
    by_cases h1 : blk = (s.inodes d).block ∧ j = j0
    · obtain ⟨rfl, rfl⟩ := h1
      simp only [and_self, if_true] at hn
      rcases hne with hne | hne
      · exact absurd rfl hne
      · exact absurd hn hne
    · simp only [h1, if_false] at hf hn
      by_cases h2 : blk = (s.inodes d).block ∧ j2 = j0
      · obtain ⟨rfl, rfl⟩ := h2
        simp only [and_self, if_true]
        rcases hne with hne | hne
        · exact absurd rfl hne
        · exact hne
      · simp only [h2, if_false]
        exact h j hj hf hn j2 hj2

/-! ### Walks after entries have gone -/

theorem tree_walk_same_or_fail (s t : State) (cur : Int) (comps : List (List Char))
    (h : ∀ xc ∈ walk_steps s cur comps,
      directory_lookup t xc.1 xc.2 = directory_lookup s xc.1 xc.2
        ∨ directory_lookup t xc.1 xc.2 = -1) :
    tree_walk t cur comps = tree_walk s cur comps ∨ tree_walk t cur comps = -1 := by
  induction comps generalizing cur with
  | nil => left; rfl
  | cons c cs ih =>
    simp only [tree_walk]
    rcases h (cur, c) (by simp [walk_steps]) with h0 | h0
    · simp only at h0
      rw [h0]
      by_cases hl : directory_lookup s cur c = -1
      · simp [hl]
      · simp only [hl, if_false]
        apply ih
        intro xc hxc
        apply h
        simp [walk_steps, hl, hxc]
    · simp only at h0
      right
      simp [h0]

theorem directory_put_dirents_other (s : State) (d : Int) (n : List Char) (k : Int) (blk : Int)
    (h : blk ≠ (s.inodes d).block) : (directory_put s d n k).2.dirents blk = s.dirents blk := by
  cases hc : first_index (fun i => decide ((s.dirents (get_inode s d).block i).free = 0))
      0 DIRENT_COUNT with
  | none => rw [directory_put_none s d n k hc]
  | some j0 =>
    rw [directory_put_some s d n k j0 hc]
    funext j
    simp [set_dirent, get_inode, h]

theorem directory_delete_dirents_other (s : State) (d : Int) (n : List Char) (blk : Int)
    (h : blk ≠ (s.inodes d).block) :
    (directory_delete s d n).2.dirents blk = s.dirents blk := by
  rcases directory_delete_cases s d n with ⟨-, hd⟩ | ⟨-, t0, sz, -, hd⟩
  · rw [hd]
  · rw [hd]
    funext j
    simp [set_inode, set_dirent, get_inode, h]

/-! ### `storage_link` and `storage_unlink` when they return 0 -/

theorem link_unfold (s : State) (a b : List Char) (i : Int) (pre : List (List Char))
    (leaf dp : List Char)
    (hb : tree_lookup s b = some (-1)) (ha : tree_lookup s a = some i) (hi : i ≠ -1)
    (hdp : get_dir_path b = some dp) (hfn : get_file_name b = some leaf)
    (hdir : ∀ s, tree_lookup s dp = some (tree_walk s 2 pre))
    (hpar : tree_walk s 2 pre ≠ -1) :
    storage_link s a b
      = .ret 0 (directory_put
          (set_inode s i { (get_inode s i) with refs := (get_inode s i).refs + 1 })
          (tree_walk s 2 pre) leaf i).2 := by
  have hw : tree_walk (set_inode s i { (get_inode s i) with refs := (get_inode s i).refs + 1 })
      2 pre = tree_walk s 2 pre :=
    tree_walk_congr s _ 2 pre (fun x => by
      simp only [set_inode, get_inode]; split <;> simp_all) rfl
  simp only [storage_link, hb, ha, hi, hdp, hfn, hdir, hw, hpar, ne_eq, not_true_eq_false,
    if_false]

theorem unlink_unfold (s : State) (p : List Char) (i : Int) (pre : List (List Char))
    (leaf dp : List Char)
    (hres : tree_lookup s p = some i) (hi : i ≠ -1)
    (hdp : get_dir_path p = some dp) (hfn : get_file_name p = some leaf)
    (hdir : ∀ s, tree_lookup s dp = some (tree_walk s 2 pre))
    (hpar : tree_walk s 2 pre ≠ -1) :
    ∃ t, storage_unlink s p = .ret 0 t
      ∧ t.dirents = (directory_delete
          (set_inode s i { (get_inode s i) with refs := (get_inode s i).refs - 1 })
          (tree_walk s 2 pre) leaf).2.dirents
      ∧ t.inodes = (directory_delete
          (set_inode s i { (get_inode s i) with refs := (get_inode s i).refs - 1 })
          (tree_walk s 2 pre) leaf).2.inodes
      ∧ t.bytes = s.bytes
      ∧ ((get_inode s i).refs - 1 = 0 →
          t.inode_bitmap = bitmap_put s.inode_bitmap i false
            ∧ t.blocks_bitmap = bitmap_put s.blocks_bitmap (get_inode s i).block false)
      ∧ ((get_inode s i).refs - 1 ≠ 0 →
          t.inode_bitmap = s.inode_bitmap ∧ t.blocks_bitmap = s.blocks_bitmap) := by
  set s1 := set_inode s i { (get_inode s i) with refs := (get_inode s i).refs - 1 } with hs1
  have hw : tree_walk s1 2 pre = tree_walk s 2 pre :=
    tree_walk_congr s _ 2 pre (fun x => by
      simp only [hs1, set_inode, get_inode]; split <;> simp_all) rfl
  obtain ⟨f1, f2, f3, f4⟩ := directory_delete_frame s1 (tree_walk s 2 pre) leaf
  have hrefs : (get_inode (directory_delete s1 (tree_walk s 2 pre) leaf).2 i).refs
      = (get_inode s i).refs - 1 := by
    rw [get_inode, (f4 i).1]
    simp [hs1, set_inode]
  have hblk : (get_inode (directory_delete s1 (tree_walk s 2 pre) leaf).2 i).block
      = (get_inode s i).block := by
    rw [get_inode, (f4 i).2.1]
    simp [hs1, set_inode, get_inode]
  simp only [storage_unlink, hres, hi, if_false, hdp, hfn, hdir, ← hs1, hw, hpar]
  by_cases hz : (get_inode s i).refs - 1 = 0
  · rw [if_pos (by rw [hrefs]; exact hz)]
    refine ⟨_, rfl, rfl, rfl, f3, ?_, fun h => absurd hz h⟩
    intro _
    refine ⟨?_, ?_⟩
    · show bitmap_put _ i false = _
      rw [f1]
      rfl
    · show bitmap_put _ _ false = _
      rw [f2, hblk]
      rfl
  · rw [if_neg (by rw [hrefs]; exact hz)]
    exact ⟨_, rfl, rfl, rfl, f3, fun h => absurd h hz, fun _ => ⟨f1, f2⟩⟩

theorem directory_lookup_of_no_entry (s : State) (x : Int) (c : List Char)
    (h : ∀ j, j < DIRENT_COUNT → ¬ ((s.dirents (s.inodes x).block j).free = 1
      ∧ (s.dirents (s.inodes x).block j).name = c)) :
    directory_lookup s x c = -1 := by
  simp only [directory_lookup, get_inode]
  rw [first_index_none]
  intro j _ hj
  have := h j (by omega)
  simpa using this

theorem set_inode_refs_block (s : State) (i : Int) (r : Int) (x : Int) :
    ((set_inode s i { (get_inode s i) with refs := r }).inodes x).block = (s.inodes x).block := by
  simp only [set_inode, get_inode]
  split <;> simp_all

/-! ### C5 -/

/-- The call `storage_link` followed by `storage_unlink`, over the typed views: take a state in which the absolute path `a` (other than
`/`) resolves to an inode `i` that is marked used and has refs other than `0`,
the absolute path `b` does not resolve, and the parent directory of `b`
resolves and has a slot with `free == 0`; suppose moreover that no slot in use of the parent of `b`
stores the inum `-1`, that in the parent of `a` the slot in use named like
the leaf of `a` is the first slot carrying that name, and that resolving the
parent of `b` does not go through the entry of `a` (`a` is not an ancestor of
`b`).  Then `storage_link(a, b)` and `storage_unlink(a)` both return `0`, and
afterwards `tree_lookup(a) = -1`, `tree_lookup(b) = i`, inode `i` is still
marked used, with the refs and block index it had before the link, the bytes
view is unchanged, and so is the entry table of every block other than those
of the two parent directories. -/
theorem link_then_unlink_typed (s : State) (a b : List Char) (i : Int) (dpa dpb : List Char)
    (da db : Int) (la : List Char)
    (haabs : a.head? = some '/') (hane : a ≠ ['/'])
    (hbabs : b.head? = some '/')
    (ha : tree_lookup s a = some i) (hi : i ≠ -1)
    (hb : tree_lookup s b = some (-1))
    (hdpa : get_dir_path a = some dpa) (hda : tree_lookup s dpa = some da)
    (hfna : get_file_name a = some la)
    (hdpb : get_dir_path b = some dpb) (hdb : tree_lookup s dpb = some db) (hdbne : db ≠ -1)
    (hslot : ∃ k, k < DIRENT_COUNT ∧ (s.dirents (get_inode s db).block k).free = 0)
    (hused : s.inode_bitmap i = true) (hrefs : (get_inode s i).refs ≠ 0)
    (hinum : ∀ k, k < DIRENT_COUNT → (s.dirents (get_inode s db).block k).free = 1 →
      (s.dirents (get_inode s db).block k).inum ≠ -1)
    (hfirst : first_named s (get_inode s da).block la)
    (hanc : ∀ xc ∈ path_steps s dpb,
      ¬ ((get_inode s xc.1).block = (get_inode s da).block ∧ xc.2 = la)) :
    ∃ t1 t2, storage_link s a b = .ret 0 t1 ∧ storage_unlink t1 a = .ret 0 t2
      ∧ tree_lookup t2 a = some (-1) ∧ tree_lookup t2 b = some i
      ∧ t2.inode_bitmap i = true
      ∧ (get_inode t2 i).refs = (get_inode s i).refs
      ∧ (get_inode t2 i).block = (get_inode s i).block
      ∧ t2.bytes = s.bytes
      ∧ (∀ blk, blk ≠ (get_inode s da).block → blk ≠ (get_inode s db).block →
          t2.dirents blk = s.dirents blk) := by
  have hbne : b ≠ ['/'] := by
    rintro rfl
    simp [tree_lookup] at hb
  obtain ⟨preA, la2, dpa2, hdpa2, hfna2, hdira, hpa, -, -⟩ := path_shape a haabs hane
  obtain ⟨preB, lb, dpb2, hdpb2, hfnb, hdirb, hpb, -, hxb⟩ := path_shape b hbabs hbne
  obtain rfl : dpa = dpa2 := Option.some.inj (hdpa.symm.trans hdpa2)
  obtain rfl : dpb = dpb2 := Option.some.inj (hdpb.symm.trans hdpb2)
  obtain rfl : la = la2 := Option.some.inj (hfna.symm.trans hfna2)
  simp only [get_inode] at hslot hinum hfirst hanc
  simp only [path_steps, hxb] at hanc
  -- the walks in `s`
  have hwa : tree_walk s 2 (preA ++ [la]) = i := Option.some.inj ((hpa s).symm.trans ha)
  have hwda : tree_walk s 2 preA = da := Option.some.inj ((hdira s).symm.trans hda)
  have hdane : da ≠ -1 := by
    rw [← hwda]; exact tree_walk_parent_ne s preA la (by rw [hwa]; exact hi)
  have hla : directory_lookup s da la = i := by
    rw [tree_walk_append s 2 preA la (by decide), hwda, if_neg hdane] at hwa
    exact hwa
  have hwdb : tree_walk s 2 preB = db := Option.some.inj ((hdirb s).symm.trans hdb)
  have hwb : tree_walk s 2 (preB ++ [lb]) = -1 := Option.some.inj ((hpb s).symm.trans hb)
  have hlb : directory_lookup s db lb = -1 := by
    rw [tree_walk_append s 2 preB lb (by decide), hwdb, if_neg hdbne] at hwb
    exact hwb
  have hnoneb := (directory_lookup_none_iff s db lb hinum).1 hlb
  have hne_ab : (s.inodes db).block ≠ (s.inodes da).block ∨ lb ≠ la := by
    by_contra hc
    push_neg at hc
    have : directory_lookup s db lb = directory_lookup s da la := by
      rw [hc.2]; exact directory_lookup_same_block s db da la hc.1
    rw [hlb, hla] at this
    exact hi this.symm
  have hstepsA : ∀ xc ∈ walk_steps s 2 (preA ++ [la]), directory_lookup s xc.1 xc.2 ≠ -1 :=
    walk_steps_lookup_ne s 2 _ (by rw [hwa]; exact hi)
  have hstepsA2 : walk_steps s 2 (preA ++ [la]) = walk_steps s 2 preA ++ [(da, la)] := by
    rw [walk_steps_append s 2 preA la (by decide), hwda, if_neg hdane]
  have hstepsB : ∀ xc ∈ walk_steps s 2 preB, directory_lookup s xc.1 xc.2 ≠ -1 :=
    walk_steps_lookup_ne s 2 _ (by rw [hwdb]; exact hdbne)
  have hnotb : ∀ (x : Int) (c : List Char), directory_lookup s x c ≠ -1 →
      (s.inodes x).block ≠ (s.inodes db).block ∨ c ≠ lb := by
    intro x c hxc
    by_cases hbk : (s.inodes x).block = (s.inodes db).block
    · right
      intro hc
      apply hxc
      rw [hc, directory_lookup_same_block s x db lb hbk, hlb]
    · exact Or.inl hbk
  -- the link
  set s1 := set_inode s i { (get_inode s i) with refs := (get_inode s i).refs + 1 } with hs1
  have blk1 : ∀ x, (s1.inodes x).block = (s.inodes x).block :=
    fun x => set_inode_refs_block s i _ x
  have lk1 : ∀ x c, directory_lookup s1 x c = directory_lookup s x c :=
    fun x c => directory_lookup_congr s s1 x c (blk1 x) rfl
  set t1 := (directory_put s1 db lb i).2 with ht1
  have hlink : storage_link s a b = .ret 0 t1 := by
    rw [link_unfold s a b i preB lb dpb hb ha hi hdpb hfnb hdirb (by rw [hwdb]; exact hdbne),
      hwdb]
  obtain ⟨pf1, -, pf3, pf4⟩ := directory_put_frame s1 db lb i
  have blkt1 : ∀ x, (t1.inodes x).block = (s.inodes x).block := by
    intro x; rw [ht1, pf4]; exact blk1 x
  have P1 : ∀ x c, ((s.inodes x).block ≠ (s.inodes db).block ∨ c ≠ lb) →
      directory_lookup t1 x c = directory_lookup s x c := by
    intro x c h
    rw [ht1, lookup_after_put_other s1 db lb i x c (by rw [blk1, blk1]; exact h)]
    exact lk1 x c
  have P2 : ∀ x, (s.inodes x).block = (s.inodes db).block → directory_lookup t1 x lb = i := by
    intro x h
    exact lookup_after_put_new s1 db lb i x (by rw [blk1, blk1]; exact h)
      (by rw [blk1]; exact hslot) (by rw [blk1]; exact hnoneb)
  have hAt1 : ∀ xc ∈ walk_steps s 2 (preA ++ [la]),
      directory_lookup t1 xc.1 xc.2 = directory_lookup s xc.1 xc.2 :=
    fun xc hxc => P1 xc.1 xc.2 (hnotb _ _ (hstepsA xc hxc))
  have hwat1 : tree_walk t1 2 (preA ++ [la]) = i := by
    rw [tree_walk_congr_steps s t1 2 _ hAt1, hwa]
  have hwdat1 : tree_walk t1 2 preA = da := by
    rw [tree_walk_congr_steps s t1 2 preA (fun xc hxc => hAt1 xc (by rw [hstepsA2]; simp [hxc])),
      hwda]
  -- the unlink
  obtain ⟨t2, hunl, hd2, hi2, hby2, -, hbm2⟩ := unlink_unfold t1 a i preA la dpa
    (by rw [hpa, hwat1]) hi hdpa hfna hdira (by rw [hwdat1]; exact hdane)
  rw [hwdat1] at hd2 hi2
  set u1 := set_inode t1 i { (get_inode t1 i) with refs := (get_inode t1 i).refs - 1 } with hu1
  have blku1 : ∀ x, (u1.inodes x).block = (s.inodes x).block := by
    intro x; rw [hu1, set_inode_refs_block t1 i _ x]; exact blkt1 x
  have lku1 : ∀ x c, directory_lookup u1 x c = directory_lookup t1 x c :=
    fun x c => directory_lookup_congr t1 u1 x c (set_inode_refs_block t1 i _ x) rfl
  have blkt2 : ∀ x, (t2.inodes x).block = (s.inodes x).block := by
    intro x; rw [hi2, directory_delete_block]; exact blku1 x
  have lkt2 : ∀ x c, directory_lookup t2 x c
      = directory_lookup (directory_delete u1 da la).2 x c := by
    intro x c
    exact directory_lookup_congr _ t2 x c (by rw [hi2]) hd2
  have Q1 : ∀ x c, ((s.inodes x).block ≠ (s.inodes da).block ∨ c ≠ la) →
      directory_lookup t2 x c = directory_lookup t1 x c := by
    intro x c h
    rw [lkt2, lookup_after_delete_other u1 da la x c (by rw [blku1, blku1]; exact h)]
    exact lku1 x c
  have hfirst_u1 : first_named u1 (u1.inodes da).block la := by
    rw [blku1]
    exact first_named_after_put s1 db lb i _ la hfirst (by rw [blk1]; exact hne_ab)
  have hlau1 : directory_lookup u1 da la ≠ -1 := by
    rw [lku1, hAt1 (da, la) (by rw [hstepsA2]; simp), hla]
    exact hi
  have Q2 : ∀ x, (s.inodes x).block = (s.inodes da).block →
      directory_lookup t2 x la = -1 := by
    intro x h
    apply directory_lookup_of_no_entry
    rw [blkt2, h, hd2, ← blku1 da]
    exact no_entry_after_delete u1 da la hlau1 hfirst_u1
  -- the refs of `i`
  have hrefs1 : (get_inode t1 i).refs = (get_inode s i).refs + 1 := by
    show (t1.inodes i).refs = _
    rw [ht1, pf4]
    simp [hs1, set_inode, get_inode]
  have hrefs2 : (get_inode t2 i).refs = (get_inode s i).refs := by
    rw [get_inode, hi2, ((directory_delete_frame u1 da la).2.2.2 i).1]
    simp only [hu1, set_inode, if_true, hrefs1]
    omega
  refine ⟨t1, t2, hlink, hunl, ?_, ?_, ?_, hrefs2, blkt2 i, ?_, ?_⟩
  rotate_right
  · intro blk h1 h2
    simp only [get_inode] at h1 h2
    rw [hd2, directory_delete_dirents_other u1 da la blk (by rw [blku1]; exact h1)]
    show t1.dirents blk = _
    rw [ht1, directory_put_dirents_other s1 db lb i blk (by rw [blk1]; exact h2)]
    rfl
  · -- `a` is gone
    rw [hpa, tree_walk_append t2 2 preA la (by decide)]
    have hor := tree_walk_same_or_fail s t2 2 preA (by
      intro xc hxc
      by_cases hx : (s.inodes xc.1).block = (s.inodes da).block ∧ xc.2 = la
      · right
        have := Q2 xc.1 hx.1
        rw [← hx.2] at this
        exact this
      · left
        rw [Q1 xc.1 xc.2 (not_and_or.1 hx)]
        exact hAt1 xc (by rw [hstepsA2]; simp [hxc]))
    rcases hor with hor | hor
    · rw [hor, hwda, if_neg hdane, Q2 da rfl]
    · rw [if_pos hor]
  · -- `b` resolves to `i`
    rw [hpb, tree_walk_append t2 2 preB lb (by decide)]
    have hwdbt2 : tree_walk t2 2 preB = db := by
      rw [tree_walk_congr_steps s t2 2 preB, hwdb]
      intro xc hxc
      rw [Q1 xc.1 xc.2 (not_and_or.1 (hanc xc hxc))]
      exact P1 xc.1 xc.2 (hnotb _ _ (hstepsB xc hxc))
    rw [hwdbt2, if_neg hdbne, Q1 db lb hne_ab, P2 db rfl]
  · have hz : (get_inode t1 i).refs - 1 ≠ 0 := by rw [hrefs1]; omega
    rw [(hbm2 hz).1]
    show t1.inode_bitmap i = true
    rw [ht1, pf1]
    exact hused
  · rw [hby2, ht1, pf3]
    rfl

/-- C5 as stated fails on a reachable image: after `storage_init` and
`directory_init("/d")`, `/d` resolves to inode 0, `/d/y` does not resolve and
its parent `/d/` resolves and has a free slot; `storage_link("/d", "/d/y")` and
`storage_unlink("/d")` both return `0`, and afterwards `/d/y` does not resolve
to inode 0: the only way to it went through the entry that was removed. -/
theorem C5_counterexample :
    tree_lookup image_d "/d".toList = some 0
      ∧ tree_lookup image_d "/d/y".toList = some (-1)
      ∧ get_dir_path "/d/y".toList = some "/d/".toList
      ∧ tree_lookup image_d "/d/".toList = some 0
      ∧ (image_d.dirents (get_inode image_d 0).block 2).free = 0
      ∧ (storage_link image_d "/d".toList "/d/y".toList).rv = some 0
      ∧ (storage_unlink (storage_link image_d "/d".toList "/d/y".toList).state
          "/d".toList).rv = some 0
      ∧ tree_lookup (storage_unlink (storage_link image_d "/d".toList "/d/y".toList).state
          "/d".toList).state "/d/y".toList = some (-1) := by
  decide

/-! ### C8 -/

theorem rename_unfold (s : State) (a b : List Char) (i j : Int) (t1 : State)
    (preA preB : List (List Char)) (la lb dpa dpb : List Char)
    (ha : tree_lookup s a = some i) (hi : i ≠ -1)
    (hb : tree_lookup s b = some j) (hj : j ≠ -1) (hij : i ≠ j)
    (hunl : storage_unlink s b = .ret 0 t1)
    (hdpa : get_dir_path a = some dpa) (hfna : get_file_name a = some la)
    (hdira : ∀ s, tree_lookup s dpa = some (tree_walk s 2 preA))
    (hdpb : get_dir_path b = some dpb) (hfnb : get_file_name b = some lb)
    (hdirb : ∀ s, tree_lookup s dpb = some (tree_walk s 2 preB))
    (hpa : tree_walk t1 2 preA ≠ -1)
    (hpb : tree_walk (directory_delete t1 (tree_walk t1 2 preA) la).2 2 preB ≠ -1) :
    storage_rename s a b
      = .ret 0 (directory_put (directory_delete t1 (tree_walk t1 2 preA) la).2
          (tree_walk (directory_delete t1 (tree_walk t1 2 preA) la).2 2 preB) lb i).2 := by
  simp only [storage_rename, ha, hi, hb, hj, hij, hunl, rename_move, hdpa, hfna, hdira, hdpb,
    hfnb, hdirb, hpa, hpb, ne_eq, not_false_eq_true, not_true_eq_false, if_true, if_false]

/-- The call `storage_rename` onto an existing path, over the typed views: take a state in which the absolute path `a` resolves to
inode `i` and the absolute path `b` to a different inode `j` with refs `r`;
suppose that in each of the two parent directories the slot in use named like
the leaf is the first slot carrying that name, that resolving the parent of `a`
does not go through the entry of `b`, that resolving the parent of `b` goes
through neither entry (neither path is an ancestor of the other), and that `i`
is neither of the two parent directories.  Then `storage_rename(a, b)` returns
`0`, and afterwards `tree_lookup(a) = -1`, `tree_lookup(b) = i`, the record of
`i` (refs, mode, size, block) is unchanged, and the refs of `j` are `r - 1`,
with the inode-bitmap bit of `j` and the block-bitmap bit of the block of `j`
cleared when `r - 1 = 0` and both bitmaps unchanged otherwise. -/
theorem rename_over_existing_typed (s : State) (a b : List Char) (i j : Int)
    (dpa dpb : List Char) (da db : Int) (la lb : List Char)
    (haabs : a.head? = some '/') (hane : a ≠ ['/'])
    (hbabs : b.head? = some '/') (hbne : b ≠ ['/'])
    (ha : tree_lookup s a = some i) (hi : i ≠ -1)
    (hb : tree_lookup s b = some j) (hj : j ≠ -1) (hij : i ≠ j)
    (hdpa : get_dir_path a = some dpa) (hda : tree_lookup s dpa = some da)
    (hfna : get_file_name a = some la)
    (hdpb : get_dir_path b = some dpb) (hdb : tree_lookup s dpb = some db)
    (hfnb : get_file_name b = some lb)
    (hfirstA : first_named s (get_inode s da).block la)
    (hfirstB : first_named s (get_inode s db).block lb)
    (hancA : ∀ xc ∈ path_steps s dpa,
      ¬ ((get_inode s xc.1).block = (get_inode s db).block ∧ xc.2 = lb))
    (hancB : ∀ xc ∈ path_steps s dpb,
      ¬ ((get_inode s xc.1).block = (get_inode s da).block ∧ xc.2 = la)
        ∧ ¬ ((get_inode s xc.1).block = (get_inode s db).block ∧ xc.2 = lb))
    (hida : i ≠ da) (hidb : i ≠ db) :
    ∃ t, storage_rename s a b = .ret 0 t
      ∧ tree_lookup t a = some (-1) ∧ tree_lookup t b = some i
      ∧ get_inode t i = get_inode s i
      ∧ (get_inode t j).refs = (get_inode s j).refs - 1
      ∧ ((get_inode s j).refs - 1 = 0 →
          t.inode_bitmap = bitmap_put s.inode_bitmap j false
            ∧ t.blocks_bitmap = bitmap_put s.blocks_bitmap (get_inode s j).block false)
      ∧ ((get_inode s j).refs - 1 ≠ 0 →
          t.inode_bitmap = s.inode_bitmap ∧ t.blocks_bitmap = s.blocks_bitmap) := by
  obtain ⟨preA, la2, dpa2, hdpa2, hfna2, hdira, hpa, -, hxa⟩ := path_shape a haabs hane
  obtain ⟨preB, lb2, dpb2, hdpb2, hfnb2, hdirb, hpb, -, hxb⟩ := path_shape b hbabs hbne
  obtain rfl : dpa = dpa2 := Option.some.inj (hdpa.symm.trans hdpa2)
  obtain rfl : dpb = dpb2 := Option.some.inj (hdpb.symm.trans hdpb2)
  obtain rfl : la = la2 := Option.some.inj (hfna.symm.trans hfna2)
  obtain rfl : lb = lb2 := Option.some.inj (hfnb.symm.trans hfnb2)
  simp only [get_inode] at hfirstA hfirstB hancA hancB
  simp only [path_steps, hxa] at hancA
  simp only [path_steps, hxb] at hancB
  -- the walks in `s`
  have hwa : tree_walk s 2 (preA ++ [la]) = i := Option.some.inj ((hpa s).symm.trans ha)
  have hwda : tree_walk s 2 preA = da := Option.some.inj ((hdira s).symm.trans hda)
  have hdane : da ≠ -1 := by
    rw [← hwda]; exact tree_walk_parent_ne s preA la (by rw [hwa]; exact hi)
  have hla : directory_lookup s da la = i := by
    rw [tree_walk_append s 2 preA la (by decide), hwda, if_neg hdane] at hwa
    exact hwa
  have hwb : tree_walk s 2 (preB ++ [lb]) = j := Option.some.inj ((hpb s).symm.trans hb)
  have hwdb : tree_walk s 2 preB = db := Option.some.inj ((hdirb s).symm.trans hdb)
  have hdbne : db ≠ -1 := by
    rw [← hwdb]; exact tree_walk_parent_ne s preB lb (by rw [hwb]; exact hj)
  have hlb : directory_lookup s db lb = j := by
    rw [tree_walk_append s 2 preB lb (by decide), hwdb, if_neg hdbne] at hwb
    exact hwb
  have hne_ab : (s.inodes da).block ≠ (s.inodes db).block ∨ la ≠ lb := by
    by_contra hc
    push_neg at hc
    have : directory_lookup s da la = directory_lookup s db lb := by
      rw [hc.2]; exact directory_lookup_same_block s da db lb hc.1
    rw [hlb, hla] at this
    exact hij this
  have hne_ba : (s.inodes db).block ≠ (s.inodes da).block ∨ lb ≠ la := by
    rcases hne_ab with h | h
    · exact Or.inl (Ne.symm h)
    · exact Or.inr (Ne.symm h)
  -- the unlink of `b`
  obtain ⟨t1, hunl, hd1, hi1, -, hbm0, hbm1⟩ := unlink_unfold s b j preB lb dpb hb hj hdpb hfnb
    hdirb (by rw [hwdb]; exact hdbne)
  rw [hwdb] at hd1 hi1
  set s1 := set_inode s j { (get_inode s j) with refs := (get_inode s j).refs - 1 } with hs1
  have blk1 : ∀ x, (s1.inodes x).block = (s.inodes x).block :=
    fun x => set_inode_refs_block s j _ x
  have lk1 : ∀ x c, directory_lookup s1 x c = directory_lookup s x c :=
    fun x c => directory_lookup_congr s s1 x c (blk1 x) rfl
  have blkt1 : ∀ x, (t1.inodes x).block = (s.inodes x).block := by
    intro x; rw [hi1, directory_delete_block]; exact blk1 x
  have lkt1 : ∀ x c, directory_lookup t1 x c
      = directory_lookup (directory_delete s1 db lb).2 x c :=
    fun x c => directory_lookup_congr _ t1 x c (by rw [hi1]) hd1
  have R1 : ∀ x c, ((s.inodes x).block ≠ (s.inodes db).block ∨ c ≠ lb) →
      directory_lookup t1 x c = directory_lookup s x c := by
    intro x c h
    rw [lkt1, lookup_after_delete_other s1 db lb x c (by rw [blk1, blk1]; exact h)]
    exact lk1 x c
  have hlb1 : directory_lookup s1 db lb ≠ -1 := by rw [lk1, hlb]; exact hj
  have R2 : ∀ k, k < DIRENT_COUNT → ¬ ((t1.dirents (s.inodes db).block k).free = 1
      ∧ (t1.dirents (s.inodes db).block k).name = lb) := by
    rw [hd1, ← blk1 db]
    exact no_entry_after_delete s1 db lb hlb1 (by rw [blk1]; exact hfirstB)
  have R3 : ∃ k, k < DIRENT_COUNT ∧ (t1.dirents (s.inodes db).block k).free = 0 := by
    rw [hd1, ← blk1 db]
    exact free_slot_after_delete s1 db lb hlb1
  have R4 : first_named t1 (s.inodes da).block la := by
    have := first_named_after_delete s1 db lb (s.inodes da).block la hfirstA
    intro k hk hf hn k2 hk2
    rw [hd1] at hf hn ⊢
    exact this k hk hf hn k2 hk2
  have hwdat1 : tree_walk t1 2 preA = da := by
    rw [tree_walk_congr_steps s t1 2 preA, hwda]
    intro xc hxc
    exact R1 xc.1 xc.2 (not_and_or.1 (hancA xc hxc))
  -- the entry of `a` is deleted
  set s4 := (directory_delete t1 da la).2 with hs4
  have blks4 : ∀ x, (s4.inodes x).block = (s.inodes x).block := by
    intro x; rw [hs4, directory_delete_block]; exact blkt1 x
  have S1 : ∀ x c, ((s.inodes x).block ≠ (s.inodes da).block ∨ c ≠ la) →
      directory_lookup s4 x c = directory_lookup t1 x c := by
    intro x c h
    exact lookup_after_delete_other t1 da la x c (by rw [blkt1, blkt1]; exact h)
  have hlat1 : directory_lookup t1 da la ≠ -1 := by
    rw [R1 da la hne_ab, hla]; exact hi
  have S2 : ∀ k, k < DIRENT_COUNT → ¬ ((s4.dirents (s.inodes da).block k).free = 1
      ∧ (s4.dirents (s.inodes da).block k).name = la) := by
    rw [← blkt1 da]
    exact no_entry_after_delete t1 da la hlat1 (by rw [blkt1]; exact R4)
  have S3 : ∀ k, k < DIRENT_COUNT → ¬ ((s4.dirents (s.inodes db).block k).free = 1
      ∧ (s4.dirents (s.inodes db).block k).name = lb) := by
    intro k hk ⟨hf, hn⟩
    obtain ⟨hn1, -, hf1⟩ := directory_delete_slot t1 da la (s.inodes db).block k
    rw [← hs4] at hn1 hf1
    rcases hf1 with hf1 | hf1
    · exact R2 k hk ⟨by rw [← hf1]; exact hf, by rw [← hn1]; exact hn⟩
    · rw [hf1] at hf; exact absurd hf (by decide)
  have S4 : ∃ k, k < DIRENT_COUNT ∧ (s4.dirents (s.inodes db).block k).free = 0 := by
    obtain ⟨k, hk, hf⟩ := R3
    refine ⟨k, hk, ?_⟩
    obtain ⟨-, -, hf1⟩ := directory_delete_slot t1 da la (s.inodes db).block k
    rw [← hs4] at hf1
    rcases hf1 with hf1 | hf1
    · rw [hf1]; exact hf
    · exact hf1
  have hBs4 : ∀ xc ∈ walk_steps s 2 preB,
      directory_lookup s4 xc.1 xc.2 = directory_lookup s xc.1 xc.2 := by
    intro xc hxc
    have := hancB xc hxc
    rw [S1 xc.1 xc.2 (not_and_or.1 this.1)]
    exact R1 xc.1 xc.2 (not_and_or.1 this.2)
  have hwdbs4 : tree_walk s4 2 preB = db := by
    rw [tree_walk_congr_steps s s4 2 preB hBs4, hwdb]
  -- the entry for `b` is put
  have hren := rename_unfold s a b i j t1 preA preB la lb dpa dpb ha hi hb hj hij hunl hdpa hfna
    hdira hdpb hfnb hdirb (by rw [hwdat1]; exact hdane)
    (by rw [hwdat1, ← hs4, hwdbs4]; exact hdbne)
  rw [hwdat1, ← hs4, hwdbs4] at hren
  set t := (directory_put s4 db lb i).2 with ht
  obtain ⟨pf1, pf2, -, pf4⟩ := directory_put_frame s4 db lb i
  have T1 : ∀ x c, ((s.inodes x).block ≠ (s.inodes db).block ∨ c ≠ lb) →
      directory_lookup t x c = directory_lookup s4 x c := by
    intro x c h
    exact lookup_after_put_other s4 db lb i x c (by rw [blks4, blks4]; exact h)
  have T2 : ∀ x, (s.inodes x).block = (s.inodes db).block → directory_lookup t x lb = i := by
    intro x h
    exact lookup_after_put_new s4 db lb i x (by rw [blks4, blks4]; exact h)
      (by rw [blks4]; exact S4) (by rw [blks4]; exact S3)
  have hgone : ∀ x, (s.inodes x).block = (s.inodes da).block → directory_lookup t x la = -1 := by
    intro x h
    rw [T1 x la (by rw [h]; exact hne_ab)]
    apply directory_lookup_of_no_entry
    rw [blks4, h]
    exact S2
  have hino : ∀ x, x ≠ j → x ≠ da → x ≠ db → t.inodes x = s.inodes x := by
    intro x h1 h2 h3
    rw [ht, pf4, hs4, directory_delete_inodes_other t1 da la x h2, hi1,
      directory_delete_inodes_other s1 db lb x h3]
    simp [hs1, set_inode, h1]
  refine ⟨t, hren, ?_, ?_, ?_, ?_, ?_, ?_⟩
  · rw [hpa, tree_walk_append t 2 preA la (by decide)]
    have hor := tree_walk_same_or_fail s t 2 preA (by
      intro xc hxc
      by_cases hx : (s.inodes xc.1).block = (s.inodes da).block ∧ xc.2 = la
      · right
        have := hgone xc.1 hx.1
        rw [← hx.2] at this
        exact this
      · left
        have hnb := hancA xc hxc
        rw [T1 xc.1 xc.2 (not_and_or.1 hnb), S1 xc.1 xc.2 (not_and_or.1 hx)]
        exact R1 xc.1 xc.2 (not_and_or.1 hnb))
    rcases hor with hor | hor
    · rw [hor, hwda, if_neg hdane, hgone da rfl]
    · rw [if_pos hor]
  · rw [hpb, tree_walk_append t 2 preB lb (by decide)]
    have hwdbt : tree_walk t 2 preB = db := by
      rw [tree_walk_congr_steps s t 2 preB, hwdb]
      intro xc hxc
      have := hancB xc hxc
      rw [T1 xc.1 xc.2 (not_and_or.1 this.2)]
      exact hBs4 xc hxc
    rw [hwdbt, if_neg hdbne, T2 db rfl]
  · exact hino i hij hida hidb
  · rw [get_inode, ht, pf4, hs4, ((directory_delete_frame t1 da la).2.2.2 j).1, hi1,
      ((directory_delete_frame s1 db lb).2.2.2 j).1]
    simp [hs1, set_inode, get_inode]
  · intro hz
    obtain ⟨h1, h2⟩ := hbm0 hz
    obtain ⟨f1, f2, -, -⟩ := directory_delete_frame t1 da la
    exact ⟨by rw [ht, pf1, hs4, f1, h1], by rw [ht, pf2, hs4, f2, h2]⟩
  · intro hz
    obtain ⟨h1, h2⟩ := hbm1 hz
    obtain ⟨f1, f2, -, -⟩ := directory_delete_frame t1 da la
    exact ⟨by rw [ht, pf1, hs4, f1, h1], by rw [ht, pf2, hs4, f2, h2]⟩

/-- C8 as stated fails on a reachable image: after `storage_init`,
`directory_init("/d")` and `storage_mknod("/d/x")`, the path `/d/x` resolves
to inode 1 and `/d` to the different inode 0; `storage_rename("/d/x", "/d")`
first unlinks `/d`, after which the parent of `/d/x` no longer resolves and the
assertion `from_dir_inum != -1` fails: no value is returned. -/
theorem C8_counterexample :
    tree_lookup image_dx "/d/x".toList = some 1
      ∧ tree_lookup image_dx "/d".toList = some 0
      ∧ (storage_rename image_dx "/d/x".toList "/d".toList).rv = none := by
  decide

/-! ### C12 -/

/-- C12, as amended: for every entry table and every name, `directory_lookup`
returns the inum stored in the lowest-index slot, among the `DIRENT_COUNT`
slots, whose flag is 1 and whose name equals the name (slots before it that are
deleted, whatever their name, do not end the scan); it returns `-1` if no such
slot exists; and when it returns `-1`, either no such slot exists or the slot
found stores the inum `-1` itself. -/
theorem C12_lookup_lowest_match (s : State) (d : Int) (name : List Char) :
    (∀ i, i < DIRENT_COUNT →
        (s.dirents (get_inode s d).block i).free = 1 →
        (s.dirents (get_inode s d).block i).name = name →
        (∀ j, j < i → ¬ ((s.dirents (get_inode s d).block j).free = 1
          ∧ (s.dirents (get_inode s d).block j).name = name)) →
        directory_lookup s d name = (s.dirents (get_inode s d).block i).inum)
      ∧ ((∀ i, i < DIRENT_COUNT → ¬ ((s.dirents (get_inode s d).block i).free = 1
            ∧ (s.dirents (get_inode s d).block i).name = name)) →
          directory_lookup s d name = -1)
      ∧ (directory_lookup s d name = -1 →
          (∀ i, i < DIRENT_COUNT → ¬ ((s.dirents (get_inode s d).block i).free = 1
            ∧ (s.dirents (get_inode s d).block i).name = name))
          ∨ ∃ i, i < DIRENT_COUNT ∧ (s.dirents (get_inode s d).block i).free = 1
              ∧ (s.dirents (get_inode s d).block i).name = name
              ∧ (s.dirents (get_inode s d).block i).inum = -1) := by
  refine ⟨?_, ?_, ?_⟩
  · intro i hi hf hn hlow
    simp only [directory_lookup]
    rw [first_index_some (i := i) (by omega) (by omega) (by simp [hf, hn])
      (fun j _ hj => by simpa using hlow j hj)]
  · intro h
    exact directory_lookup_of_no_entry s d name h
  · intro h
    simp only [directory_lookup] at h
    cases hc : first_index (fun i => decide ((s.dirents (get_inode s d).block i).free = 1
        ∧ (s.dirents (get_inode s d).block i).name = name)) 0 DIRENT_COUNT with
    | none =>
      left
      intro i hi
      have := first_index_none_spec hc i (by omega) (by omega)
      simpa using this
    | some k =>
      right
      rw [hc] at h
      obtain ⟨-, hk, hp, -⟩ := first_index_some_spec hc
      have hp2 : (s.dirents (get_inode s d).block k).free = 1
          ∧ (s.dirents (get_inode s d).block k).name = name := by simpa using hp
      exact ⟨k, by omega, hp2.1, hp2.2, h⟩

theorem C12_lookup_lowest_match_witness :
    directory_lookup image_tomb 2 ['a'] = (image_tomb.dirents (get_inode image_tomb 2).block 2).inum :=
  (C12_lookup_lowest_match image_tomb 2 ['a']).1 2 (by decide) (by decide) (by decide)
    (by decide)

/-- C12 as stated fails: in the root table of `image_minus_one` slot 1 is in
use and carries the name `a`, so a matching slot exists, and yet
`directory_lookup` returns `-1`, the inum which that slot stores. -/
theorem C12_counterexample :
    (image_minus_one.dirents (get_inode image_minus_one 2).block 1).free = 1
      ∧ (image_minus_one.dirents (get_inode image_minus_one 2).block 1).name = ['a']
      ∧ directory_lookup image_minus_one 2 ['a'] = -1 := by
  decide

/-! ### C13 -/

/-- The call `directory_put` over the typed views: for every entry table, name and inum: if some slot among the
`DIRENT_COUNT` slots is not occupied (its flag is 0, the test of the source),
`directory_put` returns `0`, writes `(name, entry_inum, 1)` into the
lowest-index such slot and leaves every other slot, and the rest of the image,
unchanged; if every slot is occupied it returns `-1` and leaves the image
unchanged. -/
theorem put_lowest_free_slot_typed (s : State) (d : Int) (name : List Char) (k : Int) :
    (∀ i, i < DIRENT_COUNT → (s.dirents (get_inode s d).block i).free = 0 →
        (∀ j, j < i → (s.dirents (get_inode s d).block j).free ≠ 0) →
        (directory_put s d name k).1 = 0
          ∧ (directory_put s d name k).2.dirents (get_inode s d).block i
              = { name := name, inum := k, free := 1 }
          ∧ (∀ b j, ¬ (b = (get_inode s d).block ∧ j = i) →
              (directory_put s d name k).2.dirents b j = s.dirents b j)
          ∧ (directory_put s d name k).2.inodes = s.inodes
          ∧ (directory_put s d name k).2.inode_bitmap = s.inode_bitmap
          ∧ (directory_put s d name k).2.blocks_bitmap = s.blocks_bitmap
          ∧ (directory_put s d name k).2.bytes = s.bytes)
      ∧ ((∀ i, i < DIRENT_COUNT → (s.dirents (get_inode s d).block i).free ≠ 0) →
          directory_put s d name k = (-1, s)) := by
  constructor
  · intro i hi hf hlow
    have hc : first_index (fun i => decide ((s.dirents (get_inode s d).block i).free = 0))
        0 DIRENT_COUNT = some i :=
      first_index_some (by omega) (by omega) (by simp [hf]) (fun j _ hj => by simpa using hlow j hj)
    rw [directory_put_some s d name k i hc]
    refine ⟨rfl, by simp [set_dirent], ?_, rfl, rfl, rfl, rfl⟩
    intro b j hbj
    simp [set_dirent, hbj]
  · intro h
    apply directory_put_none
    apply first_index_none
    intro j _ hj
    simpa using h j (by omega)

/-! ### C16 -/

/-- C16: for every inode bitmap: if some id of `[0, INODE_COUNT)` is free,
`alloc_inode` returns the smallest free id and sets exactly that bit, nothing
else changing; if all `INODE_COUNT` ids are used it returns `-1` and leaves the
image unchanged; and for an inode id `k >= 0`, `free_inode(k)` followed by
`alloc_inode` returns a value `<= k`, which is an id (`>= 0`) when
`k < INODE_COUNT`. -/
theorem C16_alloc_inode_smallest (s : State) :
    (∀ k : Nat, k < INODE_COUNT → s.inode_bitmap k = false →
        (∀ j : Nat, j < k → s.inode_bitmap j = true) →
        alloc_inode s
          = ((k : Int), { s with inode_bitmap := bitmap_put s.inode_bitmap k true }))
      ∧ ((∀ k : Nat, k < INODE_COUNT → s.inode_bitmap k = true) → alloc_inode s = (-1, s))
      ∧ (∀ k : Int, 0 ≤ k →
          (alloc_inode (free_inode s k)).1 ≤ k
            ∧ (k < INODE_COUNT → 0 ≤ (alloc_inode (free_inode s k)).1)) := by
  refine ⟨?_, alloc_inode_full s, ?_⟩
  · intro k hk hf hlow
    have hc : first_index (fun ii => !bitmap_get s.inode_bitmap ii) 0 INODE_COUNT = some k :=
      first_index_some (by omega) (by omega) (by simp [bitmap_get, hf])
        (fun j _ hj => by simp [bitmap_get, hlow j hj])
    simp only [alloc_inode, hc]
  · intro k hk
    cases hc : first_index (fun ii => !bitmap_get (free_inode s k).inode_bitmap ii)
        0 INODE_COUNT with
    | none =>
      have hres : (alloc_inode (free_inode s k)).1 = -1 := by simp only [alloc_inode, hc]
      rw [hres]
      refine ⟨by omega, fun hlt => ?_⟩
      exfalso
      have := first_index_none_spec hc k.toNat (by omega) (by
        have : (INODE_COUNT : Int) = 250 := rfl
        simp only [INODE_COUNT] at *
        omega)
      have hk2 : ((k.toNat : Nat) : Int) = k := Int.toNat_of_nonneg hk
      simp [bitmap_get, free_inode, bitmap_put, hk2] at this
    | some j =>
      have hres : (alloc_inode (free_inode s k)).1 = (j : Int) := by simp only [alloc_inode, hc]
      rw [hres]
      obtain ⟨-, hj, -, hlow⟩ := first_index_some_spec hc
      refine ⟨?_, fun _ => by omega⟩
      by_contra hgt
      push_neg at hgt
      have := hlow k.toNat (by omega) (by omega)
      have hk2 : ((k.toNat : Nat) : Int) = k := Int.toNat_of_nonneg hk
      simp [bitmap_get, free_inode, bitmap_put, hk2] at this

theorem C16_alloc_inode_smallest_witness :
    alloc_inode image_a
      = (1, { image_a with inode_bitmap := bitmap_put image_a.inode_bitmap 1 true }) :=
  (C16_alloc_inode_smallest image_a).1 1 (by decide) (by decide) (by decide)

/-! ### C15 -/

theorem s_explode_single (c : List Char) (hne : c ≠ []) (hc : '/' ∉ c) :
    s_explode '/' c = [c] := by
  induction c with
  | nil => exact absurd rfl hne
  | cons a as ih =>
    have ha : a ≠ '/' := by
      intro h; apply hc; simp [h]
    have has : '/' ∉ as := by
      intro h; apply hc; simp [h]
    simp only [s_explode, ha, if_false]
    cases as with
    | nil => simp [s_explode]
    | cons b bs => rw [ih (by simp) has]

theorem s_explode_absolute_path (cs : List (List Char)) (hne : cs ≠ [])
    (hcs : ∀ c ∈ cs, c ≠ [] ∧ '/' ∉ c) :
    s_explode '/' (absolute_path cs) = [] :: cs := by
  induction cs with
  | nil => exact absurd rfl hne
  | cons c cs ih =>
    obtain ⟨hc1, hc2⟩ := hcs c (by simp)
    cases cs with
    | nil =>
      simp only [absolute_path, List.map_cons, List.map_nil, List.flatten_cons,
        List.flatten_nil, List.append_nil, s_explode, if_true, List.append_eq]
      rw [s_explode_single c hc1 hc2]
    | cons c2 cs2 =>
      have ih2 := ih (by simp) (fun x hx => hcs x (by simp [hx]))
      simp only [absolute_path, List.map_cons, List.flatten_cons, List.cons_append, s_explode,
        if_true, List.cons.injEq, true_and, List.append_eq] at ih2 ⊢
      rw [s_explode_component '/' c _ hc2, ih2]

theorem iterate_from_minus_one (s : State) (cs : List (List Char)) :
    cs.foldl (fun cur c => if cur = -1 then -1 else directory_lookup s cur c) (-1) = -1 := by
  induction cs with
  | nil => rfl
  | cons c cs ih => simpa using ih

theorem iterate_eq_tree_walk (s : State) (cur : Int) (cs : List (List Char)) (hcur : cur ≠ -1) :
    cs.foldl (fun cur c => if cur = -1 then -1 else directory_lookup s cur c) cur
      = tree_walk s cur cs := by
  induction cs generalizing cur with
  | nil => rfl
  | cons c cs ih =>
    simp only [List.foldl_cons, hcur, if_false, tree_walk]
    by_cases hl : directory_lookup s cur c = -1
    · rw [hl, if_pos rfl]
      exact iterate_from_minus_one s cs
    · rw [if_neg hl]
      exact ih _ hl

/-- C15: for every state `tree_lookup("/")` is 2, whatever the image holds;
and for every absolute path `/c1/.../cn` with `n >= 1` components that are not
empty and hold no slash, `tree_lookup` is the left-to-right iteration of
`directory_lookup` from inode 2 over `c1 .. cn`, which is `-1` as soon as one
lookup gives `-1` and otherwise the inum found for `cn`. -/
theorem C15_tree_lookup_iterates (s : State) (cs : List (List Char))
    (hne : cs ≠ []) (hcs : ∀ c ∈ cs, c ≠ [] ∧ '/' ∉ c) :
    (∀ t : State, tree_lookup t ['/'] = some 2)
      ∧ tree_lookup s (absolute_path cs) = some (iterate_lookup s cs) := by
  constructor
  · intro t
    simp [tree_lookup]
  · have hroot : absolute_path cs ≠ ['/'] := by
      intro h
      have := s_explode_absolute_path cs hne hcs
      rw [h] at this
      simp only [s_explode, if_true, List.cons.injEq, true_and] at this
      exact hne this.symm
    simp only [tree_lookup, hroot, if_false, s_explode_absolute_path cs hne hcs, iterate_lookup]
    rw [iterate_eq_tree_walk s 2 cs (by decide)]

theorem C15_tree_lookup_iterates_witness :
    (∀ t : State, tree_lookup t ['/'] = some 2)
      ∧ tree_lookup image_dx (absolute_path [['d'], ['x']])
          = some (iterate_lookup image_dx [['d'], ['x']]) :=
  C15_tree_lookup_iterates image_dx [['d'], ['x']] (by decide) (by decide)

/-! ### C17 -/

theorem list_loop_eq (tbl : Nat → dirent_t) (i n : Nat) (acc : List (List Char)) :
    list_loop tbl i n acc
      = (((List.range' i n).filter (fun j => decide ((tbl j).free = 1))).map
          (fun j => (tbl j).name)).reverse ++ acc := by
  induction n generalizing i acc with
  | zero => simp [list_loop]
  | succ n ih =>
    simp only [list_loop, ih, List.range'_succ, List.filter_cons]
    by_cases h : (tbl i).free = 1
    · simp [h]
    · simp [h]

theorem directory_list_eq (s : State) (path : List Char) (d : Int) (n : Nat)
    (hn : DIRENT_COUNT = n + 1)
    (hres : tree_lookup s path = some d)
    (hfirst : (s.dirents (get_inode s d).block 0).free = 1)
    (hpast : (s.dirents (get_inode s d).block DIRENT_COUNT).free ≠ 1) :
    directory_list s path = some (occupied_names s (get_inode s d).block).reverse := by
  simp only [directory_list, hres, occupied_names, list_loop_eq, List.range_eq_range', hn]
  congr 1
  rw [List.range'_succ 0 n, List.range'_concat 1 n]
  rw [hn] at hpast
  have h1 : (1 : Nat) + 1 * n = n + 1 := by omega
  have h2 : 1 + n = n + 1 := by omega
  simp [List.filter_cons, hfirst, List.filter_append, h1, h2, hpast]

/-- C17, as amended: for every path that resolves to a directory whose first
slot is in use, on an image in which the entry that follows the last slot of
the table is not marked in use, `directory_list(path)` returns exactly the
names of the occupied slots among the `DIRENT_COUNT` slots of that directory,
in decreasing slot index (each name found is put in front of the list). -/
theorem C17_directory_list_reversed (s : State) (path : List Char) (d : Int)
    (hres : tree_lookup s path = some d)
    (hfirst : (s.dirents (get_inode s d).block 0).free = 1)
    (hpast : (s.dirents (get_inode s d).block DIRENT_COUNT).free ≠ 1) :
    directory_list s path = some (occupied_names s (get_inode s d).block).reverse :=
  directory_list_eq s path d 145 rfl hres hfirst hpast

theorem C17_directory_list_reversed_witness :
    directory_list image_a "/".toList
      = some (occupied_names image_a (get_inode image_a 2).block).reverse :=
  C17_directory_list_reversed image_a "/".toList 2 (by decide) (by decide) (by decide)

/-- C17 as stated fails: the root of `image_a` holds `.` in slot 0 and `a` in
slot 1, and `directory_list("/")` returns `a` before `.`, the reverse of the
storage order. -/
theorem C17_counterexample :
    tree_lookup image_a "/".toList = some 2
      ∧ occupied_names image_a (get_inode image_a 2).block = [['.'], ['a']]
      ∧ directory_list image_a "/".toList = some [['a'], ['.']] := by
  decide

/-! ### C11 -/

/-- C11 fails on the code: after `storage_init`, `directory_init("/d")`,
`storage_mknod("/d/x")` and `storage_unlink("/d")`, inode 0 and block 7 are
free again, the block still holding the entries `.`, `..` and `x` in use.
`directory_init("/e")` returns `0` and is handed that block without clearing
it; `directory_list("/e")` then yields `..`, `.`, `x`, `..`, `.`: the two
names twice each, and the stale name `x`. -/
theorem C11_reused_block_keeps_entries :
    (directory_init init_image "/d".toList 16877).rv = some 0
      ∧ (storage_mknod image_d "/d/x".toList 33188).rv = some 0
      ∧ (storage_unlink image_dx "/d".toList).rv = some 0
      ∧ (directory_init image_removed "/e".toList 16877).rv = some 0
      ∧ directory_list image_reuse "/e".toList
          = some ["..".toList, ".".toList, "x".toList, "..".toList, ".".toList] := by
  decide

/-! ### C14 -/

/-- C14 fails on the code: in the root table of `image_tomb` no two slots in
use carry the same name, slot 1 is deleted but keeps the name `a`, and slot 2
is in use with the name `a` and the inum 5.  `directory_lookup` of `a` gives
5; `directory_delete` returns `0` but clears the flag of slot 1, the first slot
with that name, so that slot 2 is still in use and `directory_lookup` of `a`
still gives 5 afterwards. -/
theorem C14_delete_clears_deleted_slot :
    (∀ i, i < DIRENT_COUNT → ∀ j, j < DIRENT_COUNT →
        (image_tomb.dirents 6 i).free = 1 → (image_tomb.dirents 6 j).free = 1 →
        (image_tomb.dirents 6 i).name = (image_tomb.dirents 6 j).name → i = j)
      ∧ (get_inode image_tomb 2).block = 6
      ∧ directory_lookup image_tomb 2 ['a'] = 5
      ∧ (directory_delete image_tomb 2 ['a']).1 = 0
      ∧ ((directory_delete image_tomb 2 ['a']).2.dirents 6 2).free = 1
      ∧ directory_lookup (directory_delete image_tomb 2 ['a']).2 2 ['a'] = 5 := by
  refine ⟨?_, by decide, by decide, by decide, by decide, by decide⟩
  have huse : ∀ i, i < DIRENT_COUNT → (image_tomb.dirents 6 i).free = 1 → i = 0 ∨ i = 2 := by
    decide
  have hnames : (image_tomb.dirents 6 0).name ≠ (image_tomb.dirents 6 2).name := by decide
  intro i hi j hj hfi hfj hn
  rcases huse i hi hfi with rfl | rfl <;> rcases huse j hj hfj with rfl | rfl
  · rfl
  · exact absurd hn hnames
  · exact absurd hn.symm hnames
  · rfl

/-! ### C18 -/

/-- C18 fails on the code: the root of `image_dir_full` has all `DIRENT_COUNT`
slots in use, `/g` does not resolve, inode 0 and block 152 are free.
`storage_mknod("/g")` returns `0` although `directory_put` found no slot:
`/g` does not resolve afterwards, and inode 0 and block 152 stay marked used. -/
theorem C18_mknod_into_full_directory :
    (∀ i : Nat, i < DIRENT_COUNT → (image_dir_full.dirents 6 i).free = 1)
      ∧ tree_lookup image_dir_full "/g".toList = some (-1)
      ∧ tree_lookup image_dir_full "/".toList = some 2
      ∧ image_dir_full.inode_bitmap 0 = false
      ∧ image_dir_full.blocks_bitmap 152 = false
      ∧ (storage_mknod image_dir_full "/g".toList 33188).rv = some 0
      ∧ tree_lookup (storage_mknod image_dir_full "/g".toList 33188).state "/g".toList
          = some (-1)
      ∧ (storage_mknod image_dir_full "/g".toList 33188).state.inode_bitmap 0 = true
      ∧ (storage_mknod image_dir_full "/g".toList 33188).state.blocks_bitmap 152 = true := by
  refine ⟨?_, by decide, by decide, by decide, by decide, by decide, by decide, by decide,
    by decide⟩
  intro i _
  by_cases h : i = 0 <;> simp [image_dir_full, h]

/-! ### C19 -/

/-- C19 fails on the code: `image_reuse` is reached from `storage_init` by
`directory_init("/d")`, `storage_mknod("/d/x")`, `storage_unlink("/d")` and
`directory_init("/e")`, all returning `0`; the directory `/e` (inode 0, block
7) is reachable from the root and has two slots in use, 0 and 3, that both
carry the name `.` (and two, 1 and 4, that carry `..`). -/
theorem C19_duplicate_names_reachable :
    (directory_init init_image "/d".toList 16877).rv = some 0
      ∧ (storage_mknod image_d "/d/x".toList 33188).rv = some 0
      ∧ (storage_unlink image_dx "/d".toList).rv = some 0
      ∧ (directory_init image_removed "/e".toList 16877).rv = some 0
      ∧ tree_lookup image_reuse "/e".toList = some 0
      ∧ (get_inode image_reuse 0).block = 7
      ∧ image_reuse.dirents 7 0 = { name := ['.'], inum := 0, free := 1 }
      ∧ image_reuse.dirents 7 3 = { name := ['.'], inum := 0, free := 1 }
      ∧ image_reuse.dirents 7 1 = { name := ['.', '.'], inum := 2, free := 1 }
      ∧ image_reuse.dirents 7 4 = { name := ['.', '.'], inum := 2, free := 1 } := by
  decide

/-! ### C20 -/

/-- C20 fails on the code: `image_stale` is reached from `storage_init` by
`directory_init("/d")`, `directory_init("/d/e")`, `storage_unlink("/d/e")`,
`storage_unlink("/d")`, `storage_mknod("/f")`, `directory_init("/g")` and
`storage_unlink("/f")`, all returning `0`.  The directory `/g` (inode 1, block
8, the block of the removed `/d/e`) is reachable from the root, its slot 1 is
in use with the name `..` and the inum 0, and inode 0 is free in the inode
bitmap. -/
theorem C20_entry_names_free_inode :
    (directory_init init_image "/d".toList 16877).rv = some 0
      ∧ (directory_init image_d "/d/e".toList 16877).rv = some 0
      ∧ (storage_unlink image_de "/d/e".toList).rv = some 0
      ∧ (storage_unlink image_de1 "/d".toList).rv = some 0
      ∧ (storage_mknod image_de2 "/f".toList 33188).rv = some 0
      ∧ (directory_init image_de3 "/g".toList 16877).rv = some 0
      ∧ (storage_unlink image_de4 "/f".toList).rv = some 0
      ∧ tree_lookup image_stale "/g".toList = some 1
      ∧ (get_inode image_stale 1).block = 8
      ∧ image_stale.dirents 8 1 = { name := ['.', '.'], inum := 0, free := 1 }
      ∧ image_stale.inode_bitmap 0 = false := by
  decide

/-! ### Reachability of the concrete images -/

theorem reachable_image_a : reachable image_a :=
  reachable.mknod _ _ _ 0 reachable.init (by decide)

theorem reachable_image_a1 : reachable image_a1 :=
  reachable.write _ _ _ _ _ 1 reachable_image_a (by decide)

theorem reachable_image_two_blocks : reachable image_two_blocks :=
  reachable.write _ _ _ _ _ 4096
    (reachable.mknod _ _ _ 0
      (reachable.write _ _ _ _ _ 4096 reachable_image_a (by decide)) (by decide)) (by decide)

theorem reachable_zero_image_d : reachable_zero image_d :=
  reachable_zero.mkdir _ _ _ reachable_zero.init (by decide)

theorem reachable_image_reuse : reachable image_reuse :=
  reachable.mkdir _ _ _ 0
    (reachable.unlink _ _ 0
      (reachable.mknod _ _ _ 0 (reachable.mkdir _ _ _ 0 reachable.init (by decide)) (by decide))
      (by decide)) (by decide)

theorem reachable_image_reuse_a1 : reachable image_reuse_a1 :=
  reachable.write _ _ _ _ _ 1 (reachable.mknod _ _ _ 0 reachable_image_reuse (by decide))
    (by decide)

theorem reachable_image_below_unlink : reachable image_below_unlink :=
  reachable.unlink _ _ 0 reachable_image_reuse_a1 (by decide)

theorem reachable_image_below_rename : reachable image_below_rename :=
  reachable.rename _ _ _ 0 reachable_image_reuse_a1 (by decide)

/-! ### C25: the size adjustment of `directory_delete` -/

/-- C25 (code bug): on the reachable image `image_a1` the root directory
(inode 2, size 1) has the entry `a` in use for inode 0, whose size is 1;
`directory_delete(2, "a")` returns 0 and leaves the size of the root at 1: the
lookup that selects the size to subtract runs after the slot has been
cleared, gives -1, and the size subtracted is the one of the record before
the inode table, which is 0. -/
theorem C25_delete_keeps_directory_size :
    reachable image_a1
      ∧ (image_a1.dirents (get_inode image_a1 2).block 1).free = 1
      ∧ (image_a1.dirents (get_inode image_a1 2).block 1).name = ['a']
      ∧ (image_a1.dirents (get_inode image_a1 2).block 1).inum = 0
      ∧ directory_lookup image_a1 2 ['a'] = 0
      ∧ (get_inode image_a1 0).size = 1
      ∧ (get_inode image_a1 2).size = 1
      ∧ (directory_delete image_a1 2 ['a']).1 = 0
      ∧ (get_inode (directory_delete image_a1 2 ['a']).2 2).size = 1 :=
  ⟨reachable_image_a1, by decide, by decide, by decide, by decide, by decide, by decide,
    by decide, by decide⟩

/-! ### C26, C27, C28: what a failing call leaves behind -/

/-- C26 (code bug): on `image_a`, where `/a` resolves to inode 0 and `/x` does
not exist, `storage_rename("/a", "/x/b")` returns -1 after the entry of `/a`
has been deleted: `/a` does not resolve any more. -/
theorem C26_rename_failure_deletes_source :
    tree_lookup image_a "/a".toList = some 0
      ∧ tree_lookup image_a "/x/".toList = some (-1)
      ∧ (storage_rename image_a "/a".toList "/x/b".toList).rv = some (-1)
      ∧ tree_lookup (storage_rename image_a "/a".toList "/x/b".toList).state "/a".toList
          = some (-1) := by
  decide

/-- C27 (code bug): on `image_a`, where `/a` resolves to inode 0 with one
reference and `/x` does not exist, `storage_link("/a", "/x/b")` returns -1
after the reference count has been incremented: inode 0 is left with two
references and one entry. -/
theorem C27_link_failure_keeps_increment :
    tree_lookup image_a "/a".toList = some 0
      ∧ tree_lookup image_a "/x/".toList = some (-1)
      ∧ (get_inode image_a 0).refs = 1
      ∧ (storage_link image_a "/a".toList "/x/b".toList).rv = some (-1)
      ∧ (get_inode (storage_link image_a "/a".toList "/x/b".toList).state 0).refs = 2 := by
  decide

/-- C28 (code bug): on the initial image, where `/x` does not exist,
`directory_init("/x/d", mode)` returns -1 after it has allocated inode 0 and
block 7: both stay marked used, and no entry was written. -/
theorem C28_directory_init_failure_leaks :
    tree_lookup init_image "/x/".toList = some (-1)
      ∧ init_image.inode_bitmap 0 = false ∧ init_image.blocks_bitmap 7 = false
      ∧ (directory_init init_image "/x/d".toList 16877).rv = some (-1)
      ∧ (directory_init init_image "/x/d".toList 16877).state.inode_bitmap 0 = true
      ∧ (directory_init init_image "/x/d".toList 16877).state.blocks_bitmap 7 = true
      ∧ (directory_init init_image "/x/d".toList 16877).state.dirents = init_image.dirents := by
  refine ⟨by decide, by decide, by decide, by decide, by decide, by decide, rfl⟩


/-! ### C29: the path functions -/

theorem absolute_path_ne_root (cs : List (List Char)) (hne : cs ≠ [])
    (hcs : ∀ c ∈ cs, c ≠ [] ∧ '/' ∉ c) : absolute_path cs ≠ ['/'] := by
  intro h
  have := s_explode_absolute_path cs hne hcs
  rw [h] at this
  simp only [s_explode, if_true, List.cons.injEq, true_and] at this
  exact hne this.symm

theorem tree_lookup_absolute_path (s : State) (cs : List (List Char)) (hne : cs ≠ [])
    (hcs : ∀ c ∈ cs, c ≠ [] ∧ '/' ∉ c) :
    tree_lookup s (absolute_path cs) = some (tree_walk s 2 cs) := by
  simp only [tree_lookup, absolute_path_ne_root cs hne hcs, if_false,
    s_explode_absolute_path cs hne hcs]

theorem tree_lookup_slashed (s : State) (pre : List (List Char)) (hne : pre ≠ [])
    (hcs : ∀ c ∈ pre, c ≠ [] ∧ '/' ∉ c) :
    tree_lookup s ('/' :: (pre.map (fun c => c ++ ['/'])).flatten)
      = some (tree_walk s 2 pre) := by
  have hroot : '/' :: (pre.map (fun c => c ++ ['/'])).flatten ≠ ['/'] := by
    cases pre with
    | nil => exact absurd rfl hne
    | cons c r =>
      have hc := (hcs c (by simp)).1
      cases c with
      | nil => exact absurd rfl hc
      | cons a as => simp
  simp only [tree_lookup, hroot, if_false, s_explode, if_true,
    s_explode_flatten pre (fun x hx => (hcs x hx).2)]

theorem dir_path_append_name (cs : List (List Char)) (hne : cs ≠ []) :
    ('/' :: ((cs.dropLast).map (fun c => c ++ ['/'])).flatten) ++ cs.getLast hne
      = absolute_path cs := by
  induction cs with
  | nil => exact absurd rfl hne
  | cons c cs ih =>
    cases cs with
    | nil => simp [absolute_path]
    | cons d r =>
      have ih2 := ih (by simp)
      simp only [absolute_path, List.dropLast_cons₂, List.map_cons, List.flatten_cons,
        List.getLast_cons_cons, List.cons_append, List.append_assoc, List.nil_append,
        List.cons.injEq, true_and] at ih2 ⊢
      rw [ih2]

/-- C29: for the absolute path `/c1/.../cn` of `n >= 1` non-empty components
without a slash, of length within the buffer: `get_file_name` gives `cn`;
`get_dir_path` gives `/` followed by each of `c1 .. c(n-1)` with a slash
after it; the directory path followed by the file name is the path itself; and
in every image the directory path resolves as `/c1/.../c(n-1)` does, which is
the root path `/` when `n = 1`. -/
theorem C29_path_functions (cs : List (List Char)) (hne : cs ≠ [])
    (hcs : ∀ c ∈ cs, c ≠ [] ∧ '/' ∉ c) (_hlen : (absolute_path cs).length < 50) :
    get_file_name (absolute_path cs) = some (cs.getLast hne)
      ∧ get_dir_path (absolute_path cs)
          = some ('/' :: ((cs.dropLast).map (fun c => c ++ ['/'])).flatten)
      ∧ ('/' :: ((cs.dropLast).map (fun c => c ++ ['/'])).flatten) ++ cs.getLast hne
          = absolute_path cs
      ∧ ∀ s : State,
          tree_lookup s ('/' :: ((cs.dropLast).map (fun c => c ++ ['/'])).flatten)
            = tree_lookup s (if cs.dropLast = [] then ['/'] else absolute_path cs.dropLast) := by
  have hx := s_explode_absolute_path cs hne hcs
  refine ⟨?_, ?_, dir_path_append_name cs hne, ?_⟩
  · cases cs with
    | nil => exact absurd rfl hne
    | cons c r => simp only [get_file_name, hx, last_string_eq]
  · cases cs with
    | nil => exact absurd rfl hne
    | cons c r =>
      simp only [get_dir_path, hx, build_dir_path_eq, List.singleton_append]
  · intro s
    by_cases hd : cs.dropLast = []
    · simp only [hd, if_true, List.map_nil, List.flatten_nil]
    · have hpre : ∀ c ∈ cs.dropLast, c ≠ [] ∧ '/' ∉ c :=
        fun c hc => hcs c (List.mem_of_mem_dropLast hc)
      simp only [hd, if_false]
      rw [tree_lookup_slashed s _ hd hpre, tree_lookup_absolute_path s _ hd hpre]

theorem C29_path_functions_witness :
    get_file_name (absolute_path [['d'], ['x']]) = some ['x']
      ∧ get_dir_path (absolute_path [['d'], ['x']]) = some "/d/".toList
      ∧ "/d/".toList ++ ['x'] = absolute_path [['d'], ['x']]
      ∧ ∀ s : State, tree_lookup s "/d/".toList = tree_lookup s "/d".toList :=
  C29_path_functions [['d'], ['x']] (by decide) (by decide) (by decide)


/-! ### C24 and C22: the sizes after `storage_write` -/

theorem tree_lookup_congr (s t : State) (p : List Char)
    (hb : ∀ d, (t.inodes d).block = (s.inodes d).block) (hd : t.dirents = s.dirents) :
    tree_lookup t p = tree_lookup s p := by
  unfold tree_lookup
  split
  · rfl
  · split
    · rfl
    · rw [tree_walk_congr s t 2 _ hb hd]

theorem storage_write_inv (s t : State) (p dp : List Char) (f d : Int) (buf : List Nat)
    (n : Nat) (offset rv : Int)
    (hres : tree_lookup s p = some f) (hf : f ≠ -1)
    (hdp : get_dir_path p = some dp) (hd : tree_lookup s dp = some d)
    (hacc : storage_write s p buf n offset = .ret rv t) :
    offset < 4096 ∧ to_int32 ((get_inode s f).size + n) ≤ 4096 ∧ rv = to_int32 n
      ∧ (get_inode t f).size
          = (if d = f then to_int32 (to_int32 ((get_inode s f).size + n) + n)
             else to_int32 ((get_inode s f).size + n))
      ∧ (d ≠ f → (get_inode t d).size = to_int32 ((get_inode s d).size + n))
      ∧ (∀ x, x ≠ f → x ≠ d → get_inode t x = get_inode s x)
      ∧ (∀ x, (get_inode t x).refs = (get_inode s x).refs
          ∧ (get_inode t x).block = (get_inode s x).block
          ∧ (get_inode t x).mode = (get_inode s x).mode)
      ∧ t.inode_bitmap = s.inode_bitmap ∧ t.blocks_bitmap = s.blocks_bitmap
      ∧ t.dirents = s.dirents := by
  by_cases hoff : offset < 4096
  · by_cases hcap : to_int32 ((get_inode s f).size + n) ≤ 4096
    · have hl : tree_lookup
          (set_inode (memcpy_to s (4096 * (get_inode s f).block + offset) buf n) f
            { (get_inode (memcpy_to s (4096 * (get_inode s f).block + offset) buf n) f) with
              size := to_int32
                ((get_inode (memcpy_to s (4096 * (get_inode s f).block + offset) buf n) f).size
                  + n) }) dp = some d := by
        refine (tree_lookup_congr s _ dp ?_ ?_).trans hd
        swap
        · rfl
        intro x
        simp only [set_inode, get_inode, memcpy_to]
        split
        · next h => rw [h]
        · rfl
      have hcap2 : (get_inode
          (set_inode (memcpy_to s (4096 * (get_inode s f).block + offset) buf n) f
            { (get_inode (memcpy_to s (4096 * (get_inode s f).block + offset) buf n) f) with
              size := to_int32
                ((get_inode (memcpy_to s (4096 * (get_inode s f).block + offset) buf n) f).size
                  + n) }) f).size ≤ 4096 := by
        simp only [set_inode, get_inode, memcpy_to, if_true]
        exact hcap
      simp only [storage_write, hoff, not_true_eq_false, if_false, hres, hf, hcap2, hdp, hl,
        Outcome.ret.injEq] at hacc
      obtain ⟨h1, h2⟩ := hacc
      subst h2
      refine ⟨hoff, hcap, h1.symm, ?_, ?_, ?_, ?_, rfl, rfl, rfl⟩
      · by_cases hdf : d = f
        · subst hdf
          simp [set_inode, get_inode, memcpy_to]
        · have hfd : f ≠ d := fun h => hdf h.symm
          simp [set_inode, get_inode, memcpy_to, hdf, hfd]
      · intro hdf
        simp [set_inode, get_inode, memcpy_to, hdf]
      · intro x hxf hxd
        simp [set_inode, get_inode, memcpy_to, hxf, hxd]
      · intro x
        simp only [set_inode, get_inode, memcpy_to]
        split_ifs <;> simp_all
    · exfalso
      have hcap2 : ¬ (get_inode
          (set_inode (memcpy_to s (4096 * (get_inode s f).block + offset) buf n) f
            { (get_inode (memcpy_to s (4096 * (get_inode s f).block + offset) buf n) f) with
              size := to_int32
                ((get_inode (memcpy_to s (4096 * (get_inode s f).block + offset) buf n) f).size
                  + n) }) f).size ≤ 4096 := by
        simp only [set_inode, get_inode, memcpy_to, if_true]
        exact hcap
      simp only [storage_write, hoff, not_true_eq_false, if_false, hres, hf, hcap2,
        not_false_eq_true, if_true] at hacc
      cases hacc
  · exfalso
    simp only [storage_write, hoff, not_false_eq_true, if_true] at hacc
    cases hacc

/-- The sizes after `storage_write`, over the typed views: when `p` resolves to the inode `f`, the directory path of `p` resolves
to the inode `d` with `d ≠ f`, and `storage_write` of `n` bytes at any offset
returns (the value `rv`, in the image `t`), then `rv = n`, the size of `f` has
grown by `n`, the size of `d` has grown by `n`, and the size of every other
inode is unchanged.  The sizes are values of type `int`, as is the value
returned: `n` and the two sums are taken within the range of `int`. -/
theorem write_accumulates_sizes_typed (s t : State) (p dp : List Char) (f d : Int)
    (buf : List Nat) (n : Nat) (offset rv : Int)
    (hres : tree_lookup s p = some f) (hf : f ≠ -1)
    (hdp : get_dir_path p = some dp) (hd : tree_lookup s dp = some d) (hdf : d ≠ f)
    (hacc : storage_write s p buf n offset = .ret rv t)
    (hn : (n : Int) < 2147483648)
    (hf1 : -2147483648 ≤ (get_inode s f).size)
    (hf2 : (get_inode s f).size + n < 2147483648)
    (hd1 : -2147483648 ≤ (get_inode s d).size)
    (hd2 : (get_inode s d).size + n < 2147483648) :
    rv = n ∧ (get_inode t f).size = (get_inode s f).size + n
      ∧ (get_inode t d).size = (get_inode s d).size + n
      ∧ ∀ x, x ≠ f → x ≠ d → (get_inode t x).size = (get_inode s x).size := by
  obtain ⟨_, _, h3, h4, h5, h6, _⟩ := storage_write_inv s t p dp f d buf n offset rv hres hf hdp hd hacc
  refine ⟨?_, ?_, ?_, ?_⟩
  · rw [h3, to_int32_id _ (by omega) hn]
  · rw [h4, if_neg hdf, to_int32_id _ (by omega) hf2]
  · rw [h5 hdf, to_int32_id _ (by omega) hd2]
  · intro x hxf hxd
    rw [h6 x hxf hxd]

/-- C22 (counterexample): the image reached from the initial image by
creating `/a`, writing 4096 bytes to it, creating `/b` and writing 4096 bytes
to it, every call returning normally, has the allocated root inode at size
8192: `storage_write` adds to the size of the parent directory without a
check.  The lower bound fails as well, through `directory_delete`: in
`image_reuse_a1` (`/d`, `/d/x` created, `/d` unlinked, `/e` created on the
inode and block of `/d`, `/a` created and one byte written to it) the
directory `/e` carries `..` in two slots in use; `storage_unlink("/e/..")`
and `storage_rename("/e/..", "/r")` both return 0, clear the first of the two
slots and take the size of the inode that the second names, the root with its
size 1, off the size of `/e`: the allocated inode 0 has the size `-1`. -/
theorem C22_counterexample :
    reachable image_two_blocks
      ∧ image_two_blocks.inode_bitmap 2 = true
      ∧ (get_inode image_two_blocks 2).size = 8192
      ∧ ¬ (get_inode image_two_blocks 2).size ≤ 4096
      ∧ reachable image_below_unlink
      ∧ (storage_unlink image_reuse_a1 "/e/..".toList).rv = some 0
      ∧ parent_inum image_reuse_a1 "/e/..".toList = 0
      ∧ image_below_unlink.inode_bitmap 0 = true
      ∧ (get_inode image_below_unlink 0).size = -1
      ∧ reachable image_below_rename
      ∧ (storage_rename image_reuse_a1 "/e/..".toList "/r".toList).rv = some 0
      ∧ image_below_rename.inode_bitmap 0 = true
      ∧ (get_inode image_below_rename 0).size = -1 :=
  ⟨reachable_image_two_blocks, by decide, by decide, by decide,
    reachable_image_below_unlink, by decide, by decide, by decide, by decide,
    reachable_image_below_rename, by decide, by decide, by decide⟩

/-! ### C23: the block field of an inode -/

theorem put_block (s : State) (d : Int) (n : List Char) (k : Int) (x : Int) :
    ((directory_put s d n k).2.inodes x).block = (s.inodes x).block := by
  rw [(directory_put_frame s d n k).2.2.2]

theorem alloc_inode_inodes (s : State) : (alloc_inode s).2.inodes = s.inodes := by
  unfold alloc_inode
  split <;> rfl

theorem alloc_block_inodes (s : State) : (alloc_block s).2.inodes = s.inodes := by
  unfold alloc_block
  split <;> rfl

theorem alloc_block_inode_bitmap (s : State) :
    (alloc_block s).2.inode_bitmap = s.inode_bitmap := by
  unfold alloc_block
  split <;> rfl

theorem link_block (s : State) (a b : List Char) (x : Int) :
    ((storage_link s a b).state.inodes x).block = (s.inodes x).block := by
  unfold storage_link
  simp only []
  repeat' split
  all_goals simp only [Outcome.state, put_block, set_inode_refs_block]

theorem unlink_block (s : State) (p : List Char) (x : Int) :
    ((storage_unlink s p).state.inodes x).block = (s.inodes x).block := by
  unfold storage_unlink
  simp only []
  repeat' split
  all_goals simp only [Outcome.state, directory_delete_block, set_inode_refs_block]

theorem rename_move_block (s : State) (a b : List Char) (i : Int) (x : Int) :
    ((rename_move s a b i).state.inodes x).block = (s.inodes x).block := by
  unfold rename_move
  simp only []
  repeat' split
  all_goals simp only [Outcome.state, put_block, directory_delete_block]

theorem rename_block (s : State) (a b : List Char) (x : Int) :
    ((storage_rename s a b).state.inodes x).block = (s.inodes x).block := by
  have hu := unlink_block s b x
  unfold storage_rename
  repeat' split
  all_goals try rw [rename_move_block]
  all_goals try rfl
  all_goals
    rename_i heq
    try rename_i heq2
    first
    | (rw [heq] at hu; exact hu)
    | (rw [heq2] at hu; exact hu)

theorem write_block (s : State) (p : List Char) (buf : List Nat) (n : Nat) (off : Int)
    (x : Int) :
    ((storage_write s p buf n off).state.inodes x).block = (s.inodes x).block := by
  unfold storage_write
  simp only []
  repeat' split
  all_goals try simp only [Outcome.state, set_inode, get_inode, memcpy_to]
  all_goals try (split_ifs <;> simp_all)

theorem mknod_block (s : State) (p : List Char) (mode : Int) (x : Int)
    (hx : x ≠ (alloc_inode s).1) :
    ((storage_mknod s p mode).state.inodes x).block = (s.inodes x).block := by
  unfold storage_mknod
  simp only []
  repeat' split
  all_goals try simp only [Outcome.state, put_block, alloc_block_inodes, alloc_inode_inodes,
    set_inode, get_inode, hx, if_false]

theorem directory_init_block (s : State) (p : List Char) (mode : Int) (x : Int)
    (hx : x ≠ (alloc_inode s).1) :
    ((directory_init s p mode).state.inodes x).block = (s.inodes x).block := by
  unfold directory_init
  simp only []
  repeat' split
  all_goals try simp only [Outcome.state, put_block, alloc_block_inodes, alloc_inode_inodes,
    set_inode, get_inode, hx, if_false]

theorem root_init_block (s : State) (x : Int) (hx : x ≠ 2) :
    ((root_init s).state.inodes x).block = (s.inodes x).block := by
  unfold root_init
  simp only []
  repeat' split
  all_goals try simp only [Outcome.state, put_block, alloc_block_inodes,
    set_inode, get_inode, hx, if_false]

/-- The block fields over the typed views: in every image `s` and for every inode `x`, allocated or not,
`storage_write`, `storage_link`, `storage_unlink` and `storage_rename` leave
the block field of `x` as it was, however the call ends (`storage_read` and
`storage_stat` only read the image); `storage_mknod` and `directory_init`
leave the block field of every inode other than the one that `alloc_inode`
gives them as it was, and `root_init` that of every inode other than 2. -/
theorem block_field_frame_typed (s : State) (p q : List Char) (buf : List Nat) (n : Nat)
    (offset mode : Int) (x : Int) :
    ((storage_write s p buf n offset).state.inodes x).block = (s.inodes x).block
      ∧ ((storage_link s p q).state.inodes x).block = (s.inodes x).block
      ∧ ((storage_unlink s p).state.inodes x).block = (s.inodes x).block
      ∧ ((storage_rename s p q).state.inodes x).block = (s.inodes x).block
      ∧ (x ≠ (alloc_inode s).1 →
          ((storage_mknod s p mode).state.inodes x).block = (s.inodes x).block)
      ∧ (x ≠ (alloc_inode s).1 →
          ((directory_init s p mode).state.inodes x).block = (s.inodes x).block)
      ∧ (x ≠ 2 → ((root_init s).state.inodes x).block = (s.inodes x).block) :=
  ⟨write_block s p buf n offset x, link_block s p q x, unlink_block s p x,
    rename_block s p q x, mknod_block s p mode x, directory_init_block s p mode x,
    root_init_block s x⟩

/-! ### C21: the reference counts of the allocated inodes -/

theorem alloc_inode_bitmap (s : State) (i : Int) (h : (alloc_inode s).2.inode_bitmap i = true) :
    i = (alloc_inode s).1 ∨ s.inode_bitmap i = true := by
  unfold alloc_inode at h ⊢
  cases hfi : first_index (fun ii => !bitmap_get s.inode_bitmap ii) 0 INODE_COUNT with
  | none =>
    simp only [hfi] at h
    exact Or.inr h
  | some k =>
    simp only [hfi, bitmap_put] at h ⊢
    by_cases hi : i = (k : Int)
    · exact Or.inl hi
    · rw [if_neg hi] at h
      exact Or.inr h

theorem refs_positive_put (s : State) (d : Int) (n : List Char) (k : Int)
    (h : refs_positive s) : refs_positive (directory_put s d n k).2 := by
  intro i hi
  rw [(directory_put_frame s d n k).1] at hi
  rw [(directory_put_frame s d n k).2.2.2]
  exact h i hi

theorem refs_positive_delete (s : State) (d : Int) (n : List Char)
    (h : refs_positive s) : refs_positive (directory_delete s d n).2 := by
  intro i hi
  rw [(directory_delete_frame s d n).1] at hi
  rw [((directory_delete_frame s d n).2.2.2 i).1]
  exact h i hi

theorem refs_positive_alloc (s : State) (mode : Int) (b : Int) (h : refs_positive s) :
    refs_positive
      (set_inode (alloc_block (set_inode (alloc_inode s).2 (alloc_inode s).1
          { (get_inode (alloc_inode s).2 (alloc_inode s).1) with
            refs := 1, mode := mode, size := 0 })).2 (alloc_inode s).1
        { (get_inode (alloc_block (set_inode (alloc_inode s).2 (alloc_inode s).1
            { (get_inode (alloc_inode s).2 (alloc_inode s).1) with
              refs := 1, mode := mode, size := 0 })).2 (alloc_inode s).1) with block := b }) := by
  intro i hi
  simp only [set_inode, get_inode, alloc_block_inodes, alloc_block_inode_bitmap,
    alloc_inode_inodes] at hi ⊢
  by_cases hx : i = (alloc_inode s).1
  · simp [hx]
  · simp only [hx, if_false]
    rcases alloc_inode_bitmap s i hi with h1 | h1
    · exact absurd h1 hx
    · exact h i h1

theorem refs_positive_of_frame (s t : State) (hb : t.inode_bitmap = s.inode_bitmap)
    (hr : ∀ x, (t.inodes x).refs = (s.inodes x).refs) (h : refs_positive s) :
    refs_positive t := by
  intro i hi
  rw [hb] at hi
  rw [hr]
  exact h i hi

theorem refs_positive_incr (s : State) (f : Int) (h : refs_positive s) :
    refs_positive
      (set_inode s f { (get_inode s f) with refs := (get_inode s f).refs + 1 }) := by
  intro i hi
  have h1 := h i hi
  simp only [set_inode, get_inode]
  by_cases hx : i = f
  · subst hx
    simp only [if_true]
    omega
  · simp only [hx, if_false]
    exact h1

theorem refs_positive_unlink_kept (s : State) (f d : Int) (n : List Char)
    (h : refs_positive s)
    (h0 : (get_inode (directory_delete (set_inode s f
      { (get_inode s f) with refs := (get_inode s f).refs - 1 }) d n).2 f).refs ≠ 0) :
    refs_positive (directory_delete (set_inode s f
      { (get_inode s f) with refs := (get_inode s f).refs - 1 }) d n).2 := by
  intro i hi
  rw [(directory_delete_frame _ d n).1] at hi
  have h1 := h i hi
  simp only [get_inode] at h0
  rw [((directory_delete_frame _ d n).2.2.2 f).1] at h0
  rw [((directory_delete_frame _ d n).2.2.2 i).1]
  simp only [set_inode, get_inode, if_true] at h0 ⊢
  by_cases hx : i = f
  · subst hx
    simp only [if_true]
    omega
  · simp only [hx, if_false]
    exact h1

theorem refs_positive_unlink_freed (s : State) (f d : Int) (n : List Char) (b : Int)
    (h : refs_positive s) :
    refs_positive
      { (directory_delete (set_inode s f
          { (get_inode s f) with refs := (get_inode s f).refs - 1 }) d n).2 with
        blocks_bitmap := bitmap_put (directory_delete (set_inode s f
          { (get_inode s f) with refs := (get_inode s f).refs - 1 }) d n).2.blocks_bitmap b false
        inode_bitmap := bitmap_put (directory_delete (set_inode s f
          { (get_inode s f) with refs := (get_inode s f).refs - 1 }) d n).2.inode_bitmap f
            false } := by
  intro i hi
  simp only [bitmap_put] at hi
  by_cases hx : i = f
  · simp [hx] at hi
  · rw [if_neg hx, (directory_delete_frame _ d n).1] at hi
    have h1 := h i hi
    show 1 ≤ ((directory_delete _ d n).2.inodes i).refs
    rw [((directory_delete_frame _ d n).2.2.2 i).1]
    simp only [set_inode, get_inode, hx, if_false]
    exact h1

theorem mknod_refs_positive (s : State) (p : List Char) (mode : Int) (h : refs_positive s) :
    (storage_mknod s p mode).returned refs_positive := by
  unfold storage_mknod
  simp only []
  repeat' split
  all_goals simp only [Outcome.returned]
  · exact h
  · exact refs_positive_put _ _ _ _ (refs_positive_alloc s mode _ h)

theorem directory_init_refs_positive (s : State) (p : List Char) (mode : Int)
    (h : refs_positive s) : (directory_init s p mode).returned refs_positive := by
  unfold directory_init
  simp only []
  repeat' split
  all_goals simp only [Outcome.returned]
  · exact h
  · exact refs_positive_alloc s mode _ h
  · exact refs_positive_put _ _ _ _ (refs_positive_put _ _ _ _
      (refs_positive_put _ _ _ _ (refs_positive_alloc s mode _ h)))

theorem link_refs_positive (s : State) (a b : List Char) (h : refs_positive s) :
    (storage_link s a b).returned refs_positive := by
  unfold storage_link
  simp only []
  repeat' split
  all_goals simp only [Outcome.returned]
  · exact h
  · exact h
  · exact refs_positive_incr s _ h
  · exact refs_positive_put _ _ _ _ (refs_positive_incr s _ h)

theorem unlink_refs_positive (s : State) (p : List Char) (h : refs_positive s) :
    (storage_unlink s p).returned refs_positive := by
  unfold storage_unlink
  simp only []
  repeat' split
  all_goals simp only [Outcome.returned]
  · exact h
  · exact refs_positive_unlink_freed s _ _ _ _ h
  · rename_i h0
    exact refs_positive_unlink_kept s _ _ _ h h0

theorem rename_move_refs_positive (s : State) (a b : List Char) (i : Int)
    (h : refs_positive s) : (rename_move s a b i).returned refs_positive := by
  unfold rename_move
  simp only []
  repeat' split
  all_goals simp only [Outcome.returned]
  · exact refs_positive_delete _ _ _ h
  · exact refs_positive_put _ _ _ _ (refs_positive_delete _ _ _ h)

theorem rename_refs_positive (s : State) (a b : List Char) (h : refs_positive s) :
    (storage_rename s a b).returned refs_positive := by
  have hu := unlink_refs_positive s b h
  unfold storage_rename
  repeat' split
  all_goals try exact rename_move_refs_positive _ _ _ _ h
  all_goals try (simp only [Outcome.returned]; done)
  all_goals try (simp only [Outcome.returned]; exact h)
  all_goals
    rename_i heq _
    rw [heq] at hu
    exact rename_move_refs_positive _ _ _ _ hu

theorem root_init_refs_positive (s : State) (h : refs_positive s) :
    (root_init s).returned refs_positive := by
  unfold root_init
  simp only []
  repeat' split
  all_goals simp only [Outcome.returned]
  apply refs_positive_put
  intro i hi
  simp only [set_inode, get_inode, alloc_block_inodes, alloc_block_inode_bitmap,
    bitmap_put] at hi ⊢
  by_cases hx : i = 2
  · simp [hx]
  · simp only [hx, if_false] at hi ⊢
    exact h i hi

theorem storage_init_refs_positive (s : State) (h : refs_positive s) :
    (storage_init s).returned refs_positive := by
  have h1 : refs_positive (inode_table_init s) := h
  unfold storage_init
  simp only []
  split
  · split
    · have hr := root_init_refs_positive (inode_table_init s) h1
      split
      · simp only [Outcome.returned]
      · rename_i heq
        rw [heq] at hr
        exact hr
    · exact h1
  · split
    · have hr := root_init_refs_positive s h
      split
      · simp only [Outcome.returned]
      · rename_i heq
        rw [heq] at hr
        exact hr
    · exact h

theorem returned_state (o : Outcome) (P : State → Prop) (r : Int) (hr : o.rv = some r)
    (h : o.returned P) : P o.state := by
  cases o with
  | ret rv t => exact h
  | abort t => simp [Outcome.rv] at hr

/-- C21 (counterexample): the image reached from the initial image by
`directory_init("/d")`, which returns 0, has the allocated inode 0 with
`refs = 1` while two entries in use name it: the entry `d` of the root
directory (inode 2, block 6) and the entry `.` of `/d` itself (inode 0,
block 7). -/
theorem C21_counterexample :
    reachable_zero image_d
      ∧ image_d.inode_bitmap 0 = true ∧ (get_inode image_d 0).refs = 1
      ∧ tree_lookup image_d "/".toList = some 2 ∧ (get_inode image_d 2).block = 6
      ∧ tree_lookup image_d "/d".toList = some 0 ∧ (get_inode image_d 0).block = 7
      ∧ entries_naming image_d 6 0 = 1 ∧ entries_naming image_d 7 0 = 1
      ∧ (get_inode image_d 0).refs ≠ entries_naming image_d 6 0 + entries_naming image_d 7 0 :=
  ⟨reachable_zero_image_d, by decide, by decide, by decide, by decide, by decide, by decide,
    by decide, by decide, by decide⟩

/-! ## The claims within the bounds of the image

The statements above that carry the words "over the typed views" hold of the
embedding for every state, name and offset.  They are statements about the
code only where a call writes each view inside its own part of the image; the
claims below carry these bounds as preconditions. -/

theorem well_typed_init_image : well_typed init_image := by
  unfold well_typed
  decide

theorem well_typed_image_a : well_typed image_a := by
  unfold well_typed
  decide

theorem well_typed_image_ab : well_typed image_ab := by
  unfold well_typed
  decide

theorem create_within_init_image : create_within init_image "/a".toList 33188 :=
  ⟨well_typed_init_image, by decide, by decide, by decide, by decide⟩

theorem create_within_image_a : create_within image_a "/a".toList 33188 :=
  ⟨well_typed_image_a, by decide, by decide, by decide, by decide⟩

theorem write_within_image_a (n : Nat) (offset : Int) (h0 : 0 ≤ offset)
    (h1 : offset + n ≤ 4096) : write_within image_a "/a".toList n offset :=
  ⟨well_typed_image_a, by decide, by decide, h0, h1, fun f hf _ => by
    have h : tree_lookup image_a "/a".toList = some 0 := by decide
    rw [h] at hf
    cases hf
    decide⟩

theorem unlink_within_image_a : unlink_within image_a "/a".toList :=
  ⟨well_typed_image_a, by decide, by decide, fun i hi _ => by
    have h : tree_lookup image_a "/a".toList = some 0 := by decide
    rw [h] at hi
    cases hi
    decide⟩

/-! ### C13 -/

/-- C13 (counterexample): in `image_flag` the flag of slot 1 of the root
directory is 2, so the slot is not occupied (`directory_lookup` does not find
its name `f1`), and no slot has the flag 0; `directory_put` returns `-1` and
leaves the image as it is, although a slot is not occupied. -/
theorem C13_counterexample :
    (image_flag.dirents (get_inode image_flag 2).block 1).free ≠ 1
      ∧ (image_flag.dirents (get_inode image_flag 2).block 1).name = "f1".toList
      ∧ directory_lookup image_flag 2 "f1".toList = -1
      ∧ (∀ i, i < DIRENT_COUNT →
          (image_flag.dirents (get_inode image_flag 2).block i).free ≠ 0)
      ∧ directory_put image_flag 2 ['g'] 0 = (-1, image_flag) :=
  ⟨by decide, by decide, by decide, by decide,
    (put_lowest_free_slot_typed image_flag 2 ['g'] 0).2 (by decide)⟩

/-- C13 (amended): for an inode `d` of the table whose block is a data block
in which the name of every slot ends inside the slot (it has at most 11
bytes), a name of at most 11 bytes and an `int` inum: if some slot among the
`DIRENT_COUNT` slots has the flag 0, `directory_put` returns `0`, writes
`(name, entry_inum, 1)` into the lowest-index slot with the flag 0 and leaves
every other slot of every block unchanged; if no slot has the flag 0 it
returns `-1` and leaves the image unchanged. -/
theorem C13_put_lowest_zero_flag (s : State) (d : Int) (name : List Char) (k : Int)
    (_hd : inode_id d) (_hblk : data_block (get_inode s d).block)
    (_hslots : ∀ j, j < DIRENT_COUNT → (s.dirents (get_inode s d).block j).name.length ≤ 11)
    (_hname : name_fits name) (_hk : is_int k) :
    (∀ i, i < DIRENT_COUNT → (s.dirents (get_inode s d).block i).free = 0 →
        (∀ j, j < i → (s.dirents (get_inode s d).block j).free ≠ 0) →
        (directory_put s d name k).1 = 0
          ∧ (directory_put s d name k).2.dirents (get_inode s d).block i
              = { name := name, inum := k, free := 1 }
          ∧ (∀ b j, 0 ≤ b → b < (BLOCK_COUNT : Int) → j < DIRENT_COUNT →
              ¬ (b = (get_inode s d).block ∧ j = i) →
              (directory_put s d name k).2.dirents b j = s.dirents b j))
      ∧ ((∀ i, i < DIRENT_COUNT → (s.dirents (get_inode s d).block i).free ≠ 0) →
          directory_put s d name k = (-1, s)) := by
  refine ⟨?_, (put_lowest_free_slot_typed s d name k).2⟩
  intro i hi h0 hlow
  obtain ⟨h1, h2, h3, _⟩ := (put_lowest_free_slot_typed s d name k).1 i hi h0 hlow
  exact ⟨h1, h2, fun b j _ _ _ hbj => h3 b j hbj⟩

theorem C13_put_lowest_zero_flag_witness :
    (directory_put init_image 2 ['a'] 0).1 = 0
      ∧ (directory_put init_image 2 ['a'] 0).2.dirents (get_inode init_image 2).block 1
          = { name := ['a'], inum := 0, free := 1 }
      ∧ (∀ b j, 0 ≤ b → b < (BLOCK_COUNT : Int) → j < DIRENT_COUNT →
          ¬ (b = (get_inode init_image 2).block ∧ j = 1) →
          (directory_put init_image 2 ['a'] 0).2.dirents b j = init_image.dirents b j) :=
  (C13_put_lowest_zero_flag init_image 2 ['a'] 0 (by decide) (by decide) (by decide)
    (by decide) (by decide)).1 1 (by decide) (by decide) (by decide)

/-! ### C6 -/

/-- C6 (counterexample): the path `a`, which is not `/`, resolves to inode 2
in `image_a`, because `tree_lookup` passes over the piece before the first
slash; `storage_unlink("a")` takes the reference count of the root from 1 to
0 and ends in the assertion of `get_dir_path`: no value is returned. -/
theorem C6_counterexample :
    "a".toList ≠ "/".toList
      ∧ tree_lookup image_a "a".toList = some 2
      ∧ (get_inode image_a 2).refs = 1
      ∧ get_dir_path "a".toList = none
      ∧ (storage_unlink image_a "a".toList).rv = none
      ∧ (get_inode (storage_unlink image_a "a".toList).state 2).refs = 0 := by
  decide

/-- C6 (amended): inside the bounds of `storage_unlink` (`unlink_within`: a
well-typed image, a path that fits the buffer of `get_dir_path`, only
directories on the way, refs above the least `int`, a block number that the
bitmap holds), for an absolute path `p` other than `/` with
`tree_lookup(p) = i`: if `i` is `-1`, `storage_unlink(p)` returns `-1` and
changes nothing; otherwise it returns `0`, the refs of `i` are `r - 1`
afterwards (`r` the refs before), and when `r - 1 = 0` the inode-bitmap bit of `i` and
the block-bitmap bit of the block of `i` are cleared, no other bit of the two
bitmaps changing, while when `r - 1` is not `0` both bitmaps are unchanged. -/
theorem C6_unlink_within_bounds (s : State) (p : List Char) (i : Int)
    (habs : p.head? = some '/') (hne : p ≠ ['/']) (hres : tree_lookup s p = some i)
    (_hin : unlink_within s p) :
    (i = -1 → storage_unlink s p = .ret (-1) s)
      ∧ (i ≠ -1 → ∃ t, storage_unlink s p = .ret 0 t
          ∧ (get_inode t i).refs = (get_inode s i).refs - 1
          ∧ ((get_inode s i).refs - 1 = 0 →
              (∀ k, inode_id k → t.inode_bitmap k = bitmap_put s.inode_bitmap i false k)
                ∧ (∀ b, 0 ≤ b → b < (BLOCK_COUNT : Int) →
                    t.blocks_bitmap b
                      = bitmap_put s.blocks_bitmap (get_inode s i).block false b))
          ∧ ((get_inode s i).refs - 1 ≠ 0 →
              (∀ k, inode_id k → t.inode_bitmap k = s.inode_bitmap k)
                ∧ (∀ b, 0 ≤ b → b < (BLOCK_COUNT : Int) →
                    t.blocks_bitmap b = s.blocks_bitmap b))) := by
  obtain ⟨h1, h2⟩ := unlink_refs_and_bitmaps_typed s p i habs hne hres
  refine ⟨h1, fun hi => ?_⟩
  obtain ⟨t, ht, hr, hz, hnz⟩ := h2 hi
  refine ⟨t, ht, hr, fun h => ?_, fun h => ?_⟩
  · obtain ⟨f1, f2⟩ := hz h
    exact ⟨fun k _ => by rw [f1], fun b _ _ => by rw [f2]⟩
  · obtain ⟨f1, f2⟩ := hnz h
    exact ⟨fun k _ => by rw [f1], fun b _ _ => by rw [f2]⟩

theorem C6_unlink_within_bounds_witness :
    ∃ t, storage_unlink image_a "/a".toList = .ret 0 t
      ∧ (get_inode t 0).refs = (get_inode image_a 0).refs - 1
      ∧ ((get_inode image_a 0).refs - 1 = 0 →
          (∀ k, inode_id k → t.inode_bitmap k = bitmap_put image_a.inode_bitmap 0 false k)
            ∧ (∀ b, 0 ≤ b → b < (BLOCK_COUNT : Int) →
                t.blocks_bitmap b
                  = bitmap_put image_a.blocks_bitmap (get_inode image_a 0).block false b))
      ∧ ((get_inode image_a 0).refs - 1 ≠ 0 →
          (∀ k, inode_id k → t.inode_bitmap k = image_a.inode_bitmap k)
            ∧ (∀ b, 0 ≤ b → b < (BLOCK_COUNT : Int) →
                t.blocks_bitmap b = image_a.blocks_bitmap b)) :=
  (C6_unlink_within_bounds image_a "/a".toList 0 (by decide) (by decide) (by decide)
    unlink_within_image_a).2 (by decide)


/-! ### C1 -/

/-- C1 (amended): take a well-typed image and an absolute path `p` that fits
the buffer of `get_dir_path`, with components of at most 11 bytes, with
`tree_lookup(p) = -1`, whose parent directory resolves and has a slot with
`free == 0`, with a free inode id and a free block, and which is consistent
along `p`: every inode read while resolving `p` is a directory and is marked
used in the inode bitmap, and no slot in use of the parent stores the inum
`-1`.  Then `storage_mknod(p, mode)`, for a `mode` that is an `int` and a
`mode_t`, returns `0`, and afterwards `tree_lookup(p)` is the inode id that
`alloc_inode` handed out, whose record is `{refs: 1, mode: mode, size: 0,
block: the newly allocated block}`. -/
theorem C1_mknod_within_bounds (s : State) (p : List Char) (mode : Int) (dp : List Char)
    (d : Int)
    (habs : p.head? = some '/')
    (hnew : tree_lookup s p = some (-1))
    (hdp : get_dir_path p = some dp) (hd : tree_lookup s dp = some d) (hdne : d ≠ -1)
    (hslot : ∃ i, i < DIRENT_COUNT ∧ (s.dirents (get_inode s d).block i).free = 0)
    (hfi : ∃ i : Nat, i < INODE_COUNT ∧ s.inode_bitmap i = false)
    (hfb : ∃ b : Nat, 1 ≤ b ∧ b < BLOCK_COUNT ∧ s.blocks_bitmap b = false)
    (hused : ∀ x ∈ visited s p, s.inode_bitmap x = true)
    (hinum : ∀ i, i < DIRENT_COUNT → (s.dirents (get_inode s d).block i).free = 1 →
      (s.dirents (get_inode s d).block i).inum ≠ -1)
    (_hin : create_within s p mode) :
    ∃ t, storage_mknod s p mode = .ret 0 t
      ∧ tree_lookup t p = some (alloc_inode s).1
      ∧ get_inode t (alloc_inode s).1
          = { refs := 1, mode := mode, size := 0, block := (alloc_block s).1 } :=
  mknod_then_lookup_typed s p mode dp d habs hnew hdp hd hdne hslot hfi hfb hused hinum

theorem C1_mknod_within_bounds_witness :
    ∃ t, storage_mknod init_image "/a".toList 33188 = .ret 0 t
      ∧ tree_lookup t "/a".toList = some (alloc_inode init_image).1
      ∧ get_inode t (alloc_inode init_image).1
          = { refs := 1, mode := 33188, size := 0, block := (alloc_block init_image).1 } :=
  C1_mknod_within_bounds init_image "/a".toList 33188 "/".toList 2 (by decide)
    (by decide) (by decide) (by decide) (by decide) ⟨1, by decide, by decide⟩
    ⟨0, by decide, by decide⟩ ⟨7, by decide, by decide, by decide⟩ (by decide) (by decide)
    create_within_init_image

/-! ### C3 -/

/-- C3 (amended): in a well-typed image, for every absolute path `p` other
than `/` that fits the buffer of `get_dir_path`, is resolved through
directories only and resolves to a regular file `i` whose block is a data
block, the block of no directory on the way to `p`, and whose recorded size
(an `int`) plus `len(bytes)` is at most 4096, and every sequence
`bytes` of bytes with `len(bytes) <= 4096`: `storage_write(p, bytes,
len(bytes), 0)` returns `len(bytes)`, and a following `storage_read(p, buf,
len(bytes), 0)` returns `len(bytes)` and fills the first `len(bytes)` bytes of
`buf` with exactly `bytes`. -/
theorem C3_write_then_read_within_bounds (s : State) (p : List Char) (i : Int)
    (bytes buf : List Nat)
    (habs : p.head? = some '/') (hne : p ≠ ['/'])
    (hres : tree_lookup s p = some i) (hi : i ≠ -1)
    (hlen : bytes.length ≤ 4096)
    (hlo : -2147483648 ≤ (get_inode s i).size)
    (hcap : (get_inode s i).size + bytes.length ≤ 4096)
    (_hin : write_within s p bytes.length 0)
    (_hreg : S_ISREG (get_inode s i).mode) (_hbytes : ∀ x ∈ bytes, x < 256) :
    ∃ t, storage_write s p bytes bytes.length 0 = .ret bytes.length t
      ∧ storage_read t p buf bytes.length 0
          = some ((bytes.length : Int), bytes ++ buf.drop bytes.length) :=
  write_then_read_typed s p i bytes buf habs hne hres hi hlen hlo hcap

theorem C3_write_then_read_within_bounds_witness :
    ∃ t, storage_write image_a "/a".toList [1, 2, 3] [1, 2, 3].length 0
        = .ret ([1, 2, 3].length : Nat) t
      ∧ storage_read t "/a".toList [9, 9, 9, 9] [1, 2, 3].length 0
          = some ((([1, 2, 3] : List Nat).length : Int),
              [1, 2, 3] ++ ([9, 9, 9, 9] : List Nat).drop ([1, 2, 3] : List Nat).length) :=
  C3_write_then_read_within_bounds image_a "/a".toList 0 [1, 2, 3] [9, 9, 9, 9] (by decide)
    (by decide) (by decide) (by decide) (by decide) (by decide) (by decide)
    (write_within_image_a 3 0 (by decide) (by decide)) (by decide) (by decide)

/-! ### C5 -/

/-- C5 (amended): take a well-typed image in which the absolute path `a`
(other than `/`) resolves to an inode `i` that is marked used and has refs
other than `0` and below the largest `int`, the absolute path `b` does not
resolve, and the parent directory of `b` resolves and has a slot with
`free == 0`; both calls stay inside their bounds (`link_within` of the image,
`unlink_within` of the image after the link: well-typed images, paths that fit
the buffer of `get_dir_path` with components of at most 11 bytes, only
directories on the way) and the block of `i` is a data block.  Suppose
moreover that no slot
in use of the parent of `b` stores the inum `-1`, that in the parent of `a`
the slot in use named like the leaf of `a` is the first slot carrying that
name, that resolving the parent of `b` does not go through the entry of `a`
(`a` is not an ancestor of `b`), and that the block of `i` is the block of
neither parent directory.  Then `storage_link(a, b)` and `storage_unlink(a)`
both return `0`, and afterwards `tree_lookup(a) = -1`, `tree_lookup(b) = i`,
inode `i` is still marked used, with the refs and block index it had before
the link, and the content of its block is as before, read as bytes or as
entries. -/
theorem C5_link_then_unlink_within_bounds (s : State) (a b : List Char) (i : Int)
    (dpa dpb : List Char) (da db : Int) (la : List Char)
    (haabs : a.head? = some '/') (hane : a ≠ ['/'])
    (hbabs : b.head? = some '/')
    (ha : tree_lookup s a = some i) (hi : i ≠ -1)
    (hb : tree_lookup s b = some (-1))
    (hdpa : get_dir_path a = some dpa) (hda : tree_lookup s dpa = some da)
    (hfna : get_file_name a = some la)
    (hdpb : get_dir_path b = some dpb) (hdb : tree_lookup s dpb = some db) (hdbne : db ≠ -1)
    (hslot : ∃ k, k < DIRENT_COUNT ∧ (s.dirents (get_inode s db).block k).free = 0)
    (hused : s.inode_bitmap i = true) (hrefs : (get_inode s i).refs ≠ 0)
    (hinum : ∀ k, k < DIRENT_COUNT → (s.dirents (get_inode s db).block k).free = 1 →
      (s.dirents (get_inode s db).block k).inum ≠ -1)
    (hfirst : first_named s (get_inode s da).block la)
    (hanc : ∀ xc ∈ path_steps s dpb,
      ¬ ((get_inode s xc.1).block = (get_inode s da).block ∧ xc.2 = la))
    (hblka : (get_inode s i).block ≠ (get_inode s da).block)
    (hblkb : (get_inode s i).block ≠ (get_inode s db).block)
    (_hblk : data_block (get_inode s i).block)
    (_hlink : link_within s a b) (_hunlink : unlink_within (storage_link s a b).state a) :
    ∃ t1 t2, storage_link s a b = .ret 0 t1 ∧ storage_unlink t1 a = .ret 0 t2
      ∧ tree_lookup t2 a = some (-1) ∧ tree_lookup t2 b = some i
      ∧ t2.inode_bitmap i = true
      ∧ (get_inode t2 i).refs = (get_inode s i).refs
      ∧ (get_inode t2 i).block = (get_inode s i).block
      ∧ (∀ k : Int, 0 ≤ k → k < 4096 →
          t2.bytes (4096 * (get_inode s i).block + k)
            = s.bytes (4096 * (get_inode s i).block + k))
      ∧ (∀ j, j < DIRENT_COUNT →
          t2.dirents (get_inode s i).block j = s.dirents (get_inode s i).block j) := by
  obtain ⟨t1, t2, h1, h2, h3, h4, h5, h6, h7, h8, h9⟩ :=
    link_then_unlink_typed s a b i dpa dpb da db la haabs hane hbabs ha hi hb hdpa hda hfna
      hdpb hdb hdbne hslot hused hrefs hinum hfirst hanc
  refine ⟨t1, t2, h1, h2, h3, h4, h5, h6, h7, fun k _ _ => by rw [h8], fun j _ => ?_⟩
  rw [h9 _ hblka hblkb]

theorem C5_link_then_unlink_within_bounds_witness :
    ∃ t1 t2, storage_link image_a "/a".toList "/b".toList = .ret 0 t1
      ∧ storage_unlink t1 "/a".toList = .ret 0 t2
      ∧ tree_lookup t2 "/a".toList = some (-1) ∧ tree_lookup t2 "/b".toList = some 0
      ∧ t2.inode_bitmap 0 = true
      ∧ (get_inode t2 0).refs = (get_inode image_a 0).refs
      ∧ (get_inode t2 0).block = (get_inode image_a 0).block
      ∧ (∀ k : Int, 0 ≤ k → k < 4096 →
          t2.bytes (4096 * (get_inode image_a 0).block + k)
            = image_a.bytes (4096 * (get_inode image_a 0).block + k))
      ∧ (∀ j, j < DIRENT_COUNT →
          t2.dirents (get_inode image_a 0).block j
            = image_a.dirents (get_inode image_a 0).block j) :=
  C5_link_then_unlink_within_bounds image_a "/a".toList "/b".toList 0 "/".toList "/".toList
    2 2 "a".toList
    (by decide) (by decide) (by decide) (by decide) (by decide) (by decide)
    (by decide) (by decide) (by decide) (by decide) (by decide) (by decide)
    ⟨2, by decide, by decide⟩ (by decide) (by decide) (by decide)
    (by unfold first_named; decide) (by decide) (by decide) (by decide) (by decide)
    ⟨well_typed_image_a, by decide, by decide, by decide, by decide, fun i hi => by
      have h : tree_lookup image_a "/a".toList = some 0 := by decide
      rw [h] at hi
      cases hi
      decide⟩
    ⟨by unfold well_typed; decide, by decide, by decide, fun i hi _ => by
      have h : tree_lookup (storage_link image_a "/a".toList "/b".toList).state "/a".toList
          = some 0 := by decide
      rw [h] at hi
      cases hi
      decide⟩

/-! ### C8 -/

/-- C8 (amended): take a well-typed image in which the absolute path `a`
resolves to inode `i` and the absolute path `b` to a different inode `j` with
refs `r` above the least `int`; the call stays inside its bounds
(`rename_within`: both paths fit the buffer of `get_dir_path` with components
of at most 11 bytes, each is resolved through directories only in the image in
which the call resolves it, and the block of `j` is one that the bitmap
holds).  Suppose that in
each of the two parent directories the slot in use named like the leaf is the
first slot carrying that name, that resolving the parent of `a` does not go
through the entry of `b`, that resolving the parent of `b` goes through
neither entry (neither path is an ancestor of the other), and that `i` is
neither of the two parent directories.  Then `storage_rename(a, b)` returns
`0`, and afterwards `tree_lookup(a) = -1`, `tree_lookup(b) = i`, the record of
`i` (refs, mode, size, block) is unchanged, and the refs of `j` are `r - 1`,
with the inode-bitmap bit of `j` and the block-bitmap bit of the block of `j`
cleared when `r - 1 = 0`, no other bit of the two bitmaps changing, and both
bitmaps unchanged otherwise. -/
theorem C8_rename_within_bounds (s : State) (a b : List Char) (i j : Int)
    (dpa dpb : List Char) (da db : Int) (la lb : List Char)
    (haabs : a.head? = some '/') (hane : a ≠ ['/'])
    (hbabs : b.head? = some '/') (hbne : b ≠ ['/'])
    (ha : tree_lookup s a = some i) (hi : i ≠ -1)
    (hb : tree_lookup s b = some j) (hj : j ≠ -1) (hij : i ≠ j)
    (hdpa : get_dir_path a = some dpa) (hda : tree_lookup s dpa = some da)
    (hfna : get_file_name a = some la)
    (hdpb : get_dir_path b = some dpb) (hdb : tree_lookup s dpb = some db)
    (hfnb : get_file_name b = some lb)
    (hfirstA : first_named s (get_inode s da).block la)
    (hfirstB : first_named s (get_inode s db).block lb)
    (hancA : ∀ xc ∈ path_steps s dpa,
      ¬ ((get_inode s xc.1).block = (get_inode s db).block ∧ xc.2 = lb))
    (hancB : ∀ xc ∈ path_steps s dpb,
      ¬ ((get_inode s xc.1).block = (get_inode s da).block ∧ xc.2 = la)
        ∧ ¬ ((get_inode s xc.1).block = (get_inode s db).block ∧ xc.2 = lb))
    (hida : i ≠ da) (hidb : i ≠ db)
    (_hin : rename_within s a b) :
    ∃ t, storage_rename s a b = .ret 0 t
      ∧ tree_lookup t a = some (-1) ∧ tree_lookup t b = some i
      ∧ get_inode t i = get_inode s i
      ∧ (get_inode t j).refs = (get_inode s j).refs - 1
      ∧ ((get_inode s j).refs - 1 = 0 →
          (∀ k, inode_id k → t.inode_bitmap k = bitmap_put s.inode_bitmap j false k)
            ∧ (∀ k, 0 ≤ k → k < (BLOCK_COUNT : Int) →
                t.blocks_bitmap k
                  = bitmap_put s.blocks_bitmap (get_inode s j).block false k))
      ∧ ((get_inode s j).refs - 1 ≠ 0 →
          (∀ k, inode_id k → t.inode_bitmap k = s.inode_bitmap k)
            ∧ (∀ k, 0 ≤ k → k < (BLOCK_COUNT : Int) →
                t.blocks_bitmap k = s.blocks_bitmap k)) := by
  obtain ⟨t, h1, h2, h3, h4, h5, hz, hnz⟩ :=
    rename_over_existing_typed s a b i j dpa dpb da db la lb haabs hane hbabs hbne ha hi hb hj
      hij hdpa hda hfna hdpb hdb hfnb hfirstA hfirstB hancA hancB hida hidb
  refine ⟨t, h1, h2, h3, h4, h5, fun h => ?_, fun h => ?_⟩
  · obtain ⟨f1, f2⟩ := hz h
    exact ⟨fun k _ => by rw [f1], fun k _ _ => by rw [f2]⟩
  · obtain ⟨f1, f2⟩ := hnz h
    exact ⟨fun k _ => by rw [f1], fun k _ _ => by rw [f2]⟩

theorem C8_rename_within_bounds_witness :
    ∃ t, storage_rename image_ab "/a".toList "/b".toList = .ret 0 t
      ∧ tree_lookup t "/a".toList = some (-1) ∧ tree_lookup t "/b".toList = some 0
      ∧ get_inode t 0 = get_inode image_ab 0
      ∧ (get_inode t 1).refs = (get_inode image_ab 1).refs - 1
      ∧ ((get_inode image_ab 1).refs - 1 = 0 →
          (∀ k, inode_id k → t.inode_bitmap k = bitmap_put image_ab.inode_bitmap 1 false k)
            ∧ (∀ k, 0 ≤ k → k < (BLOCK_COUNT : Int) →
                t.blocks_bitmap k
                  = bitmap_put image_ab.blocks_bitmap (get_inode image_ab 1).block false k))
      ∧ ((get_inode image_ab 1).refs - 1 ≠ 0 →
          (∀ k, inode_id k → t.inode_bitmap k = image_ab.inode_bitmap k)
            ∧ (∀ k, 0 ≤ k → k < (BLOCK_COUNT : Int) →
                t.blocks_bitmap k = image_ab.blocks_bitmap k)) :=
  C8_rename_within_bounds image_ab "/a".toList "/b".toList 0 1 "/".toList "/".toList 2 2
    "a".toList "b".toList
    (by decide) (by decide) (by decide) (by decide) (by decide) (by decide) (by decide)
    (by decide) (by decide) (by decide) (by decide) (by decide) (by decide) (by decide)
    (by decide) (by unfold first_named; decide) (by unfold first_named; decide)
    (by decide) (by decide) (by decide) (by decide)
    ⟨⟨well_typed_image_ab, by decide, by decide, fun j hj _ => by
        have h : tree_lookup image_ab "/b".toList = some 1 := by decide
        rw [h] at hj
        cases hj
        decide⟩,
      by decide, by decide, by decide, by decide⟩


/-! ### C24 -/

/-- C24 (counterexample): in `image_a_max` the path `/a` resolves to the
regular file 0 and its parent directory is the root, inode 2, whose recorded
size is the largest `int`; `storage_write("/a", buf, 1, 0)` is accepted and
returns 1, and the size of the root is then the least `int`, not the old size
plus 1. -/
theorem C24_counterexample :
    tree_lookup image_a_max "/a".toList = some 0
      ∧ get_dir_path "/a".toList = some "/".toList
      ∧ tree_lookup image_a_max "/".toList = some 2
      ∧ (get_inode image_a_max 2).size = 2147483647
      ∧ (storage_write image_a_max "/a".toList [1] 1 0).rv = some 1
      ∧ (get_inode (storage_write image_a_max "/a".toList [1] 1 0).state 2).size
          = -2147483648
      ∧ (get_inode (storage_write image_a_max "/a".toList [1] 1 0).state 2).size
          ≠ (get_inode image_a_max 2).size + 1 := by
  decide

/-- C24 (amended): in a well-typed image, when the path `p`, which fits the
buffer of `get_dir_path` and is resolved through directories only, resolves to
the regular file `f`, the directory path of `p` resolves to the inode `d` with
`d ≠ f`, and `storage_write` of `n` bytes at the offset `offset` returns (the
value `rv`, in the image `t`), the bytes written lying inside the block of
`f`, which is a data block and the block of no directory on the way to `p`
(`write_within`): if the sizes of `f` and `d` are `int`s and stay so
with `n` added, then `rv = n`, the size of `f` has grown by `n`, the size of
`d` has grown by `n`, and the size of every other inode of the table is
unchanged. -/
theorem C24_write_sizes_within_bounds (s t : State) (p dp : List Char) (f d : Int)
    (buf : List Nat) (n : Nat) (offset rv : Int)
    (hres : tree_lookup s p = some f) (hf : f ≠ -1)
    (hdp : get_dir_path p = some dp) (hd : tree_lookup s dp = some d) (hdf : d ≠ f)
    (hacc : storage_write s p buf n offset = .ret rv t)
    (hin : write_within s p n offset) (_hreg : S_ISREG (get_inode s f).mode)
    (hfs : is_int (get_inode s f).size) (hfsum : (get_inode s f).size + n < 2147483648)
    (hds : is_int (get_inode s d).size) (hdsum : (get_inode s d).size + n < 2147483648) :
    rv = n ∧ (get_inode t f).size = (get_inode s f).size + n
      ∧ (get_inode t d).size = (get_inode s d).size + n
      ∧ ∀ x, inode_id x → x ≠ f → x ≠ d → (get_inode t x).size = (get_inode s x).size := by
  obtain ⟨_, _, _, hoff, hle, _⟩ := hin
  obtain ⟨h1, h2, h3, h4⟩ := write_accumulates_sizes_typed s t p dp f d buf n offset rv hres hf
    hdp hd hdf hacc (by omega) hfs.1 hfsum hds.1 hdsum
  exact ⟨h1, h2, h3, fun x _ hxf hxd => h4 x hxf hxd⟩

theorem C24_write_sizes_within_bounds_witness :
    (3 : Int) = ((3 : Nat) : Int)
      ∧ (get_inode (storage_write image_a "/a".toList [1, 2, 3] 3 100).state 0).size
          = (get_inode image_a 0).size + ((3 : Nat) : Int)
      ∧ (get_inode (storage_write image_a "/a".toList [1, 2, 3] 3 100).state 2).size
          = (get_inode image_a 2).size + ((3 : Nat) : Int)
      ∧ ∀ x, inode_id x → x ≠ 0 → x ≠ 2 →
          (get_inode (storage_write image_a "/a".toList [1, 2, 3] 3 100).state x).size
            = (get_inode image_a x).size :=
  C24_write_sizes_within_bounds image_a
    (storage_write image_a "/a".toList [1, 2, 3] 3 100).state
    "/a".toList "/".toList 0 2 [1, 2, 3] 3 100 3 (by decide) (by decide) (by decide) (by decide)
    (by decide) rfl (write_within_image_a 3 100 (by decide) (by decide)) (by decide)
    (by decide) (by decide) (by decide) (by decide)

/-! ### C23 -/

/-- C23 (code bug): what holds of the calls that stay inside the bounds of the
image.  For every inode `x` of the table: `storage_write` of bytes that lie
inside the block of the file, a data block outside the entry tables read on
the way to it (`write_within`), `storage_link`, `storage_unlink` and
`storage_rename` inside their bounds (`link_within`, `unlink_within`,
`rename_within`: a well-typed image, paths that fit the buffer of
`get_dir_path`, stored names of at most 11 bytes, only directories on the way)
leave the block field of `x` as it was; `storage_mknod` and `directory_init`
inside theirs (`create_within`) leave the block field of every inode other
than the one that `alloc_inode` gives them as it was, and `root_init`, on an
image with blocks 0..5 marked used, that of every inode other than 2.  (A `storage_write` at a negative offset is
outside these bounds: the assertion admits it, and it reaches the inode
table.) -/
theorem C23_block_fields_within_bounds (s : State) (p q : List Char) (buf : List Nat)
    (n : Nat) (offset mode : Int) (x : Int) (_hx : inode_id x) :
    (write_within s p n offset →
        ((storage_write s p buf n offset).state.inodes x).block = (s.inodes x).block)
      ∧ (link_within s p q →
          ((storage_link s p q).state.inodes x).block = (s.inodes x).block)
      ∧ (unlink_within s p →
          ((storage_unlink s p).state.inodes x).block = (s.inodes x).block)
      ∧ (rename_within s p q →
          ((storage_rename s p q).state.inodes x).block = (s.inodes x).block)
      ∧ (create_within s p mode → x ≠ (alloc_inode s).1 →
          ((storage_mknod s p mode).state.inodes x).block = (s.inodes x).block)
      ∧ (create_within s p mode → x ≠ (alloc_inode s).1 →
          ((directory_init s p mode).state.inodes x).block = (s.inodes x).block)
      ∧ ((∀ b ∈ List.range 6, s.blocks_bitmap (b : Int) = true) → x ≠ 2 →
          ((root_init s).state.inodes x).block = (s.inodes x).block) := by
  obtain ⟨h1, h2, h3, h4, h5, h6, h7⟩ := block_field_frame_typed s p q buf n offset mode x
  exact ⟨fun _ => h1, fun _ => h2, fun _ => h3, fun _ => h4,
    fun _ hx => h5 hx, fun _ hx => h6 hx, fun _ hx => h7 hx⟩

theorem link_within_image_a : link_within image_a "/a".toList "/b".toList :=
  ⟨well_typed_image_a, by decide, by decide, by decide, by decide, fun i hi => by
    have h : tree_lookup image_a "/a".toList = some 0 := by decide
    rw [h] at hi
    cases hi
    decide⟩

theorem rename_within_image_a : rename_within image_a "/a".toList "/b".toList :=
  ⟨⟨well_typed_image_a, by decide, by decide, fun j hj hne => by
      have h : tree_lookup image_a "/b".toList = some (-1) := by decide
      rw [h] at hj
      cases hj
      exact absurd rfl hne⟩,
    by decide, by decide, by decide, by decide⟩

theorem C23_block_fields_within_bounds_witness :
    ((storage_write image_a "/a".toList [1] 1 0).state.inodes 0).block = (image_a.inodes 0).block
      ∧ ((storage_link image_a "/a".toList "/b".toList).state.inodes 0).block
          = (image_a.inodes 0).block
      ∧ ((storage_unlink image_a "/a".toList).state.inodes 0).block = (image_a.inodes 0).block
      ∧ ((storage_rename image_a "/a".toList "/b".toList).state.inodes 0).block
          = (image_a.inodes 0).block
      ∧ ((storage_mknod image_a "/a".toList 33188).state.inodes 0).block
          = (image_a.inodes 0).block
      ∧ ((directory_init image_a "/a".toList 33188).state.inodes 0).block
          = (image_a.inodes 0).block
      ∧ ((root_init image_a).state.inodes 0).block = (image_a.inodes 0).block :=
  ⟨(C23_block_fields_within_bounds image_a "/a".toList "/b".toList [1] 1 0 33188 0
      (by decide)).1 (write_within_image_a 1 0 (by decide) (by decide)),
    (C23_block_fields_within_bounds image_a "/a".toList "/b".toList [1] 1 0 33188 0
      (by decide)).2.1 link_within_image_a,
    (C23_block_fields_within_bounds image_a "/a".toList "/b".toList [1] 1 0 33188 0
      (by decide)).2.2.1 unlink_within_image_a,
    (C23_block_fields_within_bounds image_a "/a".toList "/b".toList [1] 1 0 33188 0
      (by decide)).2.2.2.1 rename_within_image_a,
    (C23_block_fields_within_bounds image_a "/a".toList "/b".toList [1] 1 0 33188 0
      (by decide)).2.2.2.2.1 create_within_image_a (by decide),
    (C23_block_fields_within_bounds image_a "/a".toList "/b".toList [1] 1 0 33188 0
      (by decide)).2.2.2.2.2.1 create_within_image_a (by decide),
    (C23_block_fields_within_bounds image_a "/a".toList "/b".toList [1] 1 0 33188 0
      (by decide)).2.2.2.2.2.2 (by decide) (by decide)⟩

/-! ### C21 -/

theorem reachable_zero_within_image_d : reachable_zero_within image_d :=
  reachable_zero_within.mkdir _ _ _ reachable_zero_within.init (by decide) (by decide)
    (by decide)

theorem refs_positive_within (s : State) (h : reachable_zero_within s) : refs_positive s := by
  induction h with
  | init =>
    exact returned_state _ _ 0 (by decide)
      (storage_init_refs_positive blank_image (fun i hi => by simp [blank_image] at hi))
  | mknod s p mode _ _ _ hr ih =>
    exact returned_state _ _ 0 hr (mknod_refs_positive s p mode ih)
  | mkdir s p mode _ _ _ hr ih =>
    exact returned_state _ _ 0 hr (directory_init_refs_positive s p mode ih)
  | link s a b _ _ _ _ hr ih => exact returned_state _ _ 0 hr (link_refs_positive s a b ih)
  | unlink s p _ _ _ hr ih => exact returned_state _ _ 0 hr (unlink_refs_positive s p ih)
  | rename s a b _ _ _ _ hr ih =>
    exact returned_state _ _ 0 hr (rename_refs_positive s a b ih)

/-- C21 (amended): in every state reachable from `storage_init` on a blank
image by calls of `storage_mknod`, `directory_init`, `storage_link`,
`storage_unlink` and `storage_rename` that return 0 and stay inside the bounds
of the image (paths that fit the buffer of `get_dir_path`, stored names of at
most 11 bytes, reference counts inside the range of `int`), the `refs` field
of every allocated inode is at least 1, in particular `refs >= 0`. -/
theorem C21_allocated_refs_positive (s : State) (h : reachable_zero_within s) (i : Int)
    (hi : s.inode_bitmap i = true) : 1 ≤ (get_inode s i).refs :=
  refs_positive_within s h i hi

theorem C21_allocated_refs_positive_witness :
    1 ≤ (get_inode image_d 0).refs :=
  C21_allocated_refs_positive image_d reachable_zero_within_image_d 0 (by decide)


/-! ### C22: the sizes of the allocated inodes -/

theorem size_step_of_frame (E : List Int) (s t : State)
    (hb : t.inode_bitmap = s.inode_bitmap)
    (hs : ∀ x, x ∉ E → (t.inodes x).size = (s.inodes x).size) : size_step E s t := by
  intro x hx hxE
  rw [hb] at hx
  exact Or.inl ⟨hx, hs x hxE⟩

theorem size_step_refl (E : List Int) (s : State) : size_step E s s :=
  size_step_of_frame E s s rfl (fun _ _ => rfl)

theorem size_step_trans (E1 E2 : List Int) (s t u : State)
    (h1 : size_step E1 s t) (h2 : size_step E2 t u) : size_step (E1 ++ E2) s u := by
  intro x hx hxE
  have hx1 : x ∉ E1 := fun h => hxE (List.mem_append_left _ h)
  have hx2 : x ∉ E2 := fun h => hxE (List.mem_append_right _ h)
  rcases h2 x hx hx2 with ⟨ht, he⟩ | hb
  · rcases h1 x ht hx1 with ⟨hs, he1⟩ | hb
    · exact Or.inl ⟨hs, he.trans he1⟩
    · right
      rw [he]
      exact hb
  · exact Or.inr hb

theorem size_step_mono (E1 E2 : List Int) (s t : State) (hsub : ∀ x, x ∈ E1 → x ∈ E2)
    (h : size_step E1 s t) : size_step E2 s t :=
  fun x hx hxE => h x hx (fun h1 => hxE (hsub x h1))

theorem sized_of_step (E P : List Int) (s t : State) (h : sized s P)
    (hst : size_step E s t) : sized t (E ++ P) := by
  intro x hx hxEP
  have hx1 : x ∉ E := fun h => hxEP (List.mem_append_left _ h)
  have hx2 : x ∉ P := fun h => hxEP (List.mem_append_right _ h)
  rcases hst x hx hx1 with ⟨hs, he⟩ | hb
  · have := h x hs hx2
    simp only [get_inode] at this ⊢
    rw [he]
    exact this
  · exact hb

theorem size_step_put (s : State) (d : Int) (n : List Char) (k : Int) :
    size_step [] s (directory_put s d n k).2 :=
  size_step_of_frame [] s _ (directory_put_frame s d n k).1
    (fun x _ => by rw [(directory_put_frame s d n k).2.2.2])

theorem size_step_delete (s : State) (d : Int) (n : List Char) :
    size_step [d] s (directory_delete s d n).2 :=
  size_step_of_frame [d] s _ (directory_delete_frame s d n).1
    (fun x hx => by
      rw [directory_delete_inodes_other s d n x (fun h => hx (by simp [h]))])

theorem size_step_alloc (s : State) (mode : Int) (b : Int) :
    size_step [] s
      (set_inode (alloc_block (set_inode (alloc_inode s).2 (alloc_inode s).1
          { (get_inode (alloc_inode s).2 (alloc_inode s).1) with
            refs := 1, mode := mode, size := 0 })).2 (alloc_inode s).1
        { (get_inode (alloc_block (set_inode (alloc_inode s).2 (alloc_inode s).1
            { (get_inode (alloc_inode s).2 (alloc_inode s).1) with
              refs := 1, mode := mode, size := 0 })).2 (alloc_inode s).1) with block := b }) := by
  intro x hx _
  simp only [set_inode, get_inode, alloc_block_inodes, alloc_block_inode_bitmap,
    alloc_inode_inodes] at hx ⊢
  by_cases hxk : x = (alloc_inode s).1
  · right
    simp [hxk]
  · left
    simp only [hxk, if_false]
    rcases alloc_inode_bitmap s x hx with h1 | h1
    · exact absurd h1 hxk
    · exact ⟨h1, trivial⟩

theorem mknod_size_step (s : State) (p : List Char) (mode : Int) :
    (storage_mknod s p mode).returned (size_step [] s) := by
  unfold storage_mknod
  simp only []
  repeat' split
  all_goals simp only [Outcome.returned]
  · exact size_step_refl [] s
  · exact size_step_trans [] [] _ _ _ (size_step_alloc s mode _) (size_step_put _ _ _ _)

theorem directory_init_size_step (s : State) (p : List Char) (mode : Int) :
    (directory_init s p mode).returned (size_step [] s) := by
  unfold directory_init
  simp only []
  repeat' split
  all_goals simp only [Outcome.returned]
  · exact size_step_refl [] s
  · exact size_step_alloc s mode _
  · exact size_step_trans [] [] _ _ _ (size_step_alloc s mode _)
      (size_step_trans [] [] _ _ _ (size_step_put _ _ _ _)
        (size_step_trans [] [] _ _ _ (size_step_put _ _ _ _) (size_step_put _ _ _ _)))

theorem size_step_set_refs (s : State) (f : Int) (r : Int) :
    size_step [] s (set_inode s f { (get_inode s f) with refs := r }) := by
  refine size_step_of_frame [] s _ rfl (fun x _ => ?_)
  simp only [set_inode, get_inode]
  split
  · next h => rw [h]
  · rfl

theorem link_size_step (s : State) (a b : List Char) :
    (storage_link s a b).returned (size_step [] s) := by
  unfold storage_link
  simp only []
  repeat' split
  all_goals simp only [Outcome.returned]
  · exact size_step_refl [] s
  · exact size_step_refl [] s
  · exact size_step_set_refs s _ _
  · exact size_step_trans [] [] _ _ _ (size_step_set_refs s _ _) (size_step_put _ _ _ _)

theorem parent_inum_eq (s : State) (p dp : List Char) (d : Int)
    (h1 : get_dir_path p = some dp) (h2 : tree_lookup s dp = some d) :
    parent_inum s p = d := by
  simp only [parent_inum, h1, h2]

theorem parent_inum_congr (s t : State) (p : List Char)
    (hb : ∀ d, (t.inodes d).block = (s.inodes d).block) (hd : t.dirents = s.dirents) :
    parent_inum t p = parent_inum s p := by
  unfold parent_inum
  split
  · rfl
  · rw [tree_lookup_congr s t _ hb hd]

theorem size_step_clear (s : State) (bm : Int → Bool) (i : Int) :
    size_step [] s
      { s with blocks_bitmap := bm, inode_bitmap := bitmap_put s.inode_bitmap i false } := by
  intro x hx _
  simp only [bitmap_put] at hx
  left
  by_cases hxi : x = i
  · simp [hxi] at hx
  · rw [if_neg hxi] at hx
    exact ⟨hx, rfl⟩

theorem unlink_size_step (s : State) (p : List Char) :
    (storage_unlink s p).returned (size_step [parent_inum s p] s) := by
  unfold storage_unlink
  simp only []
  split
  · simp only [Outcome.returned]
  · split
    · exact size_step_refl _ s
    · split
      · next dir_path file_name h2 h3 =>
        split
        · simp only [Outcome.returned]
        · next dir_inum h4 =>
          have hpar : parent_inum s p = dir_inum := by
            rw [← parent_inum_congr s _ p (fun d => set_inode_refs_block s _ _ d) rfl]
            exact parent_inum_eq _ p dir_path dir_inum h2 h4
          rw [hpar]
          split
          · simp only [Outcome.returned]
          · split
            · exact size_step_trans [] ([dir_inum] ++ []) _ _ _ (size_step_set_refs s _ _)
                (size_step_trans [dir_inum] [] _ _ _ (size_step_delete _ _ _)
                  (size_step_clear _ _ _))
            · exact size_step_trans [] [dir_inum] _ _ _ (size_step_set_refs s _ _)
                (size_step_delete _ _ _)
      · simp only [Outcome.returned]

theorem rename_move_size_step (s : State) (a b : List Char) (i : Int) :
    (rename_move s a b i).returned (size_step [parent_inum s a] s) := by
  unfold rename_move
  simp only []
  split
  · simp only [Outcome.returned]
  · next from_dir_path h1 =>
    split
    · simp only [Outcome.returned]
    · next from_dir_inum h2 =>
      rw [parent_inum_eq s a from_dir_path from_dir_inum h1 h2]
      repeat' split
      all_goals simp only [Outcome.returned]
      · exact size_step_delete _ _ _
      · exact size_step_trans [from_dir_inum] [] _ _ _ (size_step_delete _ _ _)
          (size_step_put _ _ _ _)

theorem returned_mono (o : Outcome) (P Q : State → Prop) (h : o.returned P)
    (hPQ : ∀ t, P t → Q t) : o.returned Q := by
  cases o with
  | ret rv t => exact hPQ t h
  | abort t => trivial

theorem rename_size_step (s : State) (a b : List Char) :
    (storage_rename s a b).returned
      (size_step [parent_inum s b, parent_inum (storage_unlink s b).state a, parent_inum s a]
        s) := by
  have hu := unlink_size_step s b
  have hdirect : ∀ i, (rename_move s a b i).returned
      (size_step [parent_inum s b, parent_inum (storage_unlink s b).state a, parent_inum s a]
        s) :=
    fun i => returned_mono _ _ _ (rename_move_size_step s a b i)
      (fun t ht => size_step_mono _ _ s t (fun x hx => by simp at hx ⊢; simp [hx]) ht)
  unfold storage_rename
  repeat' split
  all_goals try exact hdirect _
  all_goals try (simp only [Outcome.returned]; done)
  all_goals try exact size_step_refl _ s
  all_goals
    rename_i heq _
    rw [heq] at hu ⊢
    simp only [Outcome.returned, Outcome.state] at hu ⊢
    refine returned_mono _ _ _ (rename_move_size_step _ a b _) (fun t ht => ?_)
    exact size_step_mono _ _ s t (fun x hx => by simp at hx ⊢; tauto)
      (size_step_trans _ _ _ _ _ hu ht)

theorem write_sized (s : State) (P : List Int) (p : List Char) (buf : List Nat) (n : Nat)
    (off : Int) (h : sized s P) (hin : off + n ≤ 4096) (hoff : 0 ≤ off) :
    (storage_write s p buf n off).returned (fun t => sized t (parent_inum s p :: P)) := by
  have hweak : sized s (parent_inum s p :: P) :=
    fun i hi hiP => h i hi (fun hp => hiP (List.mem_cons_of_mem _ hp))
  unfold storage_write
  simp only []
  split
  · trivial
  · split
    · trivial
    · next f h1 =>
      split
      · exact hweak
      · next hf =>
        split
        · trivial
        · next hcap =>
          split
          · trivial
          · next dp h2 =>
            split
            · trivial
            · next d h3 =>
              have h3s : tree_lookup s dp = some d := by
                refine (tree_lookup_congr s _ dp ?_ ?_).symm.trans h3
                · intro x
                  simp only [set_inode, get_inode, memcpy_to]
                  split
                  · next hx => rw [hx]
                  · rfl
                · rfl
              have hpar : parent_inum s p = d := parent_inum_eq s p dp d h2 h3s
              rw [hpar]
              intro x hx hxP
              have hxd : x ≠ d := fun hc => hxP (by simp [hc])
              have hxP2 : x ∉ P := fun hc => hxP (List.mem_cons_of_mem _ hc)
              have hs := h x hx hxP2
              simp only [set_inode, get_inode, memcpy_to, if_true, not_not] at hcap hs ⊢
              rw [if_neg hxd]
              by_cases hxf : x = f
              · subst hxf
                simp only [if_true]
                refine ⟨?_, hcap⟩
                rw [to_int32_id _ (by omega) (by omega)]
                omega
              · rw [if_neg hxf]
                exact hs

theorem root_init_size_step (s : State) : (root_init s).returned (size_step [] s) := by
  unfold root_init
  simp only []
  repeat' split
  all_goals simp only [Outcome.returned]
  refine size_step_trans [] [] _ _ _ ?_ (size_step_put _ _ _ _)
  intro x hx _
  simp only [set_inode, get_inode, alloc_block_inodes, alloc_block_inode_bitmap,
    bitmap_put] at hx ⊢
  by_cases hx2 : x = 2
  · right
    simp [hx2]
  · left
    simp only [hx2, if_false] at hx ⊢
    exact ⟨hx, trivial⟩

theorem storage_init_size_step (s : State) : (storage_init s).returned (size_step [] s) := by
  have h1 : size_step [] s (inode_table_init s) := size_step_of_frame [] s _ rfl (fun _ _ => rfl)
  unfold storage_init
  simp only []
  split
  · split
    · have hr := root_init_size_step (inode_table_init s)
      split
      · simp only [Outcome.returned]
      · rename_i heq
        rw [heq] at hr
        exact size_step_trans [] [] _ _ _ h1 hr
    · exact h1
  · split
    · have hr := root_init_size_step s
      split
      · simp only [Outcome.returned]
      · rename_i heq
        rw [heq] at hr
        exact hr
    · exact size_step_refl [] s

theorem sized_reachable (s : State) (P : List Int) (h : reachable_with_parents s P) :
    sized s P := by
  induction h with
  | init =>
    exact returned_state _ _ 0 (by decide)
      (returned_mono _ _ _ (storage_init_size_step blank_image)
        (fun t ht => sized_of_step [] [] blank_image t
          (fun i hi => by simp [blank_image] at hi) ht))
  | views s t P _ hb _ _ hsz ih =>
    intro i hi hiP
    rw [hb] at hi
    have := ih i hi hiP
    simp only [get_inode] at this ⊢
    rw [hsz i hiP]
    exact this
  | mknod s P p mode r _ _ hr ih =>
    exact returned_state _ _ r hr (returned_mono _ _ _ (mknod_size_step s p mode)
      (fun t ht => sized_of_step [] P s t ih ht))
  | mkdir s P p mode r _ _ hr ih =>
    exact returned_state _ _ r hr (returned_mono _ _ _ (directory_init_size_step s p mode)
      (fun t ht => sized_of_step [] P s t ih ht))
  | write s P p buf n off r _ hw hr ih =>
    exact returned_state _ _ r hr
      (write_sized s P p buf n off ih hw.2.2.2.2.1 hw.2.2.2.1)
  | link s P a b r _ _ hr ih =>
    exact returned_state _ _ r hr (returned_mono _ _ _ (link_size_step s a b)
      (fun t ht => sized_of_step [] P s t ih ht))
  | unlink s P p r _ _ hr ih =>
    exact returned_state _ _ r hr (returned_mono _ _ _ (unlink_size_step s p)
      (fun t ht => sized_of_step _ P s t ih ht))
  | rename s P a b r _ _ hr ih =>
    exact returned_state _ _ r hr (returned_mono _ _ _ (rename_size_step s a b)
      (fun t ht => sized_of_step _ P s t ih ht))

theorem reachable_with_parents_image_a1 :
    reachable_with_parents image_a1 [parent_inum image_a "/a".toList] :=
  reachable_with_parents.write _ _ _ _ _ _ 1
    (reachable_with_parents.mknod _ _ _ _ 0 reachable_with_parents.init
      create_within_init_image (by decide))
    (write_within_image_a 1 0 (by decide) (by decide)) (by decide)

/-- C22 (amended): in every state reachable from `storage_init` on a blank
image by calls of `storage_mknod`, `directory_init`, `storage_write`,
`storage_link`, `storage_unlink` and `storage_rename` that return normally,
each made inside its bounds (`create_within`, `write_within`, `link_within`,
`unlink_within`, `rename_within`), every allocated inode that has not been the
parent directory of a path written, unlinked or renamed satisfies
`0 <= size <= 4096`. -/
theorem C22_sizes_bounded_but_parents (s : State) (P : List Int)
    (h : reachable_with_parents s P) (i : Int) (hi : s.inode_bitmap i = true)
    (hP : i ∉ P) : 0 ≤ (get_inode s i).size ∧ (get_inode s i).size ≤ 4096 :=
  sized_reachable s P h i hi hP

theorem C22_sizes_bounded_but_parents_witness :
    0 ≤ (get_inode image_a1 0).size ∧ (get_inode image_a1 0).size ≤ 4096 :=
  C22_sizes_bounded_but_parents image_a1 [parent_inum image_a "/a".toList]
    reachable_with_parents_image_a1 0 (by decide) (by decide)


end NUFS
